import Mathlib

/-! dxmt: command chunks, the CPU fence and dynamic-resource rotation

A shallow embedding of `src/dxmt/dxmt_command_queue.hpp` and
`src/d3d11/mtld11_resource_dynamic.cpp`, followed by the theorems that settle
the claims of the specification.

Conventions of the embedding

* `std::size_t`, `std::uintptr_t` and `uint64_t` are 64-bit: a value is a `Nat`
  below `WORD = 2 ^ 64` and every arithmetic result is reduced `% WORD`.
* A nullable pointer is an `Option Nat` (`none` is `nullptr`), a pointer that is
  never null a `Nat` (the address).
* Heap memory is a typed store: the object constructed at an address together
  with its size in bytes; storing an object ends every object it overlaps.
* A loop that walks a linked structure takes a fuel argument and reports
  `Fault.outOfFuel` when the fuel does not suffice.
-/

namespace dxmt

/-! ## Part 1: `dxmt_command_queue.hpp` -/

/-- Number of values of a 64-bit machine word. -/
def WORD : Nat := 2 ^ 64

/-- Source: `align_forward_adjustment(ptr, alignment)`, lines 29-35.
`aligned = (iptr - 1u + alignment) & -alignment; return aligned - iptr;`
with all operations on `std::uintptr_t`. -/
def align_forward_adjustment (ptr alignment : Nat) : Nat :=
  let iptr := ptr % WORD
  let aligned := ((iptr + (WORD - 1) + alignment) % WORD) &&& ((WORD - alignment % WORD) % WORD)
  (aligned + (WORD - iptr)) % WORD

/-- Source: `ptr_add(p, amount)`, lines 37-40. -/
def ptr_add (p amount : Nat) : Nat := (p + amount) % WORD

/-- Source: line 42. -/
def kCommandChunkCount : Nat := 8

/-- Source: line 43. -/
def kCommandChunkCPUHeapSize : Nat := 0x800000

/-- Source: line 44. -/
def kCommandChunkGPUHeapSize : Nat := 0x800000

/-- Source: `context_t`, lines 106-122. Handles of native objects are numbers,
`0` standing for an empty `Obj<>` or a null reference. -/
structure context_t where
  chk : Nat
  cmdbuf : Nat
  render_encoder : Nat
  compute_encoder : Nat
  cs_threadgroup_size : Nat × Nat × Nat
  blit_encoder : Nat
  current_index_buffer_ref : Nat

/-- Source: the constructor `context_t(chk, cmdbuf)`, lines 118-119; the other
members are value-initialised. -/
def context_t.init (chk cmdbuf : Nat) : context_t :=
  { chk := chk, cmdbuf := cmdbuf, render_encoder := 0, compute_encoder := 0,
    cs_threadgroup_size := (0, 0, 0), blit_encoder := 0, current_index_buffer_ref := 0 }

/-- A callable `F` with `cpu_cmd<F, context>` (lines 24-27), wrapped as
`EFunc<context, F>` (lines 82-93): `call` is `std::invoke(func, ctx)` acting on
the context passed by reference, `sizeof_EFunc` and `alignof_EFunc` are
`sizeof(EFunc<context, F>)` and `alignof(EFunc<context, F>)`. -/
structure Closure where
  sizeof_EFunc : Nat
  alignof_EFunc : Nat
  call : context_t → context_t

/-- The value `sizeof(Node<BFunc<context> *>)`: two 8-byte pointers (lines 101-104). -/
def sizeof_Node : Nat := 16

/-- The value `alignof(Node<BFunc<context> *>)`. -/
def alignof_Node : Nat := 8

/-- An object living in the CPU argument heap: an `EFunc` built by placement
new, or a list node `Node{value, next}`. -/
inductive HeapObject where
  | func (f : Closure)
  | node (value : Nat) (next : Option Nat)

/-- An object with its extent in bytes. -/
structure Cell where
  size : Nat
  obj : HeapObject

/-- The typed store: the live object that starts at each address. -/
abbrev Memory := Nat → Option Cell

/-- Write an object of `size` bytes at `addr`. Every live object whose bytes
overlap `[addr, addr + size)` is overwritten and ceases to exist. -/
def Memory.store (m : Memory) (addr size : Nat) (o : HeapObject) : Memory :=
  fun x =>
    if x = addr then some ⟨size, o⟩
    else match m x with
      | some c => if x < addr + size ∧ addr < x + c.size then none else some c
      | none => none

/-- End the lifetime of the object at `addr` (an explicit destructor call). -/
def Memory.destroy (m : Memory) (addr : Nat) : Memory :=
  fun x => if x = addr then none else m x

/-- What a run of the embedded code can die of. -/
inductive Fault where
  | outOfFuel
  | assertFailed
  | invalidAccess
  deriving DecidableEq, Repr

/-- Where `list_end` points: at the member `monoid_list` of the chunk itself or
at a node in the CPU heap. -/
inductive NodeRef where
  | monoid_list
  | heap (addr : Nat)
  deriving DecidableEq, Repr

/-- Source: `class CommandChunk`, members at lines 194-202. `this_ptr` is the
address of the chunk, `err_log` collects the lines written by `ERR`. -/
structure CommandChunk where
  this_ptr : Nat
  cpu_argument_heap : Nat
  gpu_argument_heap : Nat
  cpu_arugment_heap_offset : Nat
  gpu_arugment_heap_offset : Nat
  monoid_list_next : Option Nat
  list_end : NodeRef
  attached_cmdbuf : Nat
  memory : Memory
  err_log : List String

/-- Source: the constructor `CommandChunk()`, lines 207-208: it links the empty
chain and leaves the heap pointers and offsets as the caller provides them. -/
def CommandChunk.construct (this_ptr cpu_heap gpu_heap cpu_off gpu_off : Nat) (mem : Memory) :
    CommandChunk :=
  { this_ptr := this_ptr, cpu_argument_heap := cpu_heap, gpu_argument_heap := gpu_heap,
    cpu_arugment_heap_offset := cpu_off, gpu_arugment_heap_offset := gpu_off,
    monoid_list_next := none, list_end := NodeRef.monoid_list, attached_cmdbuf := 0,
    memory := mem, err_log := [] }

/-- Source: `allocate_cpu_heap(size, alignment)`, lines 137-147. Returns the
chunk after the call and the pointer handed out. -/
def CommandChunk.allocate_cpu_heap (chk : CommandChunk) (size alignment : Nat) :
    CommandChunk × Nat :=
  let adjustment := align_forward_adjustment chk.cpu_arugment_heap_offset alignment
  let aligned := (chk.cpu_arugment_heap_offset + adjustment) % WORD
  let offset := (aligned + size) % WORD
  let log :=
    if offset ≥ kCommandChunkCPUHeapSize then
      chk.err_log ++ [toString offset ++ " - cpu argument heap overflow, expect error."]
    else chk.err_log
  ({ chk with cpu_arugment_heap_offset := offset, err_log := log },
    ptr_add chk.cpu_argument_heap aligned)

/-- Source: `inspect_gpu_heap()`, lines 149-151. -/
def CommandChunk.inspect_gpu_heap (chk : CommandChunk) : Nat × Nat :=
  (chk.gpu_argument_heap, chk.gpu_arugment_heap_offset)

/-- Source: `allocate_gpu_heap(size, alignment)`, lines 153-163. Returns the
chunk after the call and the pair (buffer, offset in the buffer). -/
def CommandChunk.allocate_gpu_heap (chk : CommandChunk) (size alignment : Nat) :
    CommandChunk × (Nat × Nat) :=
  let adjustment := align_forward_adjustment chk.gpu_arugment_heap_offset alignment
  let aligned := (chk.gpu_arugment_heap_offset + adjustment) % WORD
  let offset := (aligned + size) % WORD
  let log :=
    if offset > kCommandChunkGPUHeapSize then
      chk.err_log ++ ["gpu argument heap overflow, expect error."]
    else chk.err_log
  ({ chk with gpu_arugment_heap_offset := offset, err_log := log },
    (chk.gpu_argument_heap, aligned))

/-- Source: `emit(func)`, lines 169-179. The assignment `list_end->next = ptr_node`
goes to the member `monoid_list` or to the node in the heap that `list_end`
points at; it is an invalid access when no node lives there any more. -/
def CommandChunk.emit (chk : CommandChunk) (func : Closure) : Except Fault CommandChunk :=
  let (chk1, ptr) := chk.allocate_cpu_heap (1 * func.sizeof_EFunc) func.alignof_EFunc
  let mem1 := chk1.memory.store ptr func.sizeof_EFunc (HeapObject.func func)
  let (chk2, ptr_node) := chk1.allocate_cpu_heap (1 * sizeof_Node) alignof_Node
  let mem2 := mem1.store ptr_node sizeof_Node (HeapObject.node ptr none)
  match chk2.list_end with
  | NodeRef.monoid_list =>
    Except.ok { chk2 with monoid_list_next := some ptr_node, list_end := NodeRef.heap ptr_node,
                          memory := mem2 }
  | NodeRef.heap last =>
    match mem2 last with
    | some ⟨sz, HeapObject.node value _⟩ =>
      Except.ok { chk2 with list_end := NodeRef.heap ptr_node,
                            memory := mem2.store last sz (HeapObject.node value (some ptr_node)) }
    | _ => Except.error Fault.invalidAccess

/-- The loop of `encode`, lines 185-191: `fuel` bounds the number of iterations,
`invoked` lists the closures invoked so far, oldest first. -/
def CommandChunk.encodeLoop (chk : CommandChunk) :
    Nat → Option Nat → context_t → List Closure → Except Fault (context_t × List Closure)
  | _, none, context, invoked => Except.ok (context, invoked)
  | 0, some _, _, _ => Except.error Fault.outOfFuel
  | fuel + 1, some cur, context, invoked =>
    match chk.memory cur with
    | some ⟨_, HeapObject.node value next⟩ =>
      if value % WORD ≥ chk.cpu_argument_heap % WORD ∧
          value % WORD < (chk.cpu_argument_heap + chk.cpu_arugment_heap_offset) % WORD then
        match chk.memory value with
        | some ⟨_, HeapObject.func f⟩ =>
          chk.encodeLoop fuel next (f.call context) (invoked ++ [f])
        | _ => Except.error Fault.invalidAccess
      else Except.error Fault.assertFailed
    | _ => Except.error Fault.invalidAccess

/-- Source: `encode(cmdbuf)`, lines 181-192. Returns the chunk (with the command
buffer attached), the encoding context after the replay and the closures
invoked, in the order of invocation. -/
def CommandChunk.encode (fuel : Nat) (chk : CommandChunk) (cmdbuf : Nat) :
    Except Fault (CommandChunk × context_t × List Closure) :=
  let chk1 := { chk with attached_cmdbuf := cmdbuf }
  match chk1.encodeLoop fuel chk1.monoid_list_next (context_t.init chk1.this_ptr cmdbuf) [] with
  | Except.ok (context, invoked) => Except.ok (chk1, context, invoked)
  | Except.error e => Except.error e

/-- The loop of `reset`, lines 212-218: the destructor call ends the lifetime of
the closure object; `destroyed` lists the closures destroyed so far. -/
def CommandChunk.resetLoop (base offset : Nat) :
    Nat → Option Nat → Memory → List Closure → Except Fault (Memory × List Closure)
  | _, none, mem, destroyed => Except.ok (mem, destroyed)
  | 0, some _, _, _ => Except.error Fault.outOfFuel
  | fuel + 1, some cur, mem, destroyed =>
    match mem cur with
    | some ⟨_, HeapObject.node value next⟩ =>
      if value % WORD ≥ base % WORD ∧ value % WORD < (base + offset) % WORD then
        match mem value with
        | some ⟨_, HeapObject.func f⟩ =>
          CommandChunk.resetLoop base offset fuel next (mem.destroy value) (destroyed ++ [f])
        | _ => Except.error Fault.invalidAccess
      else Except.error Fault.assertFailed
    | _ => Except.error Fault.invalidAccess

/-- Source: `reset()`, lines 210-224. Returns the chunk after the reset and the
closures destroyed, in the order of destruction. -/
def CommandChunk.reset (fuel : Nat) (chk : CommandChunk) :
    Except Fault (CommandChunk × List Closure) :=
  match CommandChunk.resetLoop chk.cpu_argument_heap chk.cpu_arugment_heap_offset fuel
      chk.monoid_list_next chk.memory [] with
  | Except.ok (mem, destroyed) =>
    Except.ok ({ chk with cpu_arugment_heap_offset := 0, gpu_arugment_heap_offset := 0,
                          monoid_list_next := none, list_end := NodeRef.monoid_list,
                          attached_cmdbuf := 0, memory := mem }, destroyed)
  | Except.error e => Except.error e

/-- A call on a chunk made while recording. -/
inductive Call where
  | emit (func : Closure)
  | allocate_cpu_heap (size alignment : Nat)
  | allocate_gpu_heap (size alignment : Nat)

/-- Perform one recording call. -/
def CommandChunk.call (chk : CommandChunk) : Call → Except Fault CommandChunk
  | Call.emit func => chk.emit func
  | Call.allocate_cpu_heap size alignment => Except.ok (chk.allocate_cpu_heap size alignment).1
  | Call.allocate_gpu_heap size alignment => Except.ok (chk.allocate_gpu_heap size alignment).1

/-- Perform a sequence of recording calls, first to last. -/
def CommandChunk.run (chk : CommandChunk) : List Call → Except Fault CommandChunk
  | [] => Except.ok chk
  | c :: cs =>
    match chk.call c with
    | Except.ok chk1 => chk1.run cs
    | Except.error e => Except.error e

/-- The closures a sequence of calls emits, in order. -/
def emitted : List Call → List Closure
  | [] => []
  | Call.emit func :: cs => func :: emitted cs
  | _ :: cs => emitted cs

/-- The CPU heap offset after a bump of `size` bytes at `alignment`, computed in
unbounded arithmetic (no reduction modulo `WORD`). -/
def bump (off size alignment : Nat) : Nat :=
  off + align_forward_adjustment off alignment + size

/-- The CPU heap offset reached by a sequence of calls started at `off`, computed
in unbounded arithmetic. -/
def cpu_extent (off : Nat) : List Call → Nat
  | [] => off
  | Call.emit func :: cs =>
    cpu_extent (bump (bump off func.sizeof_EFunc func.alignof_EFunc) sizeof_Node alignof_Node) cs
  | Call.allocate_cpu_heap size alignment :: cs => cpu_extent (bump off size alignment) cs
  | Call.allocate_gpu_heap _ _ :: cs => cpu_extent off cs

/-- One link of the recorded chain: the node, the closure object it points at
and the closure stored there. -/
structure Entry where
  node : Nat
  value : Nat
  func : Closure

/-- The entries lie in `[lo, hi)` in increasing address order, each closure
object before its node, without overlap. -/
def Layout (lo : Nat) : List Entry → Nat → Prop
  | [], hi => lo ≤ hi
  | e :: rest, hi =>
    lo ≤ e.value ∧ 0 < e.func.sizeof_EFunc ∧ e.value + e.func.sizeof_EFunc ≤ e.node ∧
      Layout (e.node + sizeof_Node) rest hi

/-- Pointer to the first node of a chain. -/
def headPtr : List Entry → Option Nat
  | [] => none
  | e :: _ => some e.node

/-- The memory holds the chain: every node points at its closure object and at
the node of the next entry, the last node at `nullptr`. -/
def Linked (m : Memory) : List Entry → Prop
  | [] => True
  | e :: rest =>
    m e.node = some ⟨sizeof_Node, HeapObject.node e.value (headPtr rest)⟩ ∧
      m e.value = some ⟨e.func.sizeof_EFunc, HeapObject.func e.func⟩ ∧ Linked m rest

/-- What `list_end` is for a chain. -/
def lastRef : List Entry → NodeRef
  | [] => NodeRef.monoid_list
  | [e] => NodeRef.heap e.node
  | _ :: e :: rest => lastRef (e :: rest)

/-- The chunk holds exactly the chain `l`, inside the used part of its CPU heap,
and the end of that part is a valid address. -/
structure ChainInv (chk : CommandChunk) (l : List Entry) : Prop where
  bound : chk.cpu_argument_heap + chk.cpu_arugment_heap_offset < WORD
  layout : Layout chk.cpu_argument_heap l (chk.cpu_argument_heap + chk.cpu_arugment_heap_offset)
  linked : Linked chk.memory l
  first : chk.monoid_list_next = headPtr l
  last : chk.list_end = lastRef l

/-- The entry whose node `list_end` points at. -/
def lastEntry : List Entry → Option Entry
  | [] => none
  | [e] => some e
  | _ :: e :: rest => lastEntry (e :: rest)

/-- Emit a sequence of closures, first to last. -/
def CommandChunk.emitAll (chk : CommandChunk) : List Closure → Except Fault CommandChunk
  | [] => Except.ok chk
  | func :: rest =>
    match chk.emit func with
    | Except.ok chk1 => chk1.emitAll rest
    | Except.error e => Except.error e

/-- The chain of a chunk right after its constructor or after `reset()`: no node
is linked and `list_end` points at `monoid_list`. -/
def CommandChunk.chainEmpty (chk : CommandChunk) : Prop :=
  chk.monoid_list_next = none ∧ chk.list_end = NodeRef.monoid_list

/-- Replaying closures in order on one context, each one once. -/
def replay (ops : List Closure) (context : context_t) : context_t :=
  ops.foldl (fun c f => f.call c) context

/-- A small closure used in examples: it opens a render encoder. -/
def sampleOpA : Closure :=
  { sizeof_EFunc := 16, alignof_EFunc := 8, call := fun c => { c with render_encoder := 1 } }

/-- A small closure used in examples: it records the render encoder it finds as
the current index buffer and closes the encoder. -/
def sampleOpB : Closure :=
  { sizeof_EFunc := 40, alignof_EFunc := 16,
    call := fun c => { c with current_index_buffer_ref := c.render_encoder + 10,
                              render_encoder := 0 } }

/-- A chunk as the queue sets it up: heap at address `0x10000`, nothing
recorded, empty memory. -/
def sampleChunk : CommandChunk :=
  CommandChunk.construct 0x500 0x10000 7 0 0 (fun _ => none)

/-- Source: the sequence counters of `CommandQueue`, lines 236-240. -/
structure CommandQueue where
  ready_for_encode : Nat
  ready_for_commit : Nat
  chunk_ongoing : Nat
  cpu_coherent : Nat

/-- Source: the default member initialisers, lines 236-240. -/
def CommandQueue.init : CommandQueue :=
  { ready_for_encode := 1, ready_for_commit := 1, chunk_ongoing := 0, cpu_coherent := 0 }

/-- Source: `CoherentSeqId()`, lines 263-265. -/
def CommandQueue.CoherentSeqId (q : CommandQueue) : Nat := q.cpu_coherent

/-- Source: `CurrentSeqId()`, lines 267-269. -/
def CommandQueue.CurrentSeqId (q : CommandQueue) : Nat := q.ready_for_encode

/-- How a blocking call stands once the recorded history of the counter ends:
it has returned, or it is still blocked; `last` is the value of `cpu_coherent`
that the call loaded last. -/
inductive WaitOutcome where
  | returned (last : Nat)
  | blocked (last : Nat)
  deriving DecidableEq, Repr

/-- Source: `WaitCPUFence(seq)`, lines 278-286, run against a history of the
atomic counter: `current` is the value the first `load` returns and `later` the
values the counter takes afterwards, in order. The loop ends when the loaded
value is zero, the function returns when it equals `seq`, and otherwise
`cpu_coherent.wait(current)` blocks until the counter holds a value different
from `current`, after which the loop loads again. -/
def WaitCPUFence (seq : Nat) : Nat → List Nat → WaitOutcome
  | current, [] =>
    if current = 0 then WaitOutcome.returned current
    else if current = seq then WaitOutcome.returned current
    else WaitOutcome.blocked current
  | current, v :: vs =>
    if current = 0 then WaitOutcome.returned current
    else if current = seq then WaitOutcome.returned current
    else if v = current then WaitCPUFence seq current vs
    else WaitCPUFence seq v vs

/-- Source: `CommandQueue::WaitCPUFence` called on a queue, whose counter
`cpu_coherent` goes on to take the values `later`. -/
def CommandQueue.WaitCPUFence (q : CommandQueue) (seq : Nat) (later : List Nat) : WaitOutcome :=
  dxmt.WaitCPUFence seq q.cpu_coherent later

/-- A call on the heaps of a chunk. -/
inductive HeapCall where
  | allocate_cpu_heap (size alignment : Nat)
  | allocate_gpu_heap (size alignment : Nat)
  | reset

/-- A chunk together with two flags: whether an allocation on the CPU heap
(on the GPU heap) has written an overflow line to the log since the last reset. -/
structure TrackedChunk where
  chk : CommandChunk
  cpu_overflow_logged : Bool
  gpu_overflow_logged : Bool

/-- Perform one heap call; a flag is raised when the call adds a line to the
log, and `reset` (here with fuel 0: these calls link no node) lowers both. -/
def TrackedChunk.step (t : TrackedChunk) : HeapCall → Except Fault TrackedChunk
  | HeapCall.allocate_cpu_heap size alignment =>
    let chk1 := (t.chk.allocate_cpu_heap size alignment).1
    Except.ok { chk := chk1,
                cpu_overflow_logged :=
                  t.cpu_overflow_logged || decide (chk1.err_log ≠ t.chk.err_log),
                gpu_overflow_logged := t.gpu_overflow_logged }
  | HeapCall.allocate_gpu_heap size alignment =>
    let chk1 := (t.chk.allocate_gpu_heap size alignment).1
    Except.ok { chk := chk1,
                cpu_overflow_logged := t.cpu_overflow_logged,
                gpu_overflow_logged :=
                  t.gpu_overflow_logged || decide (chk1.err_log ≠ t.chk.err_log) }
  | HeapCall.reset =>
    match t.chk.reset 0 with
    | Except.ok (chk1, _) =>
      Except.ok { chk := chk1, cpu_overflow_logged := false, gpu_overflow_logged := false }
    | Except.error e => Except.error e

/-- Perform a sequence of heap calls, first to last. -/
def TrackedChunk.run (t : TrackedChunk) : List HeapCall → Except Fault TrackedChunk
  | [] => Except.ok t
  | c :: cs =>
    match t.step c with
    | Except.ok t1 => t1.run cs
    | Except.error e => Except.error e

/-- A chunk with nothing logged yet. -/
def TrackedChunk.start (chk : CommandChunk) : TrackedChunk :=
  { chk := chk, cpu_overflow_logged := false, gpu_overflow_logged := false }

/-- The offset reached from `off` by bumps of the given (size, alignment)
requests, in unbounded arithmetic. -/
def extent (off : Nat) : List (Nat × Nat) → Nat
  | [] => off
  | r :: rs => extent (bump off r.1 r.2) rs

/-- Serve a list of (size, alignment) requests from the CPU heap; returns the
chunk and the regions (pointer, size) handed out, oldest first. -/
def CommandChunk.cpuAllocs (chk : CommandChunk) : List (Nat × Nat) → CommandChunk × List (Nat × Nat)
  | [] => (chk, [])
  | r :: rs =>
    let a := chk.allocate_cpu_heap r.1 r.2
    let rest := a.1.cpuAllocs rs
    (rest.1, (a.2, r.1) :: rest.2)

/-- Serve a list of (size, alignment) requests from the GPU heap; returns the
chunk and the regions (offset in the buffer, size) handed out, oldest first. -/
def CommandChunk.gpuAllocs (chk : CommandChunk) : List (Nat × Nat) → CommandChunk × List (Nat × Nat)
  | [] => (chk, [])
  | r :: rs =>
    let a := chk.allocate_gpu_heap r.1 r.2
    let rest := a.1.gpuAllocs rs
    (rest.1, (a.2.2, r.1) :: rest.2)

/-- Two byte ranges `[p, p + s)` and `[q, q + t)` have no byte in common. -/
def disjoint (p s q t : Nat) : Prop := p + s ≤ q ∨ q + t ≤ p

/-- What holds of a tracked chunk after every heap call. -/
structure HeapInv (t : TrackedChunk) : Prop where
  chain : t.chk.chainEmpty
  cpu : t.chk.cpu_arugment_heap_offset ≤ kCommandChunkCPUHeapSize ∨ t.cpu_overflow_logged = true
  gpu : t.chk.gpu_arugment_heap_offset ≤ kCommandChunkGPUHeapSize ∨ t.gpu_overflow_logged = true

/-! ## Part 2: `mtld11_resource_dynamic.cpp` -/

/-- An `MTL::Buffer`: the identity of the object (`ptr`) and what
`gpuAddress()`, `contents()`, `length()` and `resourceOptions()` return. -/
structure MTLBuffer where
  ptr : Nat
  gpuAddress : Nat
  contents : Nat
  length : Nat
  resourceOptions : Nat
  deriving DecidableEq, Repr

/-- An `MTL::TextureDescriptor` as filled in at lines 358-369. -/
structure MTLTextureDescriptor where
  textureType : Nat
  width : Nat
  height : Nat
  depth : Nat
  arrayLength : Nat
  mipmapLevelCount : Nat
  sampleCount : Nat
  usage : Nat
  storageMode : Nat
  cpuCacheMode : Nat
  pixelFormat : Nat
  deriving DecidableEq, Repr

/-- An `MTL::Texture` made by `MTL::Buffer::newTexture(descriptor, offset,
bytesPerRow)`: the identity of the object, the buffer it is a view of, the
arguments it was made with and what `gpuResourceID()` returns. -/
structure MTLTexture where
  ptr : Nat
  buffer : MTLBuffer
  descriptor : MTLTextureDescriptor
  offset : Nat
  bytesPerRow : Nat
  gpuResourceID : Nat
  deriving DecidableEq, Repr

/-- The Metal device as far as view creation goes: `textures_made` counts the
texture objects made so far; each new texture object gets the next identity. -/
structure MTLDevice where
  textures_made : Nat
  deriving DecidableEq, Repr

/-- The call `buffer->newTexture(descriptor, offset, bytesPerRow)`; it makes a
new texture object over the buffer. -/
def MTLBuffer.newTexture (b : MTLBuffer) (dev : MTLDevice) (descriptor : MTLTextureDescriptor)
    (offset bytesPerRow : Nat) : MTLTexture × MTLDevice :=
  ({ ptr := dev.textures_made + 1, buffer := b, descriptor := descriptor, offset := offset,
     bytesPerRow := bytesPerRow, gpuResourceID := dev.textures_made + 1 },
   { textures_made := dev.textures_made + 1 })

/-- The type `BindingRef` of `dxmt_binding.hpp`, with the three constructors used
at lines 106, 153 and 255. -/
inductive BindingRef where
  | null
  | buffer (ptr : Nat)
  | texture (ptr : Option Nat)
  deriving DecidableEq, Repr

/-- The type `ArgumentData` of `dxmt_binding.hpp`, with the three constructors
used at lines 110, 154 and 257. -/
inductive ArgumentData where
  | size_only (a b : Nat)
  | buffer (handle : Nat)
  | texture (handle : Nat) (ptr : Option Nat)
  deriving DecidableEq, Repr

/-- The type `HRESULT`, with the codes returned in this file. -/
inductive HRESULT where
  | S_OK
  | S_FALSE
  | E_INVALIDARG
  | E_FAIL
  | E_NOTIMPL
  | E_POINTER
  | E_NOINTERFACE
  deriving DecidableEq, Repr

/-- Modelled from the spec: the class `BufferPool` of `dxmt_buffer_pool.hpp`,
which is not among the sources: "a free list of previously-allocated backing
buffers of one fixed size/option combination". -/
structure BufferPool where
  free : List MTLBuffer
  deriving DecidableEq, Repr

/-- Source: `std::make_unique<BufferPool>(device, length, options)`, lines 144
and 299-301: a pool with nothing released yet. -/
def BufferPool.make : BufferPool := { free := [] }

/-- Modelled from the spec: the interface `IMTLDynamicBufferExchange`, whose
implementation is not among the sources. An exchanger is described by
`incoming`, the backing allocation it obtains ("obtains a fresh backing
allocation from the pool (or allocates new)"). -/
structure IMTLDynamicBufferExchange where
  incoming : MTLBuffer
  deriving DecidableEq, Repr

/-- Modelled from the spec: `ExchangeFromPool(&buffer, &handle, &mapped, pool)`,
which is not among the sources: it "obtains a fresh backing allocation from the
pool (or allocates new), swaps it in as current, updates the GPU address /
mapped pointer". Returns the new values of `buffer`, `handle`, `mapped` and the
pool, from whose free list the allocation obtained is taken. -/
def IMTLDynamicBufferExchange.ExchangeFromPool (exch : IMTLDynamicBufferExchange)
    (pool : BufferPool) : MTLBuffer × Nat × Nat × BufferPool :=
  (exch.incoming, exch.incoming.gpuAddress, exch.incoming.contents,
   { free := pool.free.erase exch.incoming })

/-- A `DynamicBinding` object (lines 23-70) as built at lines 101, 151 and 252:
its address, its `parent`, the `BufferSwapCallback` it holds (named by a
number) and the pointer its three lambdas capture (`this` or `u`). -/
structure DynamicBinding where
  this_ptr : Nat
  parent : Nat
  observer : Nat
  captured : Nat
  deriving DecidableEq, Repr

/-- A call made on a view or on an observer through a pointer the resource
holds: `srv->RotateView()` and `observer->NotifyObserver(resource)`. -/
inductive Event where
  | RotateView (srv : Nat)
  | NotifyObserver (bindable : Nat) (resource : Nat)
  deriving DecidableEq, Repr

/-- Source: `class DynamicBuffer`, members at lines 78-82, 124, 126. -/
structure DynamicBuffer where
  this_ptr : Nat
  buffer_dynamic : MTLBuffer
  buffer_handle : Nat
  buffer_mapped : Nat
  observers : List Nat
  weak_srvs : List Nat
  pool : BufferPool
  deriving DecidableEq, Repr

/-- Source: the constructor of `DynamicBuffer`, lines 129-145; `newBuffer` is
the buffer that `metal->newBuffer(desc->ByteWidth, options)` returns. -/
def DynamicBuffer.construct (this_ptr : Nat) (newBuffer : MTLBuffer) : DynamicBuffer :=
  { this_ptr := this_ptr, buffer_dynamic := newBuffer, buffer_handle := newBuffer.gpuAddress,
    buffer_mapped := newBuffer.contents, observers := [], weak_srvs := [],
    pool := BufferPool.make }

/-- Source: `DynamicBuffer::GetMappedMemory`, line 147. -/
def DynamicBuffer.GetMappedMemory (res : DynamicBuffer) : Nat := res.buffer_mapped

/-- Source: `DynamicBuffer::AddObserver`, lines 173-176. -/
def DynamicBuffer.AddObserver (res : DynamicBuffer) (pBindable : Nat) : DynamicBuffer :=
  { res with observers := res.observers ++ [pBindable] }

/-- Source: `DynamicBuffer::RemoveObserver`, lines 178-183: `vec` is a reference
to `observers`, from which every occurrence of the pointer is erased. -/
def DynamicBuffer.RemoveObserver (res : DynamicBuffer) (pBindable : Nat) : DynamicBuffer :=
  { res with observers := res.observers.filter (fun p => p ≠ pBindable) }

/-- Source: `DynamicBuffer::GetBindable`, lines 149-160; `ret` is the address
of the object that `new DynamicBinding(...)` creates. Returns the resource and
what is written to `*ppResource`. -/
def DynamicBuffer.GetBindable (res : DynamicBuffer) (ret onBufferSwap : Nat) :
    DynamicBuffer × DynamicBinding :=
  (res.AddObserver ret,
   { this_ptr := ret, parent := res.this_ptr, observer := onBufferSwap, captured := res.this_ptr })

/-- Source: `~DynamicBinding` (line 40) for the lambda of lines 155-157,
`[this](IMTLNotifiedBindable *_binding) { this->RemoveObserver(_binding); }`. -/
def DynamicBinding.destroy_buffer (b : DynamicBinding) (res : DynamicBuffer) : DynamicBuffer :=
  res.RemoveObserver b.this_ptr

/-- Source: `DynamicBuffer::RotateBuffer`, lines 162-171. Returns the resource
and the calls made on views and observers, in order (`SRV::RotateView` of a
buffer view, lines 119-121, does nothing). -/
def DynamicBuffer.RotateBuffer (res : DynamicBuffer) (exch : IMTLDynamicBufferExchange) :
    DynamicBuffer × List Event :=
  let r := exch.ExchangeFromPool res.pool
  let res1 := { res with buffer_dynamic := r.1, buffer_handle := r.2.1, buffer_mapped := r.2.2.1,
                         pool := r.2.2.2 }
  (res1, res1.weak_srvs.map Event.RotateView ++
    res1.observers.map (fun observer => Event.NotifyObserver observer res1.buffer_dynamic.ptr))

/-- Rotate once per exchanger, first to last. -/
def DynamicBuffer.rotateAll (res : DynamicBuffer) : List IMTLDynamicBufferExchange → DynamicBuffer
  | [] => res
  | exch :: rest => (res.RotateBuffer exch).1.rotateAll rest

/-- The backing buffer installed by the last of the rotations, and the buffer
`b` current before them when there is no rotation. -/
def lastInstalled (b : MTLBuffer) : List IMTLDynamicBufferExchange → MTLBuffer
  | [] => b
  | exch :: rest => lastInstalled exch.incoming rest

/-- A buffer used in examples. -/
def sampleBufferA : MTLBuffer :=
  { ptr := 0xA00, gpuAddress := 0x10000, contents := 0x7000, length := 256, resourceOptions := 0 }

/-- A second buffer used in examples. -/
def sampleBufferB : MTLBuffer :=
  { ptr := 0xB00, gpuAddress := 0x20000, contents := 0x8000, length := 256, resourceOptions := 0 }

/-- A third buffer used in examples. -/
def sampleBufferC : MTLBuffer :=
  { ptr := 0xC00, gpuAddress := 0x30000, contents := 0x9000, length := 256, resourceOptions := 0 }

/-- The fields of `D3D11_SHADER_RESOURCE_VIEW_DESC` that this file reads. -/
structure D3D11_SHADER_RESOURCE_VIEW_DESC where
  Format : Nat
  ViewDimension : Nat
  Texture2D_MostDetailedMip : Nat
  Texture2D_MipLevels : Nat
  deriving DecidableEq, Repr

/-- The value `D3D11_SRV_DIMENSION_BUFFER`. -/
def D3D11_SRV_DIMENSION_BUFFER : Nat := 1

/-- The value `D3D10_SRV_DIMENSION_TEXTURE2D`. -/
def D3D10_SRV_DIMENSION_TEXTURE2D : Nat := 4

/-- The value `D3D11_SRV_DIMENSION_BUFFEREX`. -/
def D3D11_SRV_DIMENSION_BUFFEREX : Nat := 11

/-- The fields of `D3D11_TEXTURE2D_DESC` that this file reads. -/
structure D3D11_TEXTURE2D_DESC where
  Width : Nat
  Height : Nat
  Format : Nat
  deriving DecidableEq, Repr

/-- The fields of `MTL_FORMAT_DESC` that this file reads. -/
structure MTL_FORMAT_DESC where
  PixelFormat : Nat
  IsCompressed : Bool
  deriving DecidableEq, Repr

/-- The collaborators that `CreateShaderResourceView` calls and that are not
among the sources: `ExtractEntireResourceViewDescription(&desc, pDesc,
&finalDesc)` and `IMTLDXGIAdatper::QueryFormatDesc(format, &desc)`; `none`
stands for a failure `HRESULT`. -/
structure ViewCollaborators where
  ExtractEntireResourceViewDescription :
    D3D11_TEXTURE2D_DESC → Option D3D11_SHADER_RESOURCE_VIEW_DESC →
      Option D3D11_SHADER_RESOURCE_VIEW_DESC
  QueryFormatDesc : Nat → Option MTL_FORMAT_DESC

/-- Source: `struct ViewCache`, lines 266-269. -/
structure ViewCache where
  view : Option MTLTexture
  view_handle : Nat
  deriving DecidableEq, Repr

/-- A value-initialised `ViewCache`, the `{}` of line 275. -/
def ViewCache.empty : ViewCache := { view := none, view_handle := 0 }

/-- The `std::unordered_map<uint64_t, ViewCache>` of line 272, as the list of
its entries, newest first; a key occurs at most once. -/
abbrev ViewCacheMap := List (Nat × ViewCache)

/-- The entry of a key, if the map has one. -/
def ViewCacheMap.find (c : ViewCacheMap) (key : Nat) : Option ViewCache :=
  match c with
  | [] => none
  | e :: rest => if e.1 = key then some e.2 else ViewCacheMap.find rest key

/-- The call `cache.insert({key, value})`: the map and whether the insertion
took place (`insert.second`); an existing entry is left as it is. -/
def ViewCacheMap.insert (c : ViewCacheMap) (key : Nat) (value : ViewCache) :
    ViewCacheMap × Bool :=
  match ViewCacheMap.find c key with
  | some _ => (c, false)
  | none => ((key, value) :: c, true)

/-- Assignment through the reference `item` to the entry of `key`. -/
def ViewCacheMap.assign (c : ViewCacheMap) (key : Nat) (value : ViewCache) : ViewCacheMap :=
  c.map (fun e => if e.1 = key then (e.1, value) else e)

/-- Source: `class DynamicTexture2D`, members at lines 226-229, 287-289. -/
structure DynamicTexture2D where
  this_ptr : Nat
  desc : D3D11_TEXTURE2D_DESC
  buffer : MTLBuffer
  buffer_handle : Nat
  buffer_mapped : Nat
  bytes_per_row : Nat
  observers : List Nat
  weak_srvs : List Nat
  pool_ : BufferPool
  deriving DecidableEq, Repr

/-- Source: `class DynamicTexture2D::SRV`, members at lines 235-237, 272; `desc`
is the view description kept by the base class. -/
structure TextureSRV where
  desc : D3D11_SHADER_RESOURCE_VIEW_DESC
  view : Option MTLTexture
  view_handle : Nat
  view_desc : MTLTextureDescriptor
  cache : ViewCacheMap
  deriving DecidableEq, Repr

/-- Source: the constructor of `SRV`, lines 240-243. -/
def TextureSRV.construct (pDesc : D3D11_SHADER_RESOURCE_VIEW_DESC)
    (view_desc : MTLTextureDescriptor) : TextureSRV :=
  { desc := pDesc, view := none, view_handle := 0, view_desc := view_desc, cache := [] }

/-- Source: `SRV::RotateView`, lines 274-284, for the state `res` of the
resource the view belongs to. Returns the view and the device. -/
def TextureSRV.RotateView (srv : TextureSRV) (res : DynamicTexture2D) (dev : MTLDevice) :
    TextureSRV × MTLDevice :=
  let insert := ViewCacheMap.insert srv.cache res.buffer_handle ViewCache.empty
  let item := (ViewCacheMap.find insert.1 res.buffer_handle).getD ViewCache.empty
  if insert.2 then
    let made := res.buffer.newTexture dev srv.view_desc 0 res.bytes_per_row
    let item1 : ViewCache := { view := some made.1, view_handle := made.1.gpuResourceID }
    ({ srv with cache := ViewCacheMap.assign insert.1 res.buffer_handle item1,
                view := item1.view, view_handle := item1.view_handle }, made.2)
  else
    ({ srv with cache := insert.1, view := item.view, view_handle := item.view_handle }, dev)

/-- A dynamic texture with the objects that refer to it: the live `SRV`
objects by address, the Metal device, and the calls that `RotateBuffer` has
made on views and observers. -/
structure TextureWorld where
  res : DynamicTexture2D
  srvs : Nat → Option TextureSRV
  device : MTLDevice
  events : List Event

/-- Source: the constructor of `DynamicTexture2D`, lines 292-302. -/
def DynamicTexture2D.construct (this_ptr : Nat) (desc : D3D11_TEXTURE2D_DESC)
    (buffer : MTLBuffer) (bytesPerRow : Nat) : DynamicTexture2D :=
  { this_ptr := this_ptr, desc := desc, buffer := buffer, buffer_handle := buffer.gpuAddress,
    buffer_mapped := buffer.contents, bytes_per_row := bytesPerRow, observers := [],
    weak_srvs := [], pool_ := BufferPool.make }

/-- Source: `DynamicTexture2D::GetMappedMemory`, lines 304-307: the row pitch
written to `*pBytesPerRow` and the pointer returned. -/
def DynamicTexture2D.GetMappedMemory (res : DynamicTexture2D) : Nat × Nat :=
  (res.bytes_per_row, res.buffer_mapped)

/-- Source: `DynamicTexture2D::AddObserver`, lines 320-323. -/
def DynamicTexture2D.AddObserver (res : DynamicTexture2D) (pBindable : Nat) : DynamicTexture2D :=
  { res with observers := res.observers ++ [pBindable] }

/-- Source: `DynamicTexture2D::RemoveObserver`, lines 325-330: `auto vec =
observers;` makes `vec` a copy of the member, the pointer is erased from the
copy, and the copy is dropped when the function returns. -/
def DynamicTexture2D.RemoveObserver (res : DynamicTexture2D) (pBindable : Nat) :
    DynamicTexture2D :=
  let vec := res.observers
  let _erased := vec.filter (fun p => p ≠ pBindable)
  res

/-- Source: `~SRV`, lines 245-248: `auto vec = resource->weak_srvs;` makes
`vec` a copy, the pointer is erased from the copy, and the copy is dropped;
after the destructor the object at `srv` no longer exists. -/
def TextureWorld.destroySRV (w : TextureWorld) (srv : Nat) : TextureWorld :=
  let vec := w.res.weak_srvs
  let _erased := vec.filter (fun p => p ≠ srv)
  { w with srvs := fun p => if p = srv then none else w.srvs p }

/-- Source: `SRV::GetBindable`, lines 250-264, called on the view at address
`srv`; `ret` is the address of the object that `new DynamicBinding(...)`
creates. The lambdas capture the view (`this`) and its resource (`u`). -/
def TextureWorld.GetBindable (w : TextureWorld) (srv ret onBufferSwap : Nat) :
    TextureWorld × DynamicBinding :=
  ({ w with res := w.res.AddObserver ret },
   { this_ptr := ret, parent := srv, observer := onBufferSwap, captured := srv })

/-- Source: `DynamicBinding::GetBinding` (line 56) for the lambda of line 255,
`[this](uint64_t) { return BindingRef(this->view.ptr()); }`: it reads the view
object that the captured `SRV` holds when the call is made. -/
def DynamicBinding.GetBinding_texture (b : DynamicBinding) (w : TextureWorld) (_x : Nat) :
    Except Fault BindingRef :=
  match w.srvs b.captured with
  | some srv => Except.ok (BindingRef.texture (srv.view.map MTLTexture.ptr))
  | none => Except.error Fault.invalidAccess

/-- Source: `DynamicBinding::GetArgumentData` (lines 58-60) for the lambda of
lines 256-258, `ArgumentData(this->view_handle, this->view.ptr())`. -/
def DynamicBinding.GetArgumentData_texture (b : DynamicBinding) (w : TextureWorld) :
    Except Fault ArgumentData :=
  match w.srvs b.captured with
  | some srv => Except.ok (ArgumentData.texture srv.view_handle (srv.view.map MTLTexture.ptr))
  | none => Except.error Fault.invalidAccess

/-- Source: `~DynamicBinding` (line 40) for the lambda of lines 259-261,
`[u](IMTLNotifiedBindable *_this) { u->RemoveObserver(_this); }`. -/
def DynamicBinding.destroy_texture (b : DynamicBinding) (w : TextureWorld) : TextureWorld :=
  { w with res := w.res.RemoveObserver b.this_ptr }

/-- The call `srv->RotateView()` through a pointer held in `weak_srvs`: an
invalid access when no `SRV` lives at that address. -/
def TextureWorld.RotateView (w : TextureWorld) (srv : Nat) : Except Fault TextureWorld :=
  match w.srvs srv with
  | some s =>
    let r := s.RotateView w.res w.device
    Except.ok { w with srvs := fun p => if p = srv then some r.1 else w.srvs p,
                       device := r.2, events := w.events ++ [Event.RotateView srv] }
  | none => Except.error Fault.invalidAccess

/-- The loop of lines 312-314 over the pointers in `weak_srvs`. -/
def TextureWorld.rotateViewsOf (w : TextureWorld) : List Nat → Except Fault TextureWorld
  | [] => Except.ok w
  | srv :: rest =>
    match w.RotateView srv with
    | Except.ok w1 => w1.rotateViewsOf rest
    | Except.error e => Except.error e

/-- Source: `DynamicTexture2D::RotateBuffer`, lines 309-318. -/
def TextureWorld.RotateBuffer (w : TextureWorld) (exch : IMTLDynamicBufferExchange) :
    Except Fault TextureWorld :=
  let r := exch.ExchangeFromPool w.res.pool_
  let w1 := { w with res := { w.res with buffer := r.1, buffer_handle := r.2.1,
                                          buffer_mapped := r.2.2.1, pool_ := r.2.2.2 } }
  match w1.rotateViewsOf w1.res.weak_srvs with
  | Except.ok w2 =>
    Except.ok { w2 with events := w2.events ++
      w2.res.observers.map (fun observer => Event.NotifyObserver observer w2.res.buffer.ptr) }
  | Except.error e => Except.error e

/-- Rotate once per exchanger, first to last. -/
def TextureWorld.rotateAll (w : TextureWorld) :
    List IMTLDynamicBufferExchange → Except Fault TextureWorld
  | [] => Except.ok w
  | exch :: rest =>
    match w.RotateBuffer exch with
    | Except.ok w1 => w1.rotateAll rest
    | Except.error e => Except.error e

/-- The value `MTL::TextureType2D`. -/
def MTL_TextureType2D : Nat := 2

/-- The value `MTL::TextureUsageShaderRead`. -/
def MTL_TextureUsageShaderRead : Nat := 1

/-- The value `MTL::StorageModeShared`. -/
def MTL_StorageModeShared : Nat := 0

/-- The value `MTL::CPUCacheModeWriteCombined`. -/
def MTL_CPUCacheModeWriteCombined : Nat := 1

/-- Source: `DynamicTexture2D::CreateShaderResourceView`, lines 332-375.
`pDesc` is the description passed (`none` for a null pointer), `ppView` tells
whether the output pointer is non-null, `srv` is the address of the object
that `new SRV(...)` creates. Returns the `HRESULT`, what is written to
`*ppView` (`none` when nothing is written) and the world after the call. -/
def TextureWorld.CreateShaderResourceView (w : TextureWorld) (env : ViewCollaborators)
    (pDesc : Option D3D11_SHADER_RESOURCE_VIEW_DESC) (ppView : Bool) (srv : Nat) :
    Except Fault (HRESULT × Option Nat × TextureWorld) :=
  match env.ExtractEntireResourceViewDescription w.res.desc pDesc with
  | none => Except.ok (HRESULT.E_INVALIDARG, none, w)
  | some finalDesc =>
    if finalDesc.ViewDimension ≠ D3D10_SRV_DIMENSION_TEXTURE2D then
      Except.ok (HRESULT.E_FAIL, none, w)
    else if finalDesc.Texture2D_MostDetailedMip ≠ 0 ∨ finalDesc.Texture2D_MipLevels ≠ 1 then
      Except.ok (HRESULT.E_FAIL, none, w)
    else if ¬ ppView then
      Except.ok (HRESULT.S_FALSE, none, w)
    else
      match env.QueryFormatDesc finalDesc.Format with
      | none => Except.ok (HRESULT.E_FAIL, none, w)
      | some format =>
        let desc : MTLTextureDescriptor :=
          { textureType := MTL_TextureType2D, width := w.res.desc.Width,
            height := w.res.desc.Height, depth := 1, arrayLength := 1, mipmapLevelCount := 1,
            sampleCount := 1, usage := MTL_TextureUsageShaderRead,
            storageMode := MTL_StorageModeShared, cpuCacheMode := MTL_CPUCacheModeWriteCombined,
            pixelFormat := format.PixelFormat }
        let w1 := { w with srvs := fun p => if p = srv then some (TextureSRV.construct finalDesc desc)
                                            else w.srvs p,
                           res := { w.res with weak_srvs := w.res.weak_srvs ++ [srv] } }
        match w1.RotateView srv with
        | Except.ok w2 => Except.ok (HRESULT.S_OK, some srv, w2)
        | Except.error e => Except.error e

/-- Every entry of the cache of a view holds a texture object made over a
buffer of `all` whose GPU address is the key of the entry. -/
def CacheOK (all : List MTLBuffer) (s : TextureSRV) : Prop :=
  ∀ k item, ViewCacheMap.find s.cache k = some item →
    ∃ t, item.view = some t ∧ item.view_handle = t.gpuResourceID ∧
      t.buffer.gpuAddress = k ∧ t.buffer ∈ all

/-- The view object installed in a view is one made over the buffer that is
current in the resource. -/
def ViewCurrent (res : DynamicTexture2D) (s : TextureSRV) : Prop :=
  ∃ t, s.view = some t ∧ s.view_handle = t.gpuResourceID ∧ t.buffer = res.buffer

/-- Distinct buffers of the list have distinct GPU addresses. -/
def AddressesDistinct (all : List MTLBuffer) : Prop :=
  ∀ b ∈ all, ∀ c ∈ all, b.gpuAddress = c.gpuAddress → b = c

/-- The buffers that are current at some time: the one current at the start and
the ones the exchangers bring in. -/
def buffersInPlay (b : MTLBuffer) (exchs : List IMTLDynamicBufferExchange) : List MTLBuffer :=
  b :: exchs.map IMTLDynamicBufferExchange.incoming

/-- Collaborators used in examples: a null description is resolved to the
whole-resource 2D view of the texture, every format is known. -/
def sampleCollaborators : ViewCollaborators :=
  { ExtractEntireResourceViewDescription := fun desc pDesc =>
      match pDesc with
      | some d => some d
      | none => some { Format := desc.Format, ViewDimension := D3D10_SRV_DIMENSION_TEXTURE2D,
                       Texture2D_MostDetailedMip := 0, Texture2D_MipLevels := 1 },
    QueryFormatDesc := fun format => some { PixelFormat := format + 42, IsCompressed := false } }

/-- A dynamic 64 x 64 texture over `sampleBufferA`, with no view yet. -/
def sampleTextureWorld : TextureWorld :=
  { res := DynamicTexture2D.construct 0x300 { Width := 64, Height := 64, Format := 28 }
      sampleBufferA 256,
    srvs := fun _ => none, device := { textures_made := 0 }, events := [] }

/-- The world of `sampleTextureWorld` after a view has been created at address
`0x400` and a Bindable for it at address `0x500`. -/
def sampleViewWorld : TextureWorld :=
  match sampleTextureWorld.CreateShaderResourceView sampleCollaborators none true 0x400 with
  | Except.ok r => (r.2.2.GetBindable 0x400 0x500 1).1
  | Except.error _ => sampleTextureWorld

/-- The Bindable of `sampleViewWorld`. -/
def sampleViewBinding : DynamicBinding :=
  { this_ptr := 0x500, parent := 0x400, observer := 1, captured := 0x400 }

/-- What is left of a world for inspection: the result of a call that may
fault, reduced to the resource, the device and the calls made. -/
def TextureWorld.summary (r : Except Fault TextureWorld) :
    Except Fault (DynamicTexture2D × MTLDevice × List Event) :=
  match r with
  | Except.ok w => Except.ok (w.res, w.device, w.events)
  | Except.error e => Except.error e

/-- The world of `sampleTextureWorld` after a view has been created at address
`0x400`. -/
def sampleCreatedWorld : TextureWorld :=
  match sampleTextureWorld.CreateShaderResourceView sampleCollaborators none true 0x400 with
  | Except.ok r => r.2.2
  | Except.error _ => sampleTextureWorld

/-- A view as constructed by `CreateShaderResourceView`, before its first
`RotateView`. -/
def sampleSRV : TextureSRV :=
  TextureSRV.construct
    { Format := 28, ViewDimension := D3D10_SRV_DIMENSION_TEXTURE2D,
      Texture2D_MostDetailedMip := 0, Texture2D_MipLevels := 1 }
    { textureType := MTL_TextureType2D, width := 64, height := 64, depth := 1, arrayLength := 1,
      mipmapLevelCount := 1, sampleCount := 1, usage := MTL_TextureUsageShaderRead,
      storageMode := MTL_StorageModeShared, cpuCacheMode := MTL_CPUCacheModeWriteCombined,
      pixelFormat := 70 }

/-- The sample texture resource with `b` as its current backing buffer. -/
def sampleTextureOver (b : MTLBuffer) : DynamicTexture2D :=
  DynamicTexture2D.construct 0x300 { Width := 64, Height := 64, Format := 28 } b 256

/-- What holds of a texture and a registered view of it between rotations. -/
structure TexInv (all : List MTLBuffer) (srv : Nat) (w : TextureWorld) : Prop where
  live : ∀ p ∈ w.res.weak_srvs, (w.srvs p).isSome = true
  registered : srv ∈ w.res.weak_srvs
  handle : w.res.buffer_handle = w.res.buffer.gpuAddress
  inPlay : w.res.buffer ∈ all
  current : ∃ s, w.srvs srv = some s ∧ CacheOK all s ∧ ViewCurrent w.res s

/-! ## Further definitions: the queue protocol, buffer views, alignment -/

/-- Source: `CurrentChunk()`, lines 258-261: the index of the chunk in the ring. -/
def CommandQueue.CurrentChunk (q : CommandQueue) : Nat :=
  q.ready_for_encode % kCommandChunkCount

/-- Modelled from the spec: `CommandQueue::CommitCurrentChunk`, which the header
only declares (line 276). It "publishes the current chunk to the encode thread
(advances `ready_for_commit`) and advances `ready_for_encode`"; the producer
"must never advance `ready_for_encode` more than `ring_size` beyond
`cpu_coherent`", the call "must block (or otherwise be prevented)" until then:
`none` stands for a call that is blocked. -/
def CommandQueue.CommitCurrentChunk (q : CommandQueue) : Option CommandQueue :=
  if q.ready_for_encode + 1 ≤ q.cpu_coherent + kCommandChunkCount then
    some { q with ready_for_commit := q.ready_for_commit + 1,
                  ready_for_encode := q.ready_for_encode + 1 }
  else none

/-- Modelled from the spec: one turn of the loop of `CommandQueue::EncodingThread`,
which the header only declares (line 232): "wait until `ready_for_commit >
chunk_ongoing`; take the next chunk in sequence order, call `encode()` on it
..., submit ..., advance `chunk_ongoing`"; `none` stands for a thread that
waits. -/
def CommandQueue.EncodingThread (q : CommandQueue) : Option CommandQueue :=
  if q.ready_for_commit > q.chunk_ongoing then
    some { q with chunk_ongoing := q.chunk_ongoing + 1 }
  else none

/-- Modelled from the spec: one turn of the loop of
`CommandQueue::WaitForFinishThread`, which the header only declares (line 234):
"wait for the oldest outstanding submission's completion callback, reset that
chunk, advance `cpu_coherent`"; a submission is outstanding when
`cpu_coherent < chunk_ongoing`, and `none` stands for a thread that waits. -/
def CommandQueue.WaitForFinishThread (q : CommandQueue) : Option CommandQueue :=
  if q.cpu_coherent < q.chunk_ongoing then
    some { q with cpu_coherent := q.cpu_coherent + 1 }
  else none

/-- The three threads of control of the queue. -/
inductive QueueThread where
  | producer
  | encode
  | finish
  deriving DecidableEq, Repr

/-- One step of the thread scheduled; a thread that is blocked or waits leaves
the counters as they are. -/
def CommandQueue.step (q : CommandQueue) : QueueThread → CommandQueue
  | QueueThread.producer => (q.CommitCurrentChunk).getD q
  | QueueThread.encode => (q.EncodingThread).getD q
  | QueueThread.finish => (q.WaitForFinishThread).getD q

/-- The counters after the steps of a schedule, first to last. -/
def CommandQueue.run (q : CommandQueue) : List QueueThread → CommandQueue
  | [] => q
  | t :: rest => (q.step t).run rest

/-- The ordering of the four sequence counters. -/
def CommandQueue.ordered (q : CommandQueue) : Prop :=
  q.cpu_coherent ≤ q.chunk_ongoing ∧ q.chunk_ongoing ≤ q.ready_for_commit ∧
    q.ready_for_commit ≤ q.ready_for_encode ∧
    q.ready_for_encode ≤ q.cpu_coherent + kCommandChunkCount

/-- The fields of `D3D11_BUFFER_DESC` that this file reads. -/
structure D3D11_BUFFER_DESC where
  ByteWidth : Nat
  deriving DecidableEq, Repr

/-- Source: `DynamicBuffer::CreateShaderResourceView`, lines 185-208. `desc` is
the description of the buffer kept by the base class, `extract` the
collaborator `ExtractEntireResourceViewDescription` (`none` for a failure),
`pDesc` the description passed and `ppView` whether the output pointer is
non-null. Returns the `HRESULT`, what is written to `*ppView` (`none` when
nothing is written) and the resource. The statements of lines 202-207 follow
the `return` of line 200 and are never executed. -/
def DynamicBuffer.CreateShaderResourceView (res : DynamicBuffer) (desc : D3D11_BUFFER_DESC)
    (extract : D3D11_BUFFER_DESC → Option D3D11_SHADER_RESOURCE_VIEW_DESC →
      Option D3D11_SHADER_RESOURCE_VIEW_DESC)
    (pDesc : Option D3D11_SHADER_RESOURCE_VIEW_DESC) (ppView : Bool) :
    HRESULT × Option Nat × DynamicBuffer :=
  match extract desc pDesc with
  | none => (HRESULT.E_INVALIDARG, none, res)
  | some finalDesc =>
    if finalDesc.ViewDimension ≠ D3D11_SRV_DIMENSION_BUFFER ∧
        finalDesc.ViewDimension ≠ D3D11_SRV_DIMENSION_BUFFEREX then
      (HRESULT.E_FAIL, none, res)
    else if ¬ ppView then
      (HRESULT.S_FALSE, none, res)
    else
      (HRESULT.E_NOTIMPL, none, res)

/-- A collaborator used in examples: a null description is resolved to the
whole-buffer view. -/
def sampleBufferExtract (_desc : D3D11_BUFFER_DESC)
    (pDesc : Option D3D11_SHADER_RESOURCE_VIEW_DESC) : Option D3D11_SHADER_RESOURCE_VIEW_DESC :=
  match pDesc with
  | some d => some d
  | none => some { Format := 0, ViewDimension := D3D11_SRV_DIMENSION_BUFFER,
                   Texture2D_MostDetailedMip := 0, Texture2D_MipLevels := 0 }

/-- The view installed in a view object is the entry that its cache holds for
the handle current in the resource. -/
def ViewInstalled (res : DynamicTexture2D) (s : TextureSRV) : Prop :=
  ViewCacheMap.find s.cache res.buffer_handle = some ⟨s.view, s.view_handle⟩

/-- A buffer whose identity and GPU address are both `i`. -/
def bufferAt (i : Nat) : MTLBuffer :=
  { ptr := i, gpuAddress := i, contents := i, length := 256, resourceOptions := 0 }

/-- Exchangers that bring in `count` buffers with the pairwise distinct GPU
addresses `start, start + 1, ..`. -/
def distinctExchangers : Nat → Nat → List IMTLDynamicBufferExchange
  | _, 0 => []
  | start, count + 1 => ⟨bufferAt start⟩ :: distinctExchangers (start + 1) count

/-- The least multiple of `a` that is at least `off`, in unbounded arithmetic. -/
def alignUp (off a : Nat) : Nat := off + (a - off % a) % a

/-! ## Lemmas on the typed store and the chain -/

theorem Memory.store_same (m : Memory) (a s : Nat) (o : HeapObject) :
    m.store a s o a = some ⟨s, o⟩ := by
  simp [Memory.store]

theorem Memory.store_frame (m : Memory) (a s : Nat) (o : HeapObject) (x : Nat) (c : Cell)
    (hx : m x = some c) (hne : x ≠ a) (hdis : x + c.size ≤ a ∨ a + s ≤ x) :
    m.store a s o x = some c := by
  simp only [Memory.store, if_neg hne, hx]
  rw [if_neg]
  omega

theorem Layout.le {lo hi : Nat} {l : List Entry} (h : Layout lo l hi) : lo ≤ hi := by
  induction l generalizing lo with
  | nil => exact h
  | cons e rest ih =>
    obtain ⟨h1, h2, h3, h4⟩ := h
    have := ih h4
    simp only [sizeof_Node] at this
    omega

theorem Layout.mono_hi {lo hi hi2 : Nat} {l : List Entry} (h : Layout lo l hi) (hh : hi ≤ hi2) :
    Layout lo l hi2 := by
  induction l generalizing lo with
  | nil => exact Nat.le_trans h hh
  | cons e rest ih =>
    obtain ⟨h1, h2, h3, h4⟩ := h
    exact ⟨h1, h2, h3, ih h4⟩

theorem Layout.append_entry {lo hi : Nat} {l : List Entry} (h : Layout lo l hi) (e : Entry)
    (hv : hi ≤ e.value) (hs : 0 < e.func.sizeof_EFunc)
    (hn : e.value + e.func.sizeof_EFunc ≤ e.node) :
    Layout lo (l ++ [e]) (e.node + sizeof_Node) := by
  induction l generalizing lo with
  | nil => exact ⟨Nat.le_trans h hv, hs, hn, Nat.le_refl _⟩
  | cons d rest ih =>
    obtain ⟨h1, h2, h3, h4⟩ := h
    exact ⟨h1, h2, h3, ih h4⟩

theorem Linked.store_above {lo hi : Nat} {l : List Entry} {m : Memory} (hl : Layout lo l hi)
    (hm : Linked m l) (a s : Nat) (o : HeapObject) (ha : hi ≤ a) :
    Linked (m.store a s o) l := by
  induction l generalizing lo with
  | nil => trivial
  | cons e rest ih =>
    obtain ⟨h1, h2, h3, h4⟩ := hl
    obtain ⟨m1, m2, m3⟩ := hm
    have hle := h4.le
    simp only [sizeof_Node] at hle
    refine ⟨?_, ?_, ih h4 m3⟩
    · exact Memory.store_frame m a s o _ _ m1 (by omega) (Or.inl (by simp [sizeof_Node]; omega))
    · exact Memory.store_frame m a s o _ _ m2 (by omega) (Or.inl (by simp; omega))

theorem headPtr_append (l : List Entry) (e : Entry) (h : l ≠ []) :
    headPtr (l ++ [e]) = headPtr l := by
  cases l with
  | nil => exact absurd rfl h
  | cons d rest => rfl

theorem lastRef_eq (l : List Entry) :
    lastRef l = match lastEntry l with
      | none => NodeRef.monoid_list
      | some e => NodeRef.heap e.node := by
  induction l with
  | nil => rfl
  | cons d rest ih =>
    cases rest with
    | nil => rfl
    | cons e r => simpa [lastRef, lastEntry] using ih

theorem lastRef_snoc (l : List Entry) (e : Entry) : lastRef (l ++ [e]) = NodeRef.heap e.node := by
  induction l with
  | nil => rfl
  | cons d rest ih =>
    cases rest with
    | nil => rfl
    | cons d2 r => simpa [lastRef] using ih

theorem Linked.lastEntry_node {m : Memory} {l : List Entry} (hm : Linked m l) (e : Entry)
    (he : lastEntry l = some e) :
    m e.node = some ⟨sizeof_Node, HeapObject.node e.value none⟩ := by
  induction l with
  | nil => simp [lastEntry] at he
  | cons d rest ih =>
    cases rest with
    | nil =>
      simp only [lastEntry, Option.some.injEq] at he
      subst he
      exact hm.1
    | cons d2 r => exact ih hm.2.2 (by simpa [lastEntry] using he)

theorem Layout.lastEntry_ge {lo hi : Nat} {l : List Entry} (hl : Layout lo l hi) (e : Entry)
    (he : lastEntry l = some e) : lo < e.node ∧ e.node + sizeof_Node ≤ hi := by
  induction l generalizing lo with
  | nil => simp [lastEntry] at he
  | cons d rest ih =>
    obtain ⟨h1, h2, h3, h4⟩ := hl
    cases rest with
    | nil =>
      simp only [lastEntry, Option.some.injEq] at he
      subst he
      exact ⟨by omega, h4⟩
    | cons d2 r =>
      have := ih h4 (by simpa [lastEntry] using he)
      simp only [sizeof_Node] at this ⊢
      omega

/-- Linking a new last entry: after the closure object and the node of `e` are
in memory, redirecting the `next` of the old last node yields the longer chain. -/
theorem Linked.append_link {lo hi : Nat} {l : List Entry} {m : Memory} (hl : Layout lo l hi)
    (hm : Linked m l) (e d : Entry) (hd : lastEntry l = some d)
    (hv : hi ≤ e.value) (hn : e.value + e.func.sizeof_EFunc ≤ e.node)
    (me : m e.node = some ⟨sizeof_Node, HeapObject.node e.value none⟩)
    (mv : m e.value = some ⟨e.func.sizeof_EFunc, HeapObject.func e.func⟩) :
    Linked (m.store d.node sizeof_Node (HeapObject.node d.value (some e.node))) (l ++ [e]) := by
  induction l generalizing lo with
  | nil => simp [lastEntry] at hd
  | cons c rest ih =>
    obtain ⟨h1, h2, h3, h4⟩ := hl
    obtain ⟨m1, m2, m3⟩ := hm
    have hle := h4.le
    simp only [sizeof_Node] at hle
    cases rest with
    | nil =>
      simp only [lastEntry, Option.some.injEq] at hd
      subst hd
      refine ⟨?_, ?_, ?_, ?_, trivial⟩
      · simp [Memory.store_same, headPtr]
      · exact Memory.store_frame _ _ _ _ _ _ m2 (by omega) (Or.inl (by simpa using h3))
      · exact Memory.store_frame _ _ _ _ _ _ me (by omega) (Or.inr (by simp [sizeof_Node]; omega))
      · exact Memory.store_frame _ _ _ _ _ _ mv (by omega) (Or.inr (by simp [sizeof_Node]; omega))
    | cons c2 r =>
      have hd2 : lastEntry (c2 :: r) = some d := by simpa [lastEntry] using hd
      have hge := h4.lastEntry_ge d hd2
      simp only [sizeof_Node] at hge
      refine ⟨?_, ?_, ih h4 m3 hd2⟩
      · have : headPtr ((c2 :: r) ++ [e]) = headPtr (c2 :: r) := headPtr_append _ _ (by simp)
        show Memory.store m d.node sizeof_Node _ c.node = some ⟨sizeof_Node, HeapObject.node c.value (headPtr ((c2 :: r) ++ [e]))⟩
        rw [this]
        exact Memory.store_frame _ _ _ _ _ _ m1 (by omega) (Or.inl (by simp [sizeof_Node]; omega))
      · exact Memory.store_frame _ _ _ _ _ _ m2 (by omega) (Or.inl (by simp; omega))

/-! ## The allocator and `emit` when no address computation wraps around -/

theorem allocate_cpu_heap_frame (chk : CommandChunk) (size alignment : Nat) :
    (chk.allocate_cpu_heap size alignment).1.cpu_argument_heap = chk.cpu_argument_heap ∧
    (chk.allocate_cpu_heap size alignment).1.gpu_argument_heap = chk.gpu_argument_heap ∧
    (chk.allocate_cpu_heap size alignment).1.gpu_arugment_heap_offset =
      chk.gpu_arugment_heap_offset ∧
    (chk.allocate_cpu_heap size alignment).1.this_ptr = chk.this_ptr ∧
    (chk.allocate_cpu_heap size alignment).1.memory = chk.memory ∧
    (chk.allocate_cpu_heap size alignment).1.monoid_list_next = chk.monoid_list_next ∧
    (chk.allocate_cpu_heap size alignment).1.list_end = chk.list_end ∧
    (chk.allocate_cpu_heap size alignment).1.attached_cmdbuf = chk.attached_cmdbuf :=
  ⟨rfl, rfl, rfl, rfl, rfl, rfl, rfl, rfl⟩

theorem allocate_gpu_heap_frame (chk : CommandChunk) (size alignment : Nat) :
    (chk.allocate_gpu_heap size alignment).1.cpu_argument_heap = chk.cpu_argument_heap ∧
    (chk.allocate_gpu_heap size alignment).1.gpu_argument_heap = chk.gpu_argument_heap ∧
    (chk.allocate_gpu_heap size alignment).1.cpu_arugment_heap_offset =
      chk.cpu_arugment_heap_offset ∧
    (chk.allocate_gpu_heap size alignment).1.this_ptr = chk.this_ptr ∧
    (chk.allocate_gpu_heap size alignment).1.memory = chk.memory ∧
    (chk.allocate_gpu_heap size alignment).1.monoid_list_next = chk.monoid_list_next ∧
    (chk.allocate_gpu_heap size alignment).1.list_end = chk.list_end ∧
    (chk.allocate_gpu_heap size alignment).1.attached_cmdbuf = chk.attached_cmdbuf :=
  ⟨rfl, rfl, rfl, rfl, rfl, rfl, rfl, rfl⟩

theorem allocate_cpu_heap_offset (chk : CommandChunk) (size alignment : Nat)
    (h : bump chk.cpu_arugment_heap_offset size alignment < WORD) :
    (chk.allocate_cpu_heap size alignment).1.cpu_arugment_heap_offset =
      bump chk.cpu_arugment_heap_offset size alignment := by
  unfold bump at h
  have h1 : (chk.cpu_arugment_heap_offset +
      align_forward_adjustment chk.cpu_arugment_heap_offset alignment) % WORD =
      chk.cpu_arugment_heap_offset +
        align_forward_adjustment chk.cpu_arugment_heap_offset alignment :=
    Nat.mod_eq_of_lt (by omega)
  show ((chk.cpu_arugment_heap_offset + _) % WORD + size) % WORD = _
  rw [h1, Nat.mod_eq_of_lt h]
  rfl

theorem allocate_cpu_heap_ptr (chk : CommandChunk) (size alignment : Nat)
    (h : chk.cpu_argument_heap + chk.cpu_arugment_heap_offset +
      align_forward_adjustment chk.cpu_arugment_heap_offset alignment < WORD) :
    (chk.allocate_cpu_heap size alignment).2 =
      chk.cpu_argument_heap + chk.cpu_arugment_heap_offset +
        align_forward_adjustment chk.cpu_arugment_heap_offset alignment := by
  have h1 : (chk.cpu_arugment_heap_offset +
      align_forward_adjustment chk.cpu_arugment_heap_offset alignment) % WORD =
      chk.cpu_arugment_heap_offset +
        align_forward_adjustment chk.cpu_arugment_heap_offset alignment :=
    Nat.mod_eq_of_lt (by omega)
  show (chk.cpu_argument_heap + (chk.cpu_arugment_heap_offset + _) % WORD) % WORD = _
  rw [h1, Nat.mod_eq_of_lt (by omega)]
  omega

theorem emit_unfold (chk : CommandChunk) (func : Closure) :
    chk.emit func =
      (let r1 := chk.allocate_cpu_heap (1 * func.sizeof_EFunc) func.alignof_EFunc
       let mem1 := r1.1.memory.store r1.2 func.sizeof_EFunc (HeapObject.func func)
       let r2 := r1.1.allocate_cpu_heap (1 * sizeof_Node) alignof_Node
       let mem2 := mem1.store r2.2 sizeof_Node (HeapObject.node r1.2 none)
       match r2.1.list_end with
       | NodeRef.monoid_list =>
         Except.ok { r2.1 with monoid_list_next := some r2.2, list_end := NodeRef.heap r2.2,
                               memory := mem2 }
       | NodeRef.heap last =>
         match mem2 last with
         | some ⟨sz, HeapObject.node value _⟩ =>
           Except.ok { r2.1 with list_end := NodeRef.heap r2.2,
                                 memory := mem2.store last sz (HeapObject.node value (some r2.2)) }
         | _ => Except.error Fault.invalidAccess) := rfl

/-- One `emit` on a chunk holding the chain `l` appends one entry for `func`,
provided the two bumps stay below the end of the address space. -/
theorem emit_chain (chk : CommandChunk) (l : List Entry) (func : Closure) (hinv : ChainInv chk l)
    (hs : 0 < func.sizeof_EFunc)
    (hfit : chk.cpu_argument_heap +
      bump (bump chk.cpu_arugment_heap_offset func.sizeof_EFunc func.alignof_EFunc)
        sizeof_Node alignof_Node < WORD) :
    ∃ chk2 e, chk.emit func = Except.ok chk2 ∧ e.func = func ∧ ChainInv chk2 (l ++ [e]) ∧
      chk.cpu_argument_heap ≤ e.value ∧
      chk2.cpu_argument_heap = chk.cpu_argument_heap ∧
      chk2.cpu_arugment_heap_offset =
        bump (bump chk.cpu_arugment_heap_offset func.sizeof_EFunc func.alignof_EFunc)
          sizeof_Node alignof_Node ∧
      chk2.gpu_arugment_heap_offset = chk.gpu_arugment_heap_offset ∧
      chk2.this_ptr = chk.this_ptr := by
  obtain ⟨hb, hlay, hlink, hfirst, hlast⟩ := hinv
  rw [emit_unfold]
  simp only
  have hfit2 := hfit
  unfold bump at hfit2
  simp only [sizeof_Node] at hfit2
  have o1 := allocate_cpu_heap_offset chk (1 * func.sizeof_EFunc) func.alignof_EFunc
    (by unfold bump; omega)
  have p1 := allocate_cpu_heap_ptr chk (1 * func.sizeof_EFunc) func.alignof_EFunc (by omega)
  obtain ⟨f1, -, f3, f4, f5, f6, f7, -⟩ :=
    allocate_cpu_heap_frame chk (1 * func.sizeof_EFunc) func.alignof_EFunc
  generalize chk.allocate_cpu_heap (1 * func.sizeof_EFunc) func.alignof_EFunc = r1 at *
  rw [Nat.one_mul] at o1
  have o2 := allocate_cpu_heap_offset r1.1 (1 * sizeof_Node) alignof_Node
    (by rw [o1]; unfold bump at hfit ⊢; omega)
  have p2 := allocate_cpu_heap_ptr r1.1 (1 * sizeof_Node) alignof_Node
    (by rw [o1, f1]; unfold bump; omega)
  obtain ⟨g1, -, g3, g4, g5, g6, g7, -⟩ :=
    allocate_cpu_heap_frame r1.1 (1 * sizeof_Node) alignof_Node
  generalize r1.1.allocate_cpu_heap (1 * sizeof_Node) alignof_Node = r2 at *
  rw [Nat.one_mul, o1] at o2
  rw [o1, f1] at p2
  have hv : chk.cpu_argument_heap + chk.cpu_arugment_heap_offset ≤ r1.2 := by omega
  have hn : r1.2 + func.sizeof_EFunc ≤ r2.2 := by rw [p1, p2]; unfold bump; omega
  have hlay2 : Layout chk.cpu_argument_heap (l ++ [⟨r2.2, r1.2, func⟩])
      (r2.2 + sizeof_Node) := hlay.append_entry ⟨r2.2, r1.2, func⟩ hv hs hn
  have hend : r2.2 + sizeof_Node = r2.1.cpu_argument_heap + r2.1.cpu_arugment_heap_offset := by
    rw [g1, f1, o2, p2]; unfold bump; omega
  have hl1 : Linked (r1.1.memory.store r1.2 func.sizeof_EFunc (HeapObject.func func)) l := by
    rw [f5]; exact hlink.store_above hlay _ _ _ hv
  have hl2 : Linked ((r1.1.memory.store r1.2 func.sizeof_EFunc (HeapObject.func func)).store
      r2.2 sizeof_Node (HeapObject.node r1.2 none)) l :=
    hl1.store_above hlay _ _ _ (by omega)
  have mnode : ((r1.1.memory.store r1.2 func.sizeof_EFunc (HeapObject.func func)).store
      r2.2 sizeof_Node (HeapObject.node r1.2 none)) r2.2 =
      some ⟨sizeof_Node, HeapObject.node r1.2 none⟩ := Memory.store_same _ _ _ _
  have mval : ((r1.1.memory.store r1.2 func.sizeof_EFunc (HeapObject.func func)).store
      r2.2 sizeof_Node (HeapObject.node r1.2 none)) r1.2 =
      some ⟨func.sizeof_EFunc, HeapObject.func func⟩ :=
    Memory.store_frame _ _ _ _ _ _ (Memory.store_same _ _ _ _) (by omega) (Or.inl (by simpa using hn))
  have hle : r2.1.list_end = lastRef l := by rw [g7, f7, hlast]
  rw [lastRef_eq] at hle
  cases hd : lastEntry l with
  | none =>
    rw [hd] at hle
    have hnil : l = [] := by
      cases l with
      | nil => rfl
      | cons c rest =>
        cases rest with
        | nil => simp [lastEntry] at hd
        | cons c2 r =>
          exfalso
          have : ∀ (k : List Entry) (c : Entry), lastEntry (c :: k) ≠ none := by
            intro k
            induction k with
            | nil => intro c; simp [lastEntry]
            | cons a k ih => intro c; simpa [lastEntry] using ih a
          exact this _ _ hd
    subst hnil
    rw [hle]
    refine ⟨_, ⟨r2.2, r1.2, func⟩, rfl, rfl, ⟨?_, ?_, ?_, rfl, rfl⟩, ?_, ?_, ?_, ?_, ?_⟩
    · show r2.1.cpu_argument_heap + r2.1.cpu_arugment_heap_offset < WORD
      rw [g1, f1, o2]; exact hfit
    · show Layout r2.1.cpu_argument_heap _ (r2.1.cpu_argument_heap + r2.1.cpu_arugment_heap_offset)
      rw [← hend, g1, f1]; exact hlay2
    · exact ⟨mnode, mval, trivial⟩
    · show chk.cpu_argument_heap ≤ r1.2
      omega
    · show r2.1.cpu_argument_heap = _
      rw [g1, f1]
    · exact o2
    · show r2.1.gpu_arugment_heap_offset = _
      rw [g3, f3]
    · show r2.1.this_ptr = _
      rw [g4, f4]
  | some d =>
    rw [hd] at hle
    rw [hle]
    have hdn := hl2.lastEntry_node d hd
    have hge := hlay.lastEntry_ge d hd
    simp only [hdn]
    refine ⟨_, ⟨r2.2, r1.2, func⟩, rfl, rfl, ⟨?_, ?_, ?_, ?_, ?_⟩, ?_, ?_, ?_, ?_, ?_⟩
    · show r2.1.cpu_argument_heap + r2.1.cpu_arugment_heap_offset < WORD
      rw [g1, f1, o2]; exact hfit
    · show Layout r2.1.cpu_argument_heap _ (r2.1.cpu_argument_heap + r2.1.cpu_arugment_heap_offset)
      rw [← hend, g1, f1]; exact hlay2
    · exact Linked.append_link hlay hl2 ⟨r2.2, r1.2, func⟩ d hd hv hn mnode mval
    · show r2.1.monoid_list_next = _
      rw [g6, f6, hfirst]
      exact (headPtr_append l _ (by intro h; subst h; simp [lastEntry] at hd)).symm
    · exact (lastRef_snoc l ⟨r2.2, r1.2, func⟩).symm
    · show chk.cpu_argument_heap ≤ r1.2
      omega
    · show r2.1.cpu_argument_heap = _
      rw [g1, f1]
    · exact o2
    · show r2.1.gpu_arugment_heap_offset = _
      rw [g3, f3]
    · show r2.1.this_ptr = _
      rw [g4, f4]

theorem le_bump (off size alignment : Nat) : off ≤ bump off size alignment := by
  unfold bump; omega

theorem le_cpu_extent (off : Nat) (calls : List Call) : off ≤ cpu_extent off calls := by
  induction calls generalizing off with
  | nil => exact Nat.le_refl _
  | cons c cs ih =>
    cases c with
    | emit func =>
      exact Nat.le_trans (Nat.le_trans (le_bump _ _ _) (le_bump _ _ _)) (ih _)
    | allocate_cpu_heap size alignment => exact Nat.le_trans (le_bump _ _ _) (ih _)
    | allocate_gpu_heap size alignment => exact ih _

theorem emitted_map_emit (ops : List Closure) : emitted (ops.map Call.emit) = ops := by
  induction ops with
  | nil => rfl
  | cons f fs ih => simp [emitted, ih]

/-- A sequence of recording calls on a chunk holding the chain `l` succeeds and
appends one entry per emitted closure, in order, provided the offsets it reaches
stay below the end of the address space. -/
theorem run_chain (calls : List Call) (chk : CommandChunk) (l : List Entry)
    (hinv : ChainInv chk l)
    (hs : ∀ f ∈ emitted calls, 0 < f.sizeof_EFunc)
    (hfit : chk.cpu_argument_heap + cpu_extent chk.cpu_arugment_heap_offset calls < WORD) :
    ∃ chk2 l2, chk.run calls = Except.ok chk2 ∧ l2.map Entry.func = emitted calls ∧
      ChainInv chk2 (l ++ l2) ∧
      chk2.cpu_argument_heap = chk.cpu_argument_heap ∧
      chk2.cpu_arugment_heap_offset = cpu_extent chk.cpu_arugment_heap_offset calls ∧
      chk2.this_ptr = chk.this_ptr := by
  induction calls generalizing chk l with
  | nil => exact ⟨chk, [], rfl, rfl, by simpa using hinv, rfl, rfl, rfl⟩
  | cons c cs ih =>
    cases c with
    | emit func =>
      have hext := le_cpu_extent (bump (bump chk.cpu_arugment_heap_offset func.sizeof_EFunc
        func.alignof_EFunc) sizeof_Node alignof_Node) cs
      obtain ⟨chk1, e, he, hef, hinv1, -, hb1, ho1, -, ht1⟩ :=
        emit_chain chk l func hinv (hs func (by simp [emitted]))
          (by simp only [cpu_extent] at hfit; omega)
      obtain ⟨chk2, l2, hr, hm, hinv2, hb2, ho2, ht2⟩ := ih chk1 (l ++ [e]) hinv1
        (fun f hf => hs f (by simp [emitted, hf]))
        (by rw [hb1, ho1]; exact hfit)
      refine ⟨chk2, e :: l2, ?_, ?_, ?_, ?_, ?_, ?_⟩
      · simp only [CommandChunk.run, CommandChunk.call, he]; exact hr
      · simp [emitted, hef, hm]
      · simpa using hinv2
      · rw [hb2, hb1]
      · rw [ho2, ho1]; rfl
      · rw [ht2, ht1]
    | allocate_cpu_heap size alignment =>
      have hext := le_cpu_extent (bump chk.cpu_arugment_heap_offset size alignment) cs
      simp only [cpu_extent] at hfit
      have ho := allocate_cpu_heap_offset chk size alignment (by omega)
      obtain ⟨f1, -, -, f4, f5, f6, f7, -⟩ := allocate_cpu_heap_frame chk size alignment
      have hinv1 : ChainInv (chk.allocate_cpu_heap size alignment).1 l := by
        refine ⟨?_, ?_, ?_, ?_, ?_⟩
        · rw [f1, ho]; omega
        · rw [f1, ho]
          exact hinv.layout.mono_hi (by have := le_bump chk.cpu_arugment_heap_offset size alignment; omega)
        · rw [f5]; exact hinv.linked
        · rw [f6]; exact hinv.first
        · rw [f7]; exact hinv.last
      obtain ⟨chk2, l2, hr, hm, hinv2, hb2, ho2, ht2⟩ := ih _ l hinv1
        (fun f hf => hs f (by simpa [emitted] using hf))
        (by rw [f1, ho]; exact hfit)
      refine ⟨chk2, l2, ?_, ?_, hinv2, ?_, ?_, ?_⟩
      · simp only [CommandChunk.run, CommandChunk.call]; exact hr
      · simpa [emitted] using hm
      · rw [hb2, f1]
      · rw [ho2, ho]; rfl
      · rw [ht2, f4]
    | allocate_gpu_heap size alignment =>
      simp only [cpu_extent] at hfit
      obtain ⟨f1, -, f3, f4, f5, f6, f7, -⟩ := allocate_gpu_heap_frame chk size alignment
      have hinv1 : ChainInv (chk.allocate_gpu_heap size alignment).1 l := by
        refine ⟨?_, ?_, ?_, ?_, ?_⟩
        · rw [f1, f3]; exact hinv.bound
        · rw [f1, f3]; exact hinv.layout
        · rw [f5]; exact hinv.linked
        · rw [f6]; exact hinv.first
        · rw [f7]; exact hinv.last
      obtain ⟨chk2, l2, hr, hm, hinv2, hb2, ho2, ht2⟩ := ih _ l hinv1
        (fun f hf => hs f (by simpa [emitted] using hf))
        (by rw [f1, f3]; exact hfit)
      refine ⟨chk2, l2, ?_, ?_, hinv2, ?_, ?_, ?_⟩
      · simp only [CommandChunk.run, CommandChunk.call]; exact hr
      · simpa [emitted] using hm
      · rw [hb2, f1]
      · rw [ho2, f3]; rfl
      · rw [ht2, f4]

/-- The replay loop on a linked chain invokes the closures of the chain in
order, once each, threading one context through them. -/
theorem encodeLoop_chain (chk : CommandChunk) (l : List Entry) (lo : Nat)
    (hlay : Layout lo l (chk.cpu_argument_heap + chk.cpu_arugment_heap_offset))
    (hb : chk.cpu_argument_heap + chk.cpu_arugment_heap_offset < WORD)
    (hlo : chk.cpu_argument_heap ≤ lo) (hlink : Linked chk.memory l)
    (fuel : Nat) (hf : l.length ≤ fuel) (context : context_t) (invoked : List Closure) :
    chk.encodeLoop fuel (headPtr l) context invoked =
      Except.ok ((l.map Entry.func).foldl (fun c f => f.call c) context,
        invoked ++ l.map Entry.func) := by
  induction l generalizing lo fuel context invoked with
  | nil => cases fuel <;> simp [headPtr, CommandChunk.encodeLoop]
  | cons e rest ih =>
    obtain ⟨h1, h2, h3, h4⟩ := hlay
    obtain ⟨m1, m2, m3⟩ := hlink
    have hle := h4.le
    simp only [sizeof_Node] at hle
    cases fuel with
    | zero => simp at hf
    | succ fuel =>
      have hc : e.value % WORD ≥ chk.cpu_argument_heap % WORD ∧
          e.value % WORD < (chk.cpu_argument_heap + chk.cpu_arugment_heap_offset) % WORD := by
        rw [Nat.mod_eq_of_lt (by omega : e.value < WORD),
          Nat.mod_eq_of_lt (by omega : chk.cpu_argument_heap < WORD), Nat.mod_eq_of_lt hb]
        omega
      rw [show headPtr (e :: rest) = some e.node from rfl]
      simp only [CommandChunk.encodeLoop, m1, m2, hc, and_self, if_true]
      rw [ih (e.node + sizeof_Node) h4 (by simp only [sizeof_Node]; omega) m3 fuel
        (by simpa using hf)]
      simp

theorem Linked.destroy_below {lo hi : Nat} {l : List Entry} {m : Memory} (hl : Layout lo l hi)
    (hm : Linked m l) (a : Nat) (ha : a < lo) : Linked (m.destroy a) l := by
  induction l generalizing lo with
  | nil => trivial
  | cons e rest ih =>
    obtain ⟨h1, h2, h3, h4⟩ := hl
    obtain ⟨m1, m2, m3⟩ := hm
    refine ⟨?_, ?_, ih h4 m3 (by simp only [sizeof_Node]; omega)⟩
    · simp only [Memory.destroy, if_neg (by omega : e.node ≠ a)]; exact m1
    · simp only [Memory.destroy, if_neg (by omega : e.value ≠ a)]; exact m2

/-- The destruction loop on a linked chain destroys the closures of the chain in
order, once each. -/
theorem resetLoop_chain (base offset : Nat) (l : List Entry) (lo : Nat) (mem : Memory)
    (hlay : Layout lo l (base + offset)) (hb : base + offset < WORD)
    (hlo : base ≤ lo) (hlink : Linked mem l)
    (fuel : Nat) (hf : l.length ≤ fuel) (destroyed : List Closure) :
    ∃ mem2, CommandChunk.resetLoop base offset fuel (headPtr l) mem destroyed =
      Except.ok (mem2, destroyed ++ l.map Entry.func) := by
  induction l generalizing lo fuel mem destroyed with
  | nil => exact ⟨mem, by cases fuel <;> simp [headPtr, CommandChunk.resetLoop]⟩
  | cons e rest ih =>
    obtain ⟨h1, h2, h3, h4⟩ := hlay
    obtain ⟨m1, m2, m3⟩ := hlink
    have hle := h4.le
    simp only [sizeof_Node] at hle
    cases fuel with
    | zero => simp at hf
    | succ fuel =>
      have hc : e.value % WORD ≥ base % WORD ∧ e.value % WORD < (base + offset) % WORD := by
        rw [Nat.mod_eq_of_lt (by omega : e.value < WORD),
          Nat.mod_eq_of_lt (by omega : base < WORD), Nat.mod_eq_of_lt hb]
        omega
      obtain ⟨mem2, h⟩ := ih (e.node + sizeof_Node) (mem.destroy e.value) h4
        (by simp only [sizeof_Node]; omega)
        (m3.destroy_below h4 e.value (by simp only [sizeof_Node]; omega)) fuel
        (by simpa using hf) (destroyed ++ [e.func])
      refine ⟨mem2, ?_⟩
      rw [show headPtr (e :: rest) = some e.node from rfl]
      simp only [CommandChunk.resetLoop, m1, m2, hc, and_self, if_true]
      rw [h]
      simp

/-! ## The chain of a chunk: `emit`, `encode`, `reset` -/

theorem emitAll_eq_run (ops : List Closure) (chk : CommandChunk) :
    chk.emitAll ops = chk.run (ops.map Call.emit) := by
  induction ops generalizing chk with
  | nil => rfl
  | cons f fs ih =>
    simp only [CommandChunk.emitAll, List.map, CommandChunk.run, CommandChunk.call]
    cases chk.emit f with
    | ok chk1 => exact ih chk1
    | error e => rfl

theorem construct_chainEmpty (this_ptr cpu_heap gpu_heap cpu_off gpu_off : Nat) (mem : Memory) :
    (CommandChunk.construct this_ptr cpu_heap gpu_heap cpu_off gpu_off mem).chainEmpty :=
  ⟨rfl, rfl⟩

theorem ChainInv.of_chainEmpty (chk : CommandChunk) (h : chk.chainEmpty)
    (hb : chk.cpu_argument_heap + chk.cpu_arugment_heap_offset < WORD) : ChainInv chk [] :=
  ⟨hb, Nat.le_add_right _ _, trivial, h.1, h.2⟩

/-- Encoding a chunk that holds the chain `l`. -/
theorem encode_chain (chk : CommandChunk) (l : List Entry) (hinv : ChainInv chk l)
    (fuel cmdbuf : Nat) (hf : l.length ≤ fuel) :
    chk.encode fuel cmdbuf =
      Except.ok ({ chk with attached_cmdbuf := cmdbuf },
        replay (l.map Entry.func) (context_t.init chk.this_ptr cmdbuf), l.map Entry.func) := by
  have h := encodeLoop_chain { chk with attached_cmdbuf := cmdbuf } l chk.cpu_argument_heap
    hinv.layout hinv.bound (Nat.le_refl _) hinv.linked fuel hf
    (context_t.init chk.this_ptr cmdbuf) []
  have hfirst := hinv.first
  cases chk
  simp only at hfirst h
  subst hfirst
  unfold CommandChunk.encode
  simp only
  rw [h]
  simp [replay]

/-- Resetting a chunk that holds the chain `l`. -/
theorem reset_chain (chk : CommandChunk) (l : List Entry) (hinv : ChainInv chk l)
    (fuel : Nat) (hf : l.length ≤ fuel) :
    ∃ chk2, chk.reset fuel = Except.ok (chk2, l.map Entry.func) ∧
      chk2.cpu_arugment_heap_offset = 0 ∧ chk2.gpu_arugment_heap_offset = 0 ∧
      chk2.chainEmpty ∧ chk2.cpu_argument_heap = chk.cpu_argument_heap ∧
      chk2.this_ptr = chk.this_ptr := by
  obtain ⟨mem2, h⟩ := resetLoop_chain chk.cpu_argument_heap chk.cpu_arugment_heap_offset l
    chk.cpu_argument_heap chk.memory hinv.layout hinv.bound (Nat.le_refl _) hinv.linked fuel hf []
  rw [hinv.first.symm] at h
  refine ⟨{ chk with cpu_arugment_heap_offset := 0, gpu_arugment_heap_offset := 0,
                     monoid_list_next := none, list_end := NodeRef.monoid_list,
                     attached_cmdbuf := 0, memory := mem2 }, ?_, rfl, rfl, ⟨rfl, rfl⟩, rfl, rfl⟩
  unfold CommandChunk.reset
  rw [h]
  simp

/-- Claim C1. Closures `f1 .. fn` emitted into a chunk whose chain is empty (as
the constructor and `reset()` leave it) and whose CPU heap can hold them are
all recorded, and `encode` then invokes exactly `f1, .., fn`, once each, in the
order of the `emit` calls, threading one encoding context through them: the
context returned is `fn (.. (f1 context0))` and the closures invoked are
`[f1, .., fn]`. Any fuel of at least `n` suffices for the loop. The heap is
taken to end below the top of the address space and every `EFunc` to have a
positive size (it holds a vtable pointer). -/
theorem C1_encode_invokes_emitted_in_order (chk : CommandChunk) (ops : List Closure)
    (cmdbuf fuel : Nat)
    (hfresh : chk.chainEmpty)
    (hheap : chk.cpu_argument_heap + kCommandChunkCPUHeapSize < WORD)
    (hsize : ∀ f ∈ ops, 0 < f.sizeof_EFunc)
    (hcap : cpu_extent chk.cpu_arugment_heap_offset (ops.map Call.emit) ≤
      kCommandChunkCPUHeapSize)
    (hfuel : ops.length ≤ fuel) :
    ∃ chk1 chk2, chk.emitAll ops = Except.ok chk1 ∧
      chk1.encode fuel cmdbuf =
        Except.ok (chk2, replay ops (context_t.init chk.this_ptr cmdbuf), ops) := by
  have hoff := le_cpu_extent chk.cpu_arugment_heap_offset (ops.map Call.emit)
  obtain ⟨chk1, l, hr, hm, hinv, -, -, ht⟩ :=
    run_chain (ops.map Call.emit) chk [] (ChainInv.of_chainEmpty chk hfresh (by omega))
      (by rw [emitted_map_emit]; exact hsize) (by omega)
  rw [emitted_map_emit] at hm
  refine ⟨chk1, { chk1 with attached_cmdbuf := cmdbuf }, ?_, ?_⟩
  · rw [emitAll_eq_run]; exact hr
  · have h := encode_chain chk1 l (by simpa using hinv) fuel cmdbuf
      (by rw [← hm] at hfuel; simpa using hfuel)
    rw [h, hm, ht]

/-- Witness for C1: two closures emitted into an empty chunk and replayed. -/
theorem C1_encode_invokes_emitted_in_order_witness :
    ∃ chk1 chk2, sampleChunk.emitAll [sampleOpA, sampleOpB] = Except.ok chk1 ∧
      chk1.encode 2 9 =
        Except.ok (chk2, replay [sampleOpA, sampleOpB] (context_t.init sampleChunk.this_ptr 9),
          [sampleOpA, sampleOpB]) :=
  C1_encode_invokes_emitted_in_order sampleChunk [sampleOpA, sampleOpB] 9 2
    ⟨rfl, rfl⟩ (by decide) (by decide) (by decide) (by decide)

/-- Claim C8 as stated fails. On the sample chunk (heap base `0x10000`, chain
empty) record `emit sampleOpA` and then `allocate_cpu_heap (2 ^ 64 - 32) 1`. The
emit places the closure object at `0x10000` and its node at `0x10010` and leaves
the offset at 32; the allocation moves the offset to `(32 + 2 ^ 64 - 32) % 2 ^ 64
= 0`, which is below the capacity, so nothing is logged. In the state reached
the chain holds the one node, whose closure object at `0x10000` is not below
`base + offset = 0x10000`: with any fuel that lets the loop of `reset` look at
the node, `reset` ends in the failed assertion; it never returns, it destroys
nothing and it does not clear the chain. -/
theorem C8_reset_fails_after_offset_wraparound :
    ∃ chk1 : CommandChunk,
      sampleChunk.run [Call.emit sampleOpA, Call.allocate_cpu_heap (2 ^ 64 - 32) 1] =
        Except.ok chk1 ∧
      chk1.cpu_argument_heap = 0x10000 ∧ chk1.cpu_arugment_heap_offset = 0 ∧
      chk1.err_log = [] ∧ chk1.monoid_list_next = some 0x10010 ∧
      (match chk1.memory 0x10010 with
        | some ⟨_, HeapObject.node value next⟩ => value = 0x10000 ∧ next = none
        | _ => False) ∧
      (match chk1.memory 0x10000 with
        | some ⟨_, HeapObject.func f⟩ => f.sizeof_EFunc = sampleOpA.sizeof_EFunc
        | _ => False) ∧
      chk1.reset 0 = Except.error Fault.outOfFuel ∧
      (∀ fuel, chk1.reset (fuel + 1) = Except.error Fault.assertFailed) ∧
      (∀ fuel, ¬ ∃ chk2 destroyed, chk1.reset fuel = Except.ok (chk2, destroyed)) := by
  refine ⟨_, rfl, rfl, rfl, rfl, rfl, ⟨rfl, rfl⟩, rfl, rfl, fun fuel => rfl, ?_⟩
  intro fuel
  cases fuel with
  | zero =>
    rintro ⟨chk2, destroyed, h⟩
    exact Except.noConfusion h
  | succ n =>
    rintro ⟨chk2, destroyed, h⟩
    exact Except.noConfusion h

/-- Claim C8, amended. From a chunk with an empty chain, any sequence of `emit`,
`allocate_cpu_heap` and `allocate_gpu_heap` calls whose CPU heap addresses do not
wrap around `2 ^ 64` (in particular any sequence that stays inside the heap)
reaches a state on which `reset` returns, having destroyed exactly the emitted
closures, once each, in the order they were emitted; it leaves both heap offsets
at 0 and the chain empty. An `encode` directly after the reset invokes nothing,
and closures emitted after the reset are replayed alone, without any closure
recorded before it. -/
theorem C8_reset_destroys_in_order_and_clears (chk : CommandChunk) (calls : List Call)
    (fuel : Nat)
    (hfresh : chk.chainEmpty)
    (hsize : ∀ f ∈ emitted calls, 0 < f.sizeof_EFunc)
    (hfit : chk.cpu_argument_heap + cpu_extent chk.cpu_arugment_heap_offset calls < WORD)
    (hfuel : (emitted calls).length ≤ fuel) :
    ∃ chk1 chk2, chk.run calls = Except.ok chk1 ∧
      chk1.reset fuel = Except.ok (chk2, emitted calls) ∧
      chk2.cpu_arugment_heap_offset = 0 ∧ chk2.gpu_arugment_heap_offset = 0 ∧
      chk2.monoid_list_next = none ∧ chk2.list_end = NodeRef.monoid_list ∧
      (∀ fuel2 cmdbuf, ∃ chk3,
        chk2.encode fuel2 cmdbuf = Except.ok (chk3, context_t.init chk.this_ptr cmdbuf, [])) ∧
      (∀ (ops : List Closure) (fuel2 cmdbuf : Nat), (∀ f ∈ ops, 0 < f.sizeof_EFunc) →
        chk.cpu_argument_heap + cpu_extent 0 (ops.map Call.emit) < WORD → ops.length ≤ fuel2 →
        ∃ chk3 chk4, chk2.emitAll ops = Except.ok chk3 ∧
          chk3.encode fuel2 cmdbuf =
            Except.ok (chk4, replay ops (context_t.init chk.this_ptr cmdbuf), ops)) := by
  have hoff := le_cpu_extent chk.cpu_arugment_heap_offset calls
  obtain ⟨chk1, l, hr, hm, hinv, -, -, ht⟩ :=
    run_chain calls chk [] (ChainInv.of_chainEmpty chk hfresh (by omega)) hsize hfit
  have hinv1 : ChainInv chk1 l := by simpa using hinv
  obtain ⟨chk2, hreset, ho1, ho2, hempty, hbase, hthis⟩ :=
    reset_chain chk1 l hinv1 fuel (by rw [← hm] at hfuel; simpa using hfuel)
  rw [hm] at hreset
  have hbase1 : chk1.cpu_argument_heap = chk.cpu_argument_heap := by
    obtain ⟨_, _, hr2, _, _, hb, _, _⟩ :=
      run_chain calls chk [] (ChainInv.of_chainEmpty chk hfresh (by omega)) hsize hfit
    rw [hr] at hr2
    cases hr2
    exact hb
  have hinv2 : ChainInv chk2 [] :=
    ChainInv.of_chainEmpty chk2 hempty (by rw [hbase, hbase1, ho1]; omega)
  refine ⟨chk1, chk2, hr, hreset, ho1, ho2, hempty.1, hempty.2, ?_, ?_⟩
  · intro fuel2 cmdbuf
    refine ⟨{ chk2 with attached_cmdbuf := cmdbuf }, ?_⟩
    rw [encode_chain chk2 [] hinv2 fuel2 cmdbuf (Nat.zero_le _), hthis, ht]
    rfl
  · intro ops fuel2 cmdbuf hs2 hfit2 hfuel2
    obtain ⟨chk3, l3, hr3, hm3, hinv3, -, -, ht3⟩ :=
      run_chain (ops.map Call.emit) chk2 [] hinv2 (by rw [emitted_map_emit]; exact hs2)
        (by rw [hbase, hbase1, ho1]; exact hfit2)
    rw [emitted_map_emit] at hm3
    refine ⟨chk3, { chk3 with attached_cmdbuf := cmdbuf }, ?_, ?_⟩
    · rw [emitAll_eq_run]; exact hr3
    · have h := encode_chain chk3 l3 (by simpa using hinv3) fuel2 cmdbuf
        (by rw [← hm3] at hfuel2; simpa using hfuel2)
      rw [h, hm3, ht3, hthis, ht]

/-- Witness for C8: closures and raw allocations recorded, then reset. -/
theorem C8_reset_destroys_in_order_and_clears_witness :
    ∃ chk1 chk2,
      sampleChunk.run [Call.emit sampleOpA, Call.allocate_cpu_heap 100 4,
        Call.allocate_gpu_heap 64 16, Call.emit sampleOpB] = Except.ok chk1 ∧
      chk1.reset 2 = Except.ok (chk2, [sampleOpA, sampleOpB]) ∧
      chk2.cpu_arugment_heap_offset = 0 ∧ chk2.gpu_arugment_heap_offset = 0 ∧
      chk2.monoid_list_next = none ∧ chk2.list_end = NodeRef.monoid_list := by
  obtain ⟨chk1, chk2, h1, h2, h3, h4, h5, h6, -, -⟩ :=
    C8_reset_destroys_in_order_and_clears sampleChunk
      [Call.emit sampleOpA, Call.allocate_cpu_heap 100 4, Call.allocate_gpu_heap 64 16,
        Call.emit sampleOpB] 2 ⟨rfl, rfl⟩ (by decide) (by decide) (by decide)
  exact ⟨chk1, chk2, h1, h2, h3, h4, h5, h6⟩

/-! ## The CPU fence -/

/-- Claim C2 (the code departs from it). On a newly constructed queue
`cpu_coherent` is 0; `WaitCPUFence(1)` then leaves its loop at the first load
and returns although the value it observed, 0, is below the awaited 1. The same
happens for every `seq` and every later history of the counter. -/
theorem C2_WaitCPUFence_returns_at_zero :
    CommandQueue.init.WaitCPUFence 1 [] = WaitOutcome.returned 0 ∧ ¬ (0 ≥ 1) ∧
      ∀ seq later, WaitCPUFence seq 0 later = WaitOutcome.returned 0 := by
  refine ⟨rfl, by decide, ?_⟩
  intro seq later
  cases later <;> simp [WaitCPUFence]

/-- Claim C3 (the code departs from it). When the counter has already passed
`seq`, the call does not return at that observation: with `seq = 1` and the
counter at 2 it is blocked, and it stays blocked while the counter moves on to
3 and 4; `WaitCPUFence(0)` on a counter at 5 is blocked as well. -/
theorem C3_WaitCPUFence_blocks_past_seq :
    WaitCPUFence 1 2 [] = WaitOutcome.blocked 2 ∧
      WaitCPUFence 1 2 [3, 4] = WaitOutcome.blocked 4 ∧
      WaitCPUFence 0 5 [] = WaitOutcome.blocked 5 := by
  decide

/-! ## The heap offsets -/

theorem append_singleton_ne {α : Type} (l : List α) (x : α) : l ++ [x] ≠ l := by
  intro h
  have := congrArg List.length h
  simp at this

/-- The CPU allocation writes a line to the log exactly when the offset it
leaves is at or above the capacity. -/
theorem allocate_cpu_heap_logs_iff (chk : CommandChunk) (size alignment : Nat) :
    (chk.allocate_cpu_heap size alignment).1.err_log ≠ chk.err_log ↔
      (chk.allocate_cpu_heap size alignment).1.cpu_arugment_heap_offset ≥
        kCommandChunkCPUHeapSize := by
  show (if _ then _ else _) ≠ _ ↔ _
  split
  · rename_i h
    exact ⟨fun _ => h, fun _ => append_singleton_ne _ _⟩
  · rename_i h
    exact ⟨fun hne => absurd rfl hne, fun hge => absurd hge h⟩

/-- The GPU allocation writes a line to the log exactly when the offset it
leaves is above the capacity. -/
theorem allocate_gpu_heap_logs_iff (chk : CommandChunk) (size alignment : Nat) :
    (chk.allocate_gpu_heap size alignment).1.err_log ≠ chk.err_log ↔
      (chk.allocate_gpu_heap size alignment).1.gpu_arugment_heap_offset >
        kCommandChunkGPUHeapSize := by
  show (if _ then _ else _) ≠ _ ↔ _
  split
  · rename_i h
    exact ⟨fun _ => h, fun _ => append_singleton_ne _ _⟩
  · rename_i h
    exact ⟨fun hne => absurd rfl hne, fun hge => absurd hge h⟩

theorem TrackedChunk.step_inv (t : TrackedChunk) (c : HeapCall) (h : HeapInv t) :
    ∃ t1, t.step c = Except.ok t1 ∧ HeapInv t1 := by
  obtain ⟨hc, hcpu, hgpu⟩ := h
  cases c with
  | allocate_cpu_heap size alignment =>
    refine ⟨_, rfl, ⟨hc, ?_, hgpu⟩⟩
    have hl := allocate_cpu_heap_logs_iff t.chk size alignment
    show (t.chk.allocate_cpu_heap size alignment).1.cpu_arugment_heap_offset ≤ _ ∨
      (t.cpu_overflow_logged ||
        decide ((t.chk.allocate_cpu_heap size alignment).1.err_log ≠ t.chk.err_log)) = true
    by_cases hov : (t.chk.allocate_cpu_heap size alignment).1.cpu_arugment_heap_offset ≥
        kCommandChunkCPUHeapSize
    · right
      rw [Bool.or_eq_true]
      exact Or.inr (decide_eq_true (hl.2 hov))
    · left
      omega
  | allocate_gpu_heap size alignment =>
    refine ⟨_, rfl, ⟨hc, hcpu, ?_⟩⟩
    have hl := allocate_gpu_heap_logs_iff t.chk size alignment
    show (t.chk.allocate_gpu_heap size alignment).1.gpu_arugment_heap_offset ≤ _ ∨
      (t.gpu_overflow_logged ||
        decide ((t.chk.allocate_gpu_heap size alignment).1.err_log ≠ t.chk.err_log)) = true
    by_cases hov : (t.chk.allocate_gpu_heap size alignment).1.gpu_arugment_heap_offset >
        kCommandChunkGPUHeapSize
    · right
      rw [Bool.or_eq_true]
      exact Or.inr (decide_eq_true (hl.2 hov))
    · left
      omega
  | reset =>
    have hr : t.chk.reset 0 = Except.ok
        ({ t.chk with cpu_arugment_heap_offset := 0, gpu_arugment_heap_offset := 0,
                      monoid_list_next := none, list_end := NodeRef.monoid_list,
                      attached_cmdbuf := 0 }, []) := by
      unfold CommandChunk.reset
      rw [hc.1]
      rfl
    refine ⟨TrackedChunk.mk { t.chk with cpu_arugment_heap_offset := 0,
                                         gpu_arugment_heap_offset := 0,
                                         monoid_list_next := none,
                                         list_end := NodeRef.monoid_list,
                                         attached_cmdbuf := 0 } false false, ?_,
      ⟨⟨rfl, rfl⟩, Or.inl (Nat.zero_le _), Or.inl (Nat.zero_le _)⟩⟩
    simp only [TrackedChunk.step, hr]

theorem TrackedChunk.run_inv (calls : List HeapCall) (t : TrackedChunk) (h : HeapInv t) :
    ∃ t1, t.run calls = Except.ok t1 ∧ HeapInv t1 := by
  induction calls generalizing t with
  | nil => exact ⟨t, rfl, h⟩
  | cons c cs ih =>
    obtain ⟨t1, hs, h1⟩ := t.step_inv c h
    obtain ⟨t2, hr, h2⟩ := ih t1 h1
    exact ⟨t2, by simp only [TrackedChunk.run, hs]; exact hr, h2⟩

/-- Claim C7 as stated fails: one allocation larger than the heap leaves the
offset above the capacity, on the CPU heap and on the GPU heap alike. -/
theorem C7_offset_can_exceed_capacity :
    ∃ t, (TrackedChunk.start sampleChunk).run
        [HeapCall.allocate_cpu_heap 0x800001 1, HeapCall.allocate_gpu_heap 0x800001 1] =
        Except.ok t ∧
      ¬ (t.chk.cpu_arugment_heap_offset ≤ kCommandChunkCPUHeapSize) ∧
      ¬ (t.chk.gpu_arugment_heap_offset ≤ kCommandChunkGPUHeapSize) :=
  ⟨_, rfl, by decide, by decide⟩

/-- Claim C7, amended. Starting from a chunk with an empty chain and both
offsets within capacity, every sequence of `allocate_cpu_heap`,
`allocate_gpu_heap` and `reset` calls runs to its end, and after it (hence after
each of its calls) the CPU heap offset is at most `kCommandChunkCPUHeapSize`
unless a CPU allocation has logged an overflow since the last reset, and the GPU
heap offset is at most `kCommandChunkGPUHeapSize` unless a GPU allocation has
logged an overflow since the last reset. -/
theorem C7_offset_within_capacity_or_overflow_logged (chk : CommandChunk)
    (calls : List HeapCall)
    (hfresh : chk.chainEmpty)
    (hcpu : chk.cpu_arugment_heap_offset ≤ kCommandChunkCPUHeapSize)
    (hgpu : chk.gpu_arugment_heap_offset ≤ kCommandChunkGPUHeapSize) :
    ∃ t, (TrackedChunk.start chk).run calls = Except.ok t ∧
      (t.chk.cpu_arugment_heap_offset ≤ kCommandChunkCPUHeapSize ∨
        t.cpu_overflow_logged = true) ∧
      (t.chk.gpu_arugment_heap_offset ≤ kCommandChunkGPUHeapSize ∨
        t.gpu_overflow_logged = true) := by
  obtain ⟨t, hr, hinv⟩ := TrackedChunk.run_inv calls (TrackedChunk.start chk)
    ⟨hfresh, Or.inl hcpu, Or.inl hgpu⟩
  exact ⟨t, hr, hinv.cpu, hinv.gpu⟩

/-- Witness for C7: allocations within and beyond the capacity around a reset. -/
theorem C7_offset_within_capacity_or_overflow_logged_witness :
    ∃ t, (TrackedChunk.start sampleChunk).run
        [HeapCall.allocate_cpu_heap 0x800001 1, HeapCall.reset,
          HeapCall.allocate_gpu_heap 24 8, HeapCall.allocate_cpu_heap 100 16] = Except.ok t ∧
      (t.chk.cpu_arugment_heap_offset ≤ kCommandChunkCPUHeapSize ∨
        t.cpu_overflow_logged = true) ∧
      (t.chk.gpu_arugment_heap_offset ≤ kCommandChunkGPUHeapSize ∨
        t.gpu_overflow_logged = true) :=
  C7_offset_within_capacity_or_overflow_logged sampleChunk
    [HeapCall.allocate_cpu_heap 0x800001 1, HeapCall.reset,
      HeapCall.allocate_gpu_heap 24 8, HeapCall.allocate_cpu_heap 100 16]
    ⟨rfl, rfl⟩ (by decide) (by decide)

/-! ## Regions handed out by the two heaps -/

theorem le_extent (off : Nat) (reqs : List (Nat × Nat)) : off ≤ extent off reqs := by
  induction reqs generalizing off with
  | nil => exact Nat.le_refl _
  | cons r rs ih => exact Nat.le_trans (le_bump _ _ _) (ih _)

theorem extent_append (off : Nat) (reqs : List (Nat × Nat)) (r : Nat × Nat) :
    extent off (reqs ++ [r]) = bump (extent off reqs) r.1 r.2 := by
  induction reqs generalizing off with
  | nil => rfl
  | cons q qs ih => exact ih _

theorem allocate_gpu_heap_offset (chk : CommandChunk) (size alignment : Nat)
    (h : bump chk.gpu_arugment_heap_offset size alignment < WORD) :
    (chk.allocate_gpu_heap size alignment).1.gpu_arugment_heap_offset =
      bump chk.gpu_arugment_heap_offset size alignment := by
  unfold bump at h
  have h1 : (chk.gpu_arugment_heap_offset +
      align_forward_adjustment chk.gpu_arugment_heap_offset alignment) % WORD =
      chk.gpu_arugment_heap_offset +
        align_forward_adjustment chk.gpu_arugment_heap_offset alignment :=
    Nat.mod_eq_of_lt (by omega)
  show ((chk.gpu_arugment_heap_offset + _) % WORD + size) % WORD = _
  rw [h1, Nat.mod_eq_of_lt h]
  rfl

theorem allocate_gpu_heap_result (chk : CommandChunk) (size alignment : Nat)
    (h : chk.gpu_arugment_heap_offset +
      align_forward_adjustment chk.gpu_arugment_heap_offset alignment < WORD) :
    (chk.allocate_gpu_heap size alignment).2 =
      (chk.gpu_argument_heap, chk.gpu_arugment_heap_offset +
        align_forward_adjustment chk.gpu_arugment_heap_offset alignment) := by
  show (chk.gpu_argument_heap, (chk.gpu_arugment_heap_offset + _) % WORD) = _
  rw [Nat.mod_eq_of_lt h]

/-- Regions served from the CPU heap while every offset stays at or below `hi`,
an offset whose address is valid: they lie between the old and the new end of
the used part of the heap. -/
theorem cpuAllocs_regions (reqs : List (Nat × Nat)) (chk : CommandChunk) (hi : Nat)
    (hhi : chk.cpu_argument_heap + hi < WORD)
    (hfit : extent chk.cpu_arugment_heap_offset reqs ≤ hi) :
    (chk.cpuAllocs reqs).1.cpu_argument_heap = chk.cpu_argument_heap ∧
    (chk.cpuAllocs reqs).1.cpu_arugment_heap_offset =
      extent chk.cpu_arugment_heap_offset reqs ∧
    ∀ q ∈ (chk.cpuAllocs reqs).2,
      chk.cpu_argument_heap + chk.cpu_arugment_heap_offset ≤ q.1 ∧
      q.1 + q.2 ≤ chk.cpu_argument_heap + extent chk.cpu_arugment_heap_offset reqs := by
  induction reqs generalizing chk with
  | nil => exact ⟨rfl, rfl, fun q hq => by simp [CommandChunk.cpuAllocs] at hq⟩
  | cons r rs ih =>
    have hle := le_extent (bump chk.cpu_arugment_heap_offset r.1 r.2) rs
    have hfit1 : extent (bump chk.cpu_arugment_heap_offset r.1 r.2) rs ≤ hi := hfit
    have hb : bump chk.cpu_arugment_heap_offset r.1 r.2 =
        chk.cpu_arugment_heap_offset +
          align_forward_adjustment chk.cpu_arugment_heap_offset r.2 + r.1 := rfl
    have ho := allocate_cpu_heap_offset chk r.1 r.2 (by omega)
    have hp := allocate_cpu_heap_ptr chk r.1 r.2 (by omega)
    obtain ⟨f1, -⟩ := allocate_cpu_heap_frame chk r.1 r.2
    obtain ⟨i1, i2, i3⟩ := ih (chk.allocate_cpu_heap r.1 r.2).1 (by rw [f1]; exact hhi)
      (by rw [ho]; exact hfit1)
    rw [f1] at i1 i3
    rw [ho] at i2 i3
    refine ⟨i1, i2, ?_⟩
    intro q hq
    simp only [CommandChunk.cpuAllocs, List.mem_cons] at hq
    rcases hq with hq | hq
    · subst hq
      show chk.cpu_argument_heap + chk.cpu_arugment_heap_offset ≤
          (chk.allocate_cpu_heap r.1 r.2).2 ∧
        (chk.allocate_cpu_heap r.1 r.2).2 + r.1 ≤
          chk.cpu_argument_heap + extent (bump chk.cpu_arugment_heap_offset r.1 r.2) rs
      rw [hp]
      omega
    · have := i3 q hq
      have hb2 := le_bump chk.cpu_arugment_heap_offset r.1 r.2
      exact ⟨by omega, this.2⟩

/-- Regions served from the GPU heap while no offset wraps around: they lie
between the old and the new offset. -/
theorem gpuAllocs_regions (reqs : List (Nat × Nat)) (chk : CommandChunk)
    (hfit : extent chk.gpu_arugment_heap_offset reqs < WORD) :
    (chk.gpuAllocs reqs).1.gpu_arugment_heap_offset =
      extent chk.gpu_arugment_heap_offset reqs ∧
    (chk.gpuAllocs reqs).1.gpu_argument_heap = chk.gpu_argument_heap ∧
    ∀ q ∈ (chk.gpuAllocs reqs).2,
      chk.gpu_arugment_heap_offset ≤ q.1 ∧
      q.1 + q.2 ≤ extent chk.gpu_arugment_heap_offset reqs := by
  induction reqs generalizing chk with
  | nil => exact ⟨rfl, rfl, fun q hq => by simp [CommandChunk.gpuAllocs] at hq⟩
  | cons r rs ih =>
    have hle := le_extent (bump chk.gpu_arugment_heap_offset r.1 r.2) rs
    have hfit1 : extent (bump chk.gpu_arugment_heap_offset r.1 r.2) rs < WORD := hfit
    have hb : bump chk.gpu_arugment_heap_offset r.1 r.2 =
        chk.gpu_arugment_heap_offset +
          align_forward_adjustment chk.gpu_arugment_heap_offset r.2 + r.1 := rfl
    have ho := allocate_gpu_heap_offset chk r.1 r.2 (by omega)
    have hp := allocate_gpu_heap_result chk r.1 r.2 (by omega)
    obtain ⟨-, f2, -⟩ := allocate_gpu_heap_frame chk r.1 r.2
    obtain ⟨i1, i2, i3⟩ := ih (chk.allocate_gpu_heap r.1 r.2).1 (by rw [ho]; exact hfit1)
    rw [ho] at i1 i3
    rw [f2] at i2
    refine ⟨i1, i2, ?_⟩
    intro q hq
    simp only [CommandChunk.gpuAllocs, List.mem_cons] at hq
    rcases hq with hq | hq
    · subst hq
      show chk.gpu_arugment_heap_offset ≤ (chk.allocate_gpu_heap r.1 r.2).2.2 ∧
        (chk.allocate_gpu_heap r.1 r.2).2.2 + r.1 ≤
          extent (bump chk.gpu_arugment_heap_offset r.1 r.2) rs
      rw [hp]
      simp only
      omega
    · have := i3 q hq
      exact ⟨by omega, this.2⟩

/-- Claim C9 as stated fails. (1) A zero-size allocation on a heap that is
exactly full does not overflow (the offset stays at the capacity) and returns
the address `base + capacity`, which is not inside `[base, base + capacity)`;
the GPU heap returns the offset `capacity` likewise. (2) After an allocation of
`2 ^ 64 - 8` bytes, an allocation of 16 bytes leaves the offset at 8, so it does
not overflow, yet the offset has decreased, the address returned lies below the
heap and the region overlaps the one handed out before. -/
theorem C9_allocation_outside_or_overlapping :
    (((sampleChunk.allocate_cpu_heap 0x800000 1).1.allocate_cpu_heap 0 1).1.cpu_arugment_heap_offset
        ≤ kCommandChunkCPUHeapSize ∧
      ¬ (((sampleChunk.allocate_cpu_heap 0x800000 1).1.allocate_cpu_heap 0 1).2 <
        sampleChunk.cpu_argument_heap + kCommandChunkCPUHeapSize)) ∧
    (((sampleChunk.allocate_gpu_heap 0x800000 1).1.allocate_gpu_heap 0 1).1.gpu_arugment_heap_offset
        ≤ kCommandChunkGPUHeapSize ∧
      ¬ (((sampleChunk.allocate_gpu_heap 0x800000 1).1.allocate_gpu_heap 0 1).2.2 <
        kCommandChunkGPUHeapSize)) ∧
    (((sampleChunk.cpuAllocs [(2 ^ 64 - 8, 1)]).1.allocate_cpu_heap 16 1).1.cpu_arugment_heap_offset
        ≤ kCommandChunkCPUHeapSize ∧
      ¬ ((sampleChunk.cpuAllocs [(2 ^ 64 - 8, 1)]).1.cpu_arugment_heap_offset ≤
        ((sampleChunk.cpuAllocs [(2 ^ 64 - 8, 1)]).1.allocate_cpu_heap 16 1).1.cpu_arugment_heap_offset) ∧
      ¬ (sampleChunk.cpu_argument_heap ≤
        ((sampleChunk.cpuAllocs [(2 ^ 64 - 8, 1)]).1.allocate_cpu_heap 16 1).2) ∧
      ¬ (∀ q ∈ (sampleChunk.cpuAllocs [(2 ^ 64 - 8, 1)]).2,
        disjoint q.1 q.2 ((sampleChunk.cpuAllocs [(2 ^ 64 - 8, 1)]).1.allocate_cpu_heap 16 1).2 16)) := by
  refine ⟨⟨by decide, by decide⟩, ⟨by decide, by decide⟩, by decide, by decide, by decide, ?_⟩
  intro h
  have := h (sampleChunk.cpu_argument_heap, 2 ^ 64 - 8) (by simp [CommandChunk.cpuAllocs]; decide)
  revert this
  unfold disjoint
  decide

/-- Claim C9, amended. Let requests be served from a heap, then one more request
of `size > 0` bytes, such that the offset reached, computed in unbounded
arithmetic, is at most the capacity (so neither this allocation nor an earlier
one overflows or wraps around). Then the CPU allocation returns an address `p`
with `base <= p` and `p + size <= base + capacity` (strictly inside the heap),
the GPU allocation returns the heap buffer and an offset `o` with
`o + size <= capacity`, the offset of the heap does not decrease, and the region
handed out is disjoint from every region handed out for the earlier requests. -/
theorem C9_allocation_inside_heap_and_disjoint (chk : CommandChunk)
    (creqs greqs : List (Nat × Nat)) (csize calign gsize galign : Nat)
    (hbase : chk.cpu_argument_heap + kCommandChunkCPUHeapSize ≤ WORD)
    (hcsize : 0 < csize) (hgsize : 0 < gsize)
    (hcfit : extent chk.cpu_arugment_heap_offset (creqs ++ [(csize, calign)]) ≤
      kCommandChunkCPUHeapSize)
    (hgfit : extent chk.gpu_arugment_heap_offset (greqs ++ [(gsize, galign)]) ≤
      kCommandChunkGPUHeapSize) :
    (chk.cpu_argument_heap ≤ ((chk.cpuAllocs creqs).1.allocate_cpu_heap csize calign).2 ∧
      ((chk.cpuAllocs creqs).1.allocate_cpu_heap csize calign).2 + csize ≤
        chk.cpu_argument_heap + kCommandChunkCPUHeapSize ∧
      (chk.cpuAllocs creqs).1.cpu_arugment_heap_offset ≤
        ((chk.cpuAllocs creqs).1.allocate_cpu_heap csize calign).1.cpu_arugment_heap_offset ∧
      ∀ q ∈ (chk.cpuAllocs creqs).2,
        disjoint q.1 q.2 ((chk.cpuAllocs creqs).1.allocate_cpu_heap csize calign).2 csize) ∧
    (((chk.gpuAllocs greqs).1.allocate_gpu_heap gsize galign).2.1 = chk.gpu_argument_heap ∧
      ((chk.gpuAllocs greqs).1.allocate_gpu_heap gsize galign).2.2 + gsize ≤
        kCommandChunkGPUHeapSize ∧
      (chk.gpuAllocs greqs).1.gpu_arugment_heap_offset ≤
        ((chk.gpuAllocs greqs).1.allocate_gpu_heap gsize galign).1.gpu_arugment_heap_offset ∧
      ∀ q ∈ (chk.gpuAllocs greqs).2,
        disjoint q.1 q.2 ((chk.gpuAllocs greqs).1.allocate_gpu_heap gsize galign).2.2 gsize) := by
  have hW : kCommandChunkGPUHeapSize < WORD := by decide
  have hWc : kCommandChunkCPUHeapSize < WORD := by decide
  constructor
  · have hc : extent chk.cpu_arugment_heap_offset creqs +
        align_forward_adjustment (extent chk.cpu_arugment_heap_offset creqs) calign + csize ≤
        kCommandChunkCPUHeapSize := by
      rw [extent_append] at hcfit; exact hcfit
    obtain ⟨h1, h2, h3⟩ := cpuAllocs_regions creqs chk
      (extent chk.cpu_arugment_heap_offset creqs +
        align_forward_adjustment (extent chk.cpu_arugment_heap_offset creqs) calign)
      (by omega) (by omega)
    have ho := allocate_cpu_heap_offset (chk.cpuAllocs creqs).1 csize calign
      (by rw [h2]; unfold bump; omega)
    have hp := allocate_cpu_heap_ptr (chk.cpuAllocs creqs).1 csize calign
      (by rw [h1, h2]; omega)
    rw [h1, h2] at hp
    rw [h2] at ho
    unfold bump at ho
    have hst := le_extent chk.cpu_arugment_heap_offset creqs
    refine ⟨by rw [hp]; omega, by rw [hp]; omega, by rw [ho, h2]; omega, ?_⟩
    intro q hq
    have := h3 q hq
    left
    rw [hp]
    omega
  · have hc : extent chk.gpu_arugment_heap_offset greqs +
        align_forward_adjustment (extent chk.gpu_arugment_heap_offset greqs) galign + gsize ≤
        kCommandChunkGPUHeapSize := by
      rw [extent_append] at hgfit; exact hgfit
    obtain ⟨h1, h2, h3⟩ := gpuAllocs_regions greqs chk (by omega)
    have ho := allocate_gpu_heap_offset (chk.gpuAllocs greqs).1 gsize galign
      (by rw [h1]; unfold bump; omega)
    have hp := allocate_gpu_heap_result (chk.gpuAllocs greqs).1 gsize galign
      (by rw [h1]; omega)
    rw [h1, h2] at hp
    rw [h1] at ho
    unfold bump at ho
    refine ⟨by rw [hp], by rw [hp]; simp only; omega, by rw [ho, h1]; omega, ?_⟩
    intro q hq
    have := h3 q hq
    left
    rw [hp]
    simp only
    omega

/-- Witness for C9: a fourth allocation on each heap after three earlier ones. -/
theorem C9_allocation_inside_heap_and_disjoint_witness :
    (sampleChunk.cpu_argument_heap ≤
        ((sampleChunk.cpuAllocs [(16, 8), (3, 1), (40, 16)]).1.allocate_cpu_heap 24 8).2 ∧
      ((sampleChunk.cpuAllocs [(16, 8), (3, 1), (40, 16)]).1.allocate_cpu_heap 24 8).2 + 24 ≤
        sampleChunk.cpu_argument_heap + kCommandChunkCPUHeapSize ∧
      (sampleChunk.cpuAllocs [(16, 8), (3, 1), (40, 16)]).1.cpu_arugment_heap_offset ≤
        ((sampleChunk.cpuAllocs [(16, 8), (3, 1), (40, 16)]).1.allocate_cpu_heap 24
          8).1.cpu_arugment_heap_offset ∧
      ∀ q ∈ (sampleChunk.cpuAllocs [(16, 8), (3, 1), (40, 16)]).2,
        disjoint q.1 q.2
          ((sampleChunk.cpuAllocs [(16, 8), (3, 1), (40, 16)]).1.allocate_cpu_heap 24 8).2 24) ∧
    (((sampleChunk.gpuAllocs [(64, 16), (5, 4)]).1.allocate_gpu_heap 256 256).2.1 =
        sampleChunk.gpu_argument_heap ∧
      ((sampleChunk.gpuAllocs [(64, 16), (5, 4)]).1.allocate_gpu_heap 256 256).2.2 + 256 ≤
        kCommandChunkGPUHeapSize ∧
      (sampleChunk.gpuAllocs [(64, 16), (5, 4)]).1.gpu_arugment_heap_offset ≤
        ((sampleChunk.gpuAllocs [(64, 16), (5, 4)]).1.allocate_gpu_heap 256
          256).1.gpu_arugment_heap_offset ∧
      ∀ q ∈ (sampleChunk.gpuAllocs [(64, 16), (5, 4)]).2,
        disjoint q.1 q.2
          ((sampleChunk.gpuAllocs [(64, 16), (5, 4)]).1.allocate_gpu_heap 256 256).2.2 256) :=
  C9_allocation_inside_heap_and_disjoint sampleChunk [(16, 8), (3, 1), (40, 16)]
    [(64, 16), (5, 4)] 24 8 256 256 (by decide) (by decide) (by decide) (by decide) (by decide)

/-! ## Dynamic buffers -/

theorem ViewCacheMap.find_assign_same (c : ViewCacheMap) (key : Nat) (v : ViewCache)
    (h : ViewCacheMap.find c key ≠ none) :
    ViewCacheMap.find (ViewCacheMap.assign c key v) key = some v := by
  induction c with
  | nil => exact absurd rfl h
  | cons e rest ih =>
    by_cases he : e.1 = key
    · simp [ViewCacheMap.assign, ViewCacheMap.find, he]
    · have h2 : ViewCacheMap.find rest key ≠ none := by
        simpa [ViewCacheMap.find, he] using h
      have := ih h2
      simp only [ViewCacheMap.assign] at this
      simp [ViewCacheMap.assign, ViewCacheMap.find, he, this]

theorem ViewCacheMap.find_assign_other (c : ViewCacheMap) (key k : Nat) (v : ViewCache)
    (hk : k ≠ key) :
    ViewCacheMap.find (ViewCacheMap.assign c key v) k = ViewCacheMap.find c k := by
  induction c with
  | nil => rfl
  | cons e rest ih =>
    simp only [ViewCacheMap.assign] at ih
    by_cases he : e.1 = key
    · have : e.1 ≠ k := by rw [he]; exact fun h => hk h.symm
      simp [ViewCacheMap.assign, ViewCacheMap.find, he, this, ih, Ne.symm hk]
    · by_cases hek : e.1 = k
      · simp only [ViewCacheMap.assign, List.map, if_neg he, ViewCacheMap.find, if_pos hek]
      · simp only [ViewCacheMap.assign, List.map, if_neg he, ViewCacheMap.find, if_neg hek]
        exact ih

/-- What one `RotateView` does when the current handle is not yet a key of the
cache: a texture is made and cached. -/
theorem TextureSRV.RotateView_miss (srv : TextureSRV) (res : DynamicTexture2D) (dev : MTLDevice)
    (h : ViewCacheMap.find srv.cache res.buffer_handle = none) :
    srv.RotateView res dev =
      ({ srv with
          cache := ViewCacheMap.assign ((res.buffer_handle, ViewCache.empty) :: srv.cache)
            res.buffer_handle
            { view := some (res.buffer.newTexture dev srv.view_desc 0 res.bytes_per_row).1,
              view_handle :=
                (res.buffer.newTexture dev srv.view_desc 0 res.bytes_per_row).1.gpuResourceID },
          view := some (res.buffer.newTexture dev srv.view_desc 0 res.bytes_per_row).1,
          view_handle :=
            (res.buffer.newTexture dev srv.view_desc 0 res.bytes_per_row).1.gpuResourceID },
        (res.buffer.newTexture dev srv.view_desc 0 res.bytes_per_row).2) := by
  simp [TextureSRV.RotateView, ViewCacheMap.insert, h]

/-- What one `RotateView` does when the current handle is a key of the cache:
the cached view is installed and nothing is made. -/
theorem TextureSRV.RotateView_hit (srv : TextureSRV) (res : DynamicTexture2D) (dev : MTLDevice)
    (item : ViewCache) (h : ViewCacheMap.find srv.cache res.buffer_handle = some item) :
    srv.RotateView res dev =
      ({ srv with view := item.view, view_handle := item.view_handle }, dev) := by
  simp [TextureSRV.RotateView, ViewCacheMap.insert, h]

/-- After `RotateView` the cache maps the current handle to the view installed. -/
theorem TextureSRV.RotateView_installed (srv : TextureSRV) (res : DynamicTexture2D)
    (dev : MTLDevice) :
    ViewCacheMap.find (srv.RotateView res dev).1.cache res.buffer_handle =
      some ⟨(srv.RotateView res dev).1.view, (srv.RotateView res dev).1.view_handle⟩ := by
  cases h : ViewCacheMap.find srv.cache res.buffer_handle with
  | none =>
    rw [TextureSRV.RotateView_miss srv res dev h]
    exact ViewCacheMap.find_assign_same _ _ _ (by simp [ViewCacheMap.find])
  | some item =>
    rw [TextureSRV.RotateView_hit srv res dev item h]
    exact h

/-- A key absent before `RotateView` and different from the current handle is
absent after it. -/
theorem TextureSRV.RotateView_absent (srv : TextureSRV) (res : DynamicTexture2D)
    (dev : MTLDevice) (k : Nat) (hk : ViewCacheMap.find srv.cache k = none)
    (hne : k ≠ res.buffer_handle) :
    ViewCacheMap.find (srv.RotateView res dev).1.cache k = none := by
  cases h : ViewCacheMap.find srv.cache res.buffer_handle with
  | none =>
    rw [TextureSRV.RotateView_miss srv res dev h]
    show ViewCacheMap.find (ViewCacheMap.assign _ _ _) k = _
    rw [ViewCacheMap.find_assign_other _ _ _ _ hne]
    simp [ViewCacheMap.find, Ne.symm hne, hk]
  | some it =>
    rw [TextureSRV.RotateView_hit srv res dev it h]
    exact hk

/-- One `RotateView` keeps the cache sound and installs a view made over the
buffer current in the resource. -/
theorem TextureSRV.RotateView_current (all : List MTLBuffer) (s : TextureSRV)
    (res : DynamicTexture2D) (dev : MTLDevice) (hc : CacheOK all s) (hmem : res.buffer ∈ all)
    (hh : res.buffer_handle = res.buffer.gpuAddress) (hinj : AddressesDistinct all) :
    CacheOK all (s.RotateView res dev).1 ∧ ViewCurrent res (s.RotateView res dev).1 := by
  cases h : ViewCacheMap.find s.cache res.buffer_handle with
  | none =>
    rw [TextureSRV.RotateView_miss s res dev h]
    refine ⟨?_, ⟨_, rfl, rfl, rfl⟩⟩
    intro k item hk
    by_cases hkh : k = res.buffer_handle
    · subst hkh
      have := ViewCacheMap.find_assign_same ((res.buffer_handle, ViewCache.empty) :: s.cache)
        res.buffer_handle
        { view := some (res.buffer.newTexture dev s.view_desc 0 res.bytes_per_row).1,
          view_handle :=
            (res.buffer.newTexture dev s.view_desc 0 res.bytes_per_row).1.gpuResourceID }
        (by simp [ViewCacheMap.find])
      rw [this] at hk
      cases hk
      exact ⟨_, rfl, rfl, hh.symm, hmem⟩
    · have hk2 : ViewCacheMap.find (ViewCacheMap.assign
          ((res.buffer_handle, ViewCache.empty) :: s.cache) res.buffer_handle
          { view := some (res.buffer.newTexture dev s.view_desc 0 res.bytes_per_row).1,
            view_handle :=
              (res.buffer.newTexture dev s.view_desc 0 res.bytes_per_row).1.gpuResourceID })
          k = some item := hk
      rw [ViewCacheMap.find_assign_other _ _ _ _ hkh] at hk2
      have hk3 : ViewCacheMap.find s.cache k = some item := by
        simpa [ViewCacheMap.find, Ne.symm hkh] using hk2
      exact hc k item hk3
  | some item =>
    rw [TextureSRV.RotateView_hit s res dev item h]
    obtain ⟨t, h1, h2, h3, h4⟩ := hc _ _ h
    refine ⟨fun k it hk => hc k it hk, ⟨t, h1, h2, ?_⟩⟩
    exact hinj _ h4 _ hmem (by rw [h3, hh])

/-- The loop over `weak_srvs`: when every pointer visited is live it runs to
its end, changes neither the resource nor which views are live, keeps every
cache sound, and leaves every visited view (and every view that was current
before) with a view object over the current buffer. -/
theorem TextureWorld.rotateViewsOf_ok (all : List MTLBuffer) (ps : List Nat) (w : TextureWorld)
    (hlive : ∀ p ∈ ps, (w.srvs p).isSome = true) (hmem : w.res.buffer ∈ all)
    (hh : w.res.buffer_handle = w.res.buffer.gpuAddress) (hinj : AddressesDistinct all) :
    ∃ w2, w.rotateViewsOf ps = Except.ok w2 ∧ w2.res = w.res ∧
      (∀ p, (w2.srvs p).isSome = (w.srvs p).isSome) ∧
      (∀ p s, w.srvs p = some s → CacheOK all s →
        ∃ s2, w2.srvs p = some s2 ∧ CacheOK all s2 ∧
          ((p ∈ ps ∨ ViewCurrent w.res s) → ViewCurrent w.res s2)) := by
  induction ps generalizing w with
  | nil =>
    exact ⟨w, rfl, rfl, fun _ => rfl, fun p s hs hc =>
      ⟨s, hs, hc, fun h => h.elim (fun hp => by simp at hp) id⟩⟩
  | cons a rest ih =>
    have ha := hlive a (List.mem_cons_self _ _)
    cases hsa : w.srvs a with
    | none => rw [hsa] at ha; simp at ha
    | some sa =>
      have hstep : w.RotateView a = Except.ok
          { w with srvs := fun p => if p = a then some (sa.RotateView w.res w.device).1
                                    else w.srvs p,
                   device := (sa.RotateView w.res w.device).2,
                   events := w.events ++ [Event.RotateView a] } := by
        simp only [TextureWorld.RotateView, hsa]
      obtain ⟨w2, hr, hres, hl, hprop⟩ := ih
        { w with srvs := fun p => if p = a then some (sa.RotateView w.res w.device).1
                                  else w.srvs p,
                 device := (sa.RotateView w.res w.device).2,
                 events := w.events ++ [Event.RotateView a] }
        (by
          intro p hp
          show (if p = a then some _ else w.srvs p).isSome = true
          by_cases hpa : p = a
          · simp [hpa]
          · simp only [if_neg hpa]; exact hlive p (List.mem_cons_of_mem _ hp))
        hmem hh
      refine ⟨w2, ?_, hres, ?_, ?_⟩
      · simp only [TextureWorld.rotateViewsOf, hstep]; exact hr
      · intro p
        rw [hl p]
        show (if p = a then some _ else w.srvs p).isSome = _
        by_cases hpa : p = a
        · simp [hpa, hsa]
        · simp [hpa]
      · intro p s hs hc
        by_cases hpa : p = a
        · subst hpa
          rw [hsa] at hs
          cases hs
          obtain ⟨g1, g2⟩ := TextureSRV.RotateView_current all sa w.res w.device hc hmem hh hinj
          obtain ⟨s2, e1, e2, e3⟩ := hprop p (sa.RotateView w.res w.device).1
            (by show (if p = p then _ else _) = _; simp) g1
          exact ⟨s2, e1, e2, fun _ => e3 (Or.inr g2)⟩
        · obtain ⟨s2, e1, e2, e3⟩ := hprop p s
            (by show (if p = a then _ else _) = _; simp [hpa, hs]) hc
          refine ⟨s2, e1, e2, ?_⟩
          rintro (hp | hcur)
          · rcases List.mem_cons.1 hp with hp | hp
            · exact absurd hp hpa
            · exact e3 (Or.inl hp)
          · exact e3 (Or.inr hcur)

/-- One rotation keeps the invariant and installs the incoming buffer. -/
theorem TextureWorld.RotateBuffer_inv (all : List MTLBuffer) (srv : Nat) (w : TextureWorld)
    (exch : IMTLDynamicBufferExchange) (hinv : TexInv all srv w) (hin : exch.incoming ∈ all)
    (hinj : AddressesDistinct all) :
    ∃ w2, w.RotateBuffer exch = Except.ok w2 ∧ TexInv all srv w2 ∧
      w2.res.buffer = exch.incoming := by
  obtain ⟨hlive, hreg, hh, hmem, s, hs, hc, -⟩ := hinv
  obtain ⟨w2, hr, hres, hl, hprop⟩ := TextureWorld.rotateViewsOf_ok all w.res.weak_srvs
    { w with res := { w.res with buffer := exch.incoming,
                                 buffer_handle := exch.incoming.gpuAddress,
                                 buffer_mapped := exch.incoming.contents,
                                 pool_ := { free := w.res.pool_.free.erase exch.incoming } } }
    hlive hin rfl hinj
  have hrot : w.RotateBuffer exch = Except.ok
      { w2 with events := w2.events ++
          (w2.res.observers.map (fun observer => Event.NotifyObserver observer w2.res.buffer.ptr)) } := by
    simp only [TextureWorld.RotateBuffer, IMTLDynamicBufferExchange.ExchangeFromPool]
    rw [hr]
  obtain ⟨s2, e1, e2, e3⟩ := hprop srv s hs hc
  refine ⟨_, hrot, ⟨?_, ?_, ?_, ?_, ⟨s2, e1, e2, ?_⟩⟩, ?_⟩
  · intro p hp
    show (w2.srvs p).isSome = true
    rw [hl p]
    exact hlive p (by rw [hres] at hp; exact hp)
  · show srv ∈ w2.res.weak_srvs
    rw [hres]; exact hreg
  · show w2.res.buffer_handle = w2.res.buffer.gpuAddress
    rw [hres]
  · show w2.res.buffer ∈ all
    rw [hres]; exact hin
  · show ViewCurrent w2.res s2
    rw [hres]; exact e3 (Or.inl hreg)
  · show w2.res.buffer = _
    rw [hres]

/-- Any number of rotations keeps the invariant; the buffer current at the end
is the one installed last. -/
theorem TextureWorld.rotateAll_inv (all : List MTLBuffer) (srv : Nat)
    (exchs : List IMTLDynamicBufferExchange) (w : TextureWorld) (hinv : TexInv all srv w)
    (hin : ∀ e ∈ exchs, e.incoming ∈ all) (hinj : AddressesDistinct all) :
    ∃ w2, w.rotateAll exchs = Except.ok w2 ∧ TexInv all srv w2 ∧
      w2.res.buffer = lastInstalled w.res.buffer exchs := by
  induction exchs generalizing w with
  | nil => exact ⟨w, rfl, hinv, rfl⟩
  | cons e rest ih =>
    obtain ⟨w1, h1, hinv1, hb1⟩ := TextureWorld.RotateBuffer_inv all srv w e hinv
      (hin e (List.mem_cons_self _ _)) hinj
    obtain ⟨w2, h2, hinv2, hb2⟩ := ih w1 hinv1 (fun e2 he2 => hin e2 (List.mem_cons_of_mem _ he2))
    refine ⟨w2, ?_, hinv2, ?_⟩
    · simp only [TextureWorld.rotateAll, h1]; exact h2
    · rw [hb2, hb1]; rfl

/-- A successful `CreateShaderResourceView` leaves a registered live view whose
view object is made over the current buffer. -/
theorem TextureWorld.CreateShaderResourceView_inv (all : List MTLBuffer) (w w1 : TextureWorld)
    (env : ViewCollaborators) (pDesc : Option D3D11_SHADER_RESOURCE_VIEW_DESC) (ppView : Bool)
    (srv : Nat) (out : Option Nat)
    (hlive : ∀ p ∈ w.res.weak_srvs, (w.srvs p).isSome = true)
    (hh : w.res.buffer_handle = w.res.buffer.gpuAddress) (hmem : w.res.buffer ∈ all)
    (hinj : AddressesDistinct all)
    (hcreate : w.CreateShaderResourceView env pDesc ppView srv =
      Except.ok (HRESULT.S_OK, out, w1)) :
    TexInv all srv w1 ∧ w1.res.buffer = w.res.buffer ∧ out = some srv := by
  unfold TextureWorld.CreateShaderResourceView at hcreate
  split at hcreate
  · simp at hcreate
  · rename_i finalDesc hfd
    split at hcreate
    · simp at hcreate
    · split at hcreate
      · simp at hcreate
      · split at hcreate
        · simp at hcreate
        · split at hcreate
          · simp at hcreate
          · rename_i format hfmt
            simp only [TextureWorld.RotateView, if_true] at hcreate
            simp only [Except.ok.injEq, Prod.mk.injEq, true_and] at hcreate
            obtain ⟨hout, hw⟩ := hcreate
            subst hw
            obtain ⟨g1, g2⟩ := TextureSRV.RotateView_current all
              (TextureSRV.construct finalDesc
                { textureType := MTL_TextureType2D, width := w.res.desc.Width,
                  height := w.res.desc.Height, depth := 1, arrayLength := 1,
                  mipmapLevelCount := 1, sampleCount := 1, usage := MTL_TextureUsageShaderRead,
                  storageMode := MTL_StorageModeShared,
                  cpuCacheMode := MTL_CPUCacheModeWriteCombined,
                  pixelFormat := format.PixelFormat })
              { w.res with weak_srvs := w.res.weak_srvs ++ [srv] } w.device
              (by intro k item hk; simp [TextureSRV.construct, ViewCacheMap.find] at hk)
              hmem hh hinj
            refine ⟨⟨?_, ?_, hh, hmem, ⟨_, ?_, g1, g2⟩⟩, rfl, hout.symm⟩
            · intro p hp
              show (if p = srv then some _ else if p = srv then some _ else w.srvs p).isSome = true
              by_cases hps : p = srv
              · simp [hps]
              · simp only [if_neg hps]
                have hp2 : p ∈ w.res.weak_srvs ++ [srv] := hp
                rcases List.mem_append.1 hp2 with h | h
                · exact hlive p h
                · simp at h; exact absurd h hps
            · show srv ∈ w.res.weak_srvs ++ [srv]
              simp
            · show (if srv = srv then some _ else _) = _
              simp

/-- Claim C5. Let a shader-resource view be created on a dynamic texture by a
`CreateShaderResourceView` call that returns `S_OK`, and a Bindable be obtained
from that view. After any sequence of rotations (between buffers with distinct
GPU addresses) every rotation has run to its end, the view object `t` that the
view then holds (`view`, with `view_handle` its resource id) is one made over
the backing buffer installed by the last rotation, the one current at
resolution time, and the Bindable resolves to exactly that object:
`GetBinding` yields the pointer of `t` and `GetArgumentData` yields the
resource id of `t` together with that pointer. -/
theorem C5_view_bindable_resolves_to_current_view (w w1 : TextureWorld)
    (env : ViewCollaborators) (pDesc : Option D3D11_SHADER_RESOURCE_VIEW_DESC)
    (srv ret onBufferSwap x : Nat) (exchs : List IMTLDynamicBufferExchange)
    (hlive : ∀ p ∈ w.res.weak_srvs, (w.srvs p).isSome = true)
    (hhandle : w.res.buffer_handle = w.res.buffer.gpuAddress)
    (hdistinct : AddressesDistinct (buffersInPlay w.res.buffer exchs))
    (hcreate : w.CreateShaderResourceView env pDesc true srv =
      Except.ok (HRESULT.S_OK, some srv, w1)) :
    ∃ (w2 : TextureWorld) (s : TextureSRV) (t : MTLTexture),
      (w1.GetBindable srv ret onBufferSwap).1.rotateAll exchs = Except.ok w2 ∧
      w2.res.buffer = lastInstalled w.res.buffer exchs ∧
      w2.srvs srv = some s ∧ s.view = some t ∧ s.view_handle = t.gpuResourceID ∧
      t.buffer = lastInstalled w.res.buffer exchs ∧
      (w1.GetBindable srv ret onBufferSwap).2.GetBinding_texture w2 x =
        Except.ok (BindingRef.texture (s.view.map MTLTexture.ptr)) ∧
      (w1.GetBindable srv ret onBufferSwap).2.GetBinding_texture w2 x =
        Except.ok (BindingRef.texture (some t.ptr)) ∧
      (w1.GetBindable srv ret onBufferSwap).2.GetArgumentData_texture w2 =
        Except.ok (ArgumentData.texture s.view_handle (s.view.map MTLTexture.ptr)) ∧
      (w1.GetBindable srv ret onBufferSwap).2.GetArgumentData_texture w2 =
        Except.ok (ArgumentData.texture t.gpuResourceID (some t.ptr)) := by
  obtain ⟨hinv1, hb1, -⟩ := TextureWorld.CreateShaderResourceView_inv
    (buffersInPlay w.res.buffer exchs) w w1 env pDesc true srv (some srv) hlive hhandle
    (List.mem_cons_self _ _) hdistinct hcreate
  have hinv1b : TexInv (buffersInPlay w.res.buffer exchs) srv
      (w1.GetBindable srv ret onBufferSwap).1 :=
    ⟨hinv1.live, hinv1.registered, hinv1.handle, hinv1.inPlay, hinv1.current⟩
  obtain ⟨w2, hr, hinv2, hb2⟩ := TextureWorld.rotateAll_inv (buffersInPlay w.res.buffer exchs)
    srv exchs (w1.GetBindable srv ret onBufferSwap).1 hinv1b
    (fun e he => List.mem_cons_of_mem _ (List.mem_map_of_mem _ he)) hdistinct
  obtain ⟨s, hs, -, t, ht1, ht2, ht3⟩ := hinv2.current
  have hcur : w2.res.buffer = lastInstalled w.res.buffer exchs := by
    rw [hb2]
    show lastInstalled w1.res.buffer exchs = _
    rw [hb1]
  have hbind : (w1.GetBindable srv ret onBufferSwap).2.GetBinding_texture w2 x =
      Except.ok (BindingRef.texture (s.view.map MTLTexture.ptr)) := by
    show (match w2.srvs srv with
      | some srv => Except.ok (BindingRef.texture (srv.view.map MTLTexture.ptr))
      | none => Except.error Fault.invalidAccess) = _
    rw [hs]
  have harg : (w1.GetBindable srv ret onBufferSwap).2.GetArgumentData_texture w2 =
      Except.ok (ArgumentData.texture s.view_handle (s.view.map MTLTexture.ptr)) := by
    show (match w2.srvs srv with
      | some srv => Except.ok (ArgumentData.texture srv.view_handle (srv.view.map MTLTexture.ptr))
      | none => Except.error Fault.invalidAccess) = _
    rw [hs]
  refine ⟨w2, s, t, hr, hcur, hs, ht1, ht2, by rw [ht3, hcur], hbind, ?_, harg, ?_⟩
  · rw [hbind, ht1]; rfl
  · rw [harg, ht1, ht2]; rfl

/-- Witness for C5: a view and a Bindable on the sample texture, two rotations. -/
theorem C5_view_bindable_resolves_to_current_view_witness :
    ∃ (w2 : TextureWorld) (s : TextureSRV) (t : MTLTexture),
      (sampleCreatedWorld.GetBindable 0x400 0x500 1).1.rotateAll
        [⟨sampleBufferB⟩, ⟨sampleBufferC⟩] = Except.ok w2 ∧
      w2.res.buffer = sampleBufferC ∧
      w2.srvs 0x400 = some s ∧ s.view = some t ∧ s.view_handle = t.gpuResourceID ∧
      t.buffer = sampleBufferC ∧
      (sampleCreatedWorld.GetBindable 0x400 0x500 1).2.GetBinding_texture w2 0 =
        Except.ok (BindingRef.texture (some t.ptr)) ∧
      (sampleCreatedWorld.GetBindable 0x400 0x500 1).2.GetArgumentData_texture w2 =
        Except.ok (ArgumentData.texture t.gpuResourceID (some t.ptr)) := by
  obtain ⟨w2, s, t, h1, h2, h3, h4, h5, h6, -, h7, -, h8⟩ :=
    C5_view_bindable_resolves_to_current_view sampleTextureWorld sampleCreatedWorld
      sampleCollaborators none 0x400 0x500 1 0 [⟨sampleBufferB⟩, ⟨sampleBufferC⟩]
      (by intro p hp; simp [sampleTextureWorld, DynamicTexture2D.construct] at hp)
      rfl
      (by unfold AddressesDistinct buffersInPlay; decide)
      rfl
  exact ⟨w2, s, t, h1, h2, h3, h4, h5, h6, h7, h8⟩

/-- Claim C6 (the code departs from it). `DynamicTexture2D::RemoveObserver`
and `~SRV` erase the pointer from a copy of the list, so the resource is left
as it was: the destroyed Bindable stays in `observers` and the destroyed view
stays in `weak_srvs`. On the sample texture, after the Bindable at `0x500` is
destroyed the next `RotateBuffer` still calls `NotifyObserver` on it, and after
the view at `0x400` is destroyed the next `RotateBuffer` calls `RotateView`
through the dangling pointer, an invalid access. -/
theorem C6_destroyed_objects_stay_registered :
    (∀ (res : DynamicTexture2D) (p : Nat), (res.RemoveObserver p).observers = res.observers) ∧
    (∀ (w : TextureWorld) (p : Nat), (w.destroySRV p).res.weak_srvs = w.res.weak_srvs) ∧
    (sampleViewBinding.destroy_texture sampleViewWorld).res.observers = [0x500] ∧
    TextureWorld.summary
        ((sampleViewBinding.destroy_texture sampleViewWorld).RotateBuffer ⟨sampleBufferB⟩) =
      Except.ok ({ sampleViewWorld.res with buffer := sampleBufferB,
                                            buffer_handle := sampleBufferB.gpuAddress,
                                            buffer_mapped := sampleBufferB.contents },
        { textures_made := 2 },
        [Event.RotateView 0x400, Event.RotateView 0x400,
          Event.NotifyObserver 0x500 sampleBufferB.ptr]) ∧
    (sampleViewWorld.destroySRV 0x400).res.weak_srvs = [0x400] ∧
    (sampleViewWorld.destroySRV 0x400).srvs 0x400 = none ∧
    TextureWorld.summary ((sampleViewWorld.destroySRV 0x400).RotateBuffer ⟨sampleBufferB⟩) =
      Except.error Fault.invalidAccess :=
  ⟨fun _ _ => rfl, fun _ _ => rfl, rfl, rfl, rfl, rfl, rfl⟩

theorem CommandQueue.step_ordered (q : CommandQueue) (t : QueueThread) (h : q.ordered) :
    (q.step t).ordered := by
  obtain ⟨h1, h2, h3, h4⟩ := h
  cases t with
  | producer =>
    by_cases hg : q.ready_for_encode + 1 ≤ q.cpu_coherent + kCommandChunkCount
    · have e : q.step QueueThread.producer =
          { q with ready_for_commit := q.ready_for_commit + 1,
                   ready_for_encode := q.ready_for_encode + 1 } := by
        simp only [CommandQueue.step, CommandQueue.CommitCurrentChunk, if_pos hg, Option.getD]
      rw [e]
      refine ⟨h1, ?_, ?_, hg⟩
      · show q.chunk_ongoing ≤ q.ready_for_commit + 1
        omega
      · show q.ready_for_commit + 1 ≤ q.ready_for_encode + 1
        omega
    · have e : q.step QueueThread.producer = q := by
        simp only [CommandQueue.step, CommandQueue.CommitCurrentChunk, if_neg hg, Option.getD]
      rw [e]
      exact ⟨h1, h2, h3, h4⟩
  | encode =>
    by_cases hg : q.ready_for_commit > q.chunk_ongoing
    · have e : q.step QueueThread.encode = { q with chunk_ongoing := q.chunk_ongoing + 1 } := by
        simp only [CommandQueue.step, CommandQueue.EncodingThread, if_pos hg, Option.getD]
      rw [e]
      refine ⟨?_, ?_, h3, h4⟩
      · show q.cpu_coherent ≤ q.chunk_ongoing + 1
        omega
      · show q.chunk_ongoing + 1 ≤ q.ready_for_commit
        omega
    · have e : q.step QueueThread.encode = q := by
        simp only [CommandQueue.step, CommandQueue.EncodingThread, if_neg hg, Option.getD]
      rw [e]
      exact ⟨h1, h2, h3, h4⟩
  | finish =>
    by_cases hg : q.cpu_coherent < q.chunk_ongoing
    · have e : q.step QueueThread.finish = { q with cpu_coherent := q.cpu_coherent + 1 } := by
        simp only [CommandQueue.step, CommandQueue.WaitForFinishThread, if_pos hg, Option.getD]
      rw [e]
      refine ⟨?_, h2, h3, ?_⟩
      · show q.cpu_coherent + 1 ≤ q.chunk_ongoing
        omega
      · show q.ready_for_encode ≤ q.cpu_coherent + 1 + kCommandChunkCount
        omega
    · have e : q.step QueueThread.finish = q := by
        simp only [CommandQueue.step, CommandQueue.WaitForFinishThread, if_neg hg, Option.getD]
      rw [e]
      exact ⟨h1, h2, h3, h4⟩

theorem CommandQueue.run_ordered (schedule : List QueueThread) (q : CommandQueue)
    (h : q.ordered) : (q.run schedule).ordered := by
  induction schedule generalizing q with
  | nil => exact h
  | cons t rest ih => exact ih _ (q.step_ordered t h)

/-- Claim C12. In a newly constructed queue, and after every step of the
producer (`CommitCurrentChunk`), of the encode thread and of the finish thread,
taken in any order, `cpu_coherent <= chunk_ongoing <= ready_for_commit <=
ready_for_encode <= cpu_coherent + ring_size` holds, the ring size being
`kCommandChunkCount = 8`. -/
theorem C12_counters_ordered_and_within_ring (schedule : List QueueThread) :
    (CommandQueue.init.run schedule).cpu_coherent ≤
        (CommandQueue.init.run schedule).chunk_ongoing ∧
      (CommandQueue.init.run schedule).chunk_ongoing ≤
        (CommandQueue.init.run schedule).ready_for_commit ∧
      (CommandQueue.init.run schedule).ready_for_commit ≤
        (CommandQueue.init.run schedule).ready_for_encode ∧
      (CommandQueue.init.run schedule).ready_for_encode ≤
        (CommandQueue.init.run schedule).cpu_coherent + 8 ∧
      kCommandChunkCount = 8 := by
  have h := CommandQueue.run_ordered schedule CommandQueue.init
    ⟨by decide, by decide, by decide, by decide⟩
  exact ⟨h.1, h.2.1, h.2.2.1, h.2.2.2, rfl⟩

/-! ## Creating a view of a dynamic texture -/

/-- Claim C11. `CreateShaderResourceView` of a dynamic texture always returns.
When it returns `S_OK`, the resolved description is a 2D-texture view with
`MostDetailedMip = 0` and `MipLevels = 1`, the pixel-format query has succeeded
and the output pointer is non-null. When it returns anything else, nothing has
changed: no view object exists that did not exist before, the list of views of
the resource is as it was, and nothing is written through the output pointer. -/
theorem C11_view_created_only_for_whole_2d_views (w : TextureWorld) (env : ViewCollaborators)
    (pDesc : Option D3D11_SHADER_RESOURCE_VIEW_DESC) (ppView : Bool) (srv : Nat) :
    ∃ (hr : HRESULT) (out : Option Nat) (w1 : TextureWorld),
      w.CreateShaderResourceView env pDesc ppView srv = Except.ok (hr, out, w1) ∧
      (hr = HRESULT.S_OK →
        ∃ finalDesc, env.ExtractEntireResourceViewDescription w.res.desc pDesc = some finalDesc ∧
          finalDesc.ViewDimension = D3D10_SRV_DIMENSION_TEXTURE2D ∧
          finalDesc.Texture2D_MostDetailedMip = 0 ∧ finalDesc.Texture2D_MipLevels = 1 ∧
          (env.QueryFormatDesc finalDesc.Format).isSome = true ∧ ppView = true) ∧
      (hr ≠ HRESULT.S_OK →
        out = none ∧ w1 = w ∧ w1.res.weak_srvs = w.res.weak_srvs ∧ w1.srvs = w.srvs) := by
  unfold TextureWorld.CreateShaderResourceView
  split
  · exact ⟨_, _, _, rfl, HRESULT.noConfusion, fun _ => ⟨rfl, rfl, rfl, rfl⟩⟩
  · rename_i finalDesc hfd
    split
    · exact ⟨_, _, _, rfl, HRESULT.noConfusion, fun _ => ⟨rfl, rfl, rfl, rfl⟩⟩
    · rename_i hdim
      split
      · exact ⟨_, _, _, rfl, HRESULT.noConfusion, fun _ => ⟨rfl, rfl, rfl, rfl⟩⟩
      · rename_i hmip
        split
        · exact ⟨_, _, _, rfl, HRESULT.noConfusion, fun _ => ⟨rfl, rfl, rfl, rfl⟩⟩
        · rename_i hpp
          split
          · exact ⟨_, _, _, rfl, HRESULT.noConfusion, fun _ => ⟨rfl, rfl, rfl, rfl⟩⟩
          · rename_i format hfmt
            simp only [TextureWorld.RotateView, if_true]
            refine ⟨_, _, _, rfl, fun _ => ⟨finalDesc, hfd, ?_, ?_, ?_, ?_, ?_⟩,
              fun h => absurd rfl h⟩
            · exact not_not.1 hdim
            · omega
            · omega
            · rw [hfmt]; rfl
            · simpa using hpp

/-! ## Overflow reports, observers and buffer views -/

/-- Claim C13 (the code departs from it on the CPU heap). An allocation that
fills the CPU heap exactly leaves the offset equal to the capacity, which does
not exceed it, and yet the call logs an overflow: the test at line 142 is
`>=`. The same allocation on the GPU heap, whose test at line 159 is `>`, logs
nothing. Both calls advance the offset and return a location. -/
theorem C13_cpu_heap_reports_overflow_when_exactly_full :
    (sampleChunk.allocate_cpu_heap 0x800000 1).1.cpu_arugment_heap_offset =
        kCommandChunkCPUHeapSize ∧
      ¬ ((sampleChunk.allocate_cpu_heap 0x800000 1).1.cpu_arugment_heap_offset >
        kCommandChunkCPUHeapSize) ∧
      (sampleChunk.allocate_cpu_heap 0x800000 1).1.err_log =
        ["8388608 - cpu argument heap overflow, expect error."] ∧
      (sampleChunk.allocate_cpu_heap 0x800000 1).2 = sampleChunk.cpu_argument_heap ∧
      (sampleChunk.allocate_gpu_heap 0x800000 1).1.gpu_arugment_heap_offset =
        kCommandChunkGPUHeapSize ∧
      (sampleChunk.allocate_gpu_heap 0x800000 1).1.err_log = [] ∧
      (sampleChunk.allocate_gpu_heap 0x800000 1).2 = (sampleChunk.gpu_argument_heap, 0) := by
  refine ⟨by decide, by decide, ?_, by decide, by decide, by decide, by decide⟩
  decide

/-- Claim C15 (the code departs from it). `AddObserver` appends without
looking for the pointer, so registering a registered Bindable adds a second
entry, on a dynamic buffer and on a dynamic texture alike. On a texture, where
`RemoveObserver` removes nothing, obtaining a Bindable, destroying it and
obtaining one again at the same address leaves that address twice in the list. -/
theorem C15_observer_registered_twice :
    (((DynamicBuffer.construct 0x100 sampleBufferA).AddObserver 0x200).AddObserver
        0x200).observers = [0x200, 0x200] ∧
      ((sampleTextureWorld.res.AddObserver 0x200).AddObserver 0x200).observers =
        [0x200, 0x200] ∧
      (((sampleViewBinding.destroy_texture sampleViewWorld).GetBindable 0x400 0x500 1).1).res.observers
        = [0x500, 0x500] := by
  decide

/-- Claim C17 as stated fails. On a dynamic buffer, a call whose description
resolves to a buffer view and whose output pointer is non-null returns
`E_NOTIMPL`, writes nothing through the output pointer and leaves the list of
views empty: no view object is returned or registered. -/
theorem C17_buffer_view_not_created :
    (DynamicBuffer.construct 0x100 sampleBufferA).CreateShaderResourceView ⟨256⟩
        sampleBufferExtract none true =
      (HRESULT.E_NOTIMPL, none, DynamicBuffer.construct 0x100 sampleBufferA) ∧
    ((DynamicBuffer.construct 0x100 sampleBufferA).CreateShaderResourceView ⟨256⟩
        sampleBufferExtract none true).2.2.weak_srvs = [] := by
  decide

/-- Claim C17, amended. On a dynamic buffer, `CreateShaderResourceView` called
with a description that resolves to a buffer view (`BUFFER` or `BUFFEREX`) and
a non-null output pointer returns `E_NOTIMPL`: it creates no view object,
leaves the resource and its list of views as they were and writes nothing
through the output pointer. -/
theorem C17_buffer_view_is_not_implemented (res : DynamicBuffer) (desc : D3D11_BUFFER_DESC)
    (extract : D3D11_BUFFER_DESC → Option D3D11_SHADER_RESOURCE_VIEW_DESC →
      Option D3D11_SHADER_RESOURCE_VIEW_DESC)
    (pDesc : Option D3D11_SHADER_RESOURCE_VIEW_DESC)
    (finalDesc : D3D11_SHADER_RESOURCE_VIEW_DESC)
    (hresolved : extract desc pDesc = some finalDesc)
    (hbuffer : finalDesc.ViewDimension = D3D11_SRV_DIMENSION_BUFFER ∨
      finalDesc.ViewDimension = D3D11_SRV_DIMENSION_BUFFEREX) :
    res.CreateShaderResourceView desc extract pDesc true = (HRESULT.E_NOTIMPL, none, res) ∧
      (res.CreateShaderResourceView desc extract pDesc true).2.2.weak_srvs = res.weak_srvs := by
  have h : res.CreateShaderResourceView desc extract pDesc true =
      (HRESULT.E_NOTIMPL, none, res) := by
    unfold DynamicBuffer.CreateShaderResourceView
    rw [hresolved]
    simp only
    rw [if_neg (by
      intro hne
      rcases hbuffer with h | h
      · exact hne.1 h
      · exact hne.2 h)]
    simp
  exact ⟨h, by rw [h]⟩

/-- Witness for C17: the whole-buffer view of a 256-byte dynamic buffer. -/
theorem C17_buffer_view_is_not_implemented_witness :
    (DynamicBuffer.construct 0x100 sampleBufferA).CreateShaderResourceView ⟨256⟩
        sampleBufferExtract none true =
      (HRESULT.E_NOTIMPL, none, DynamicBuffer.construct 0x100 sampleBufferA) ∧
    ((DynamicBuffer.construct 0x100 sampleBufferA).CreateShaderResourceView ⟨256⟩
        sampleBufferExtract none true).2.2.weak_srvs =
      (DynamicBuffer.construct 0x100 sampleBufferA).weak_srvs :=
  C17_buffer_view_is_not_implemented (DynamicBuffer.construct 0x100 sampleBufferA) ⟨256⟩
    sampleBufferExtract none
    { Format := 0, ViewDimension := D3D11_SRV_DIMENSION_BUFFER, Texture2D_MostDetailedMip := 0,
      Texture2D_MipLevels := 0 }
    rfl (Or.inl rfl)

/-- Claim C18. `RemoveObserver(b)` on a dynamic buffer leaves a list without
any occurrence of `b`, in which every other pointer occurs as often as before
and in the same relative order (the new list is the old one with the
occurrences of `b` struck out); nothing else of the resource changes; and when
`b` is not registered the list is unchanged. -/
theorem C18_remove_observer_strikes_only_that_bindable (res : DynamicBuffer) (b : Nat) :
    b ∉ (res.RemoveObserver b).observers ∧
      (∀ p, p ≠ b → (res.RemoveObserver b).observers.count p = res.observers.count p) ∧
      (res.RemoveObserver b).observers.Sublist res.observers ∧
      (res.RemoveObserver b).observers = res.observers.filter (fun p => p ≠ b) ∧
      res.RemoveObserver b = { res with observers := (res.RemoveObserver b).observers } ∧
      (b ∉ res.observers → (res.RemoveObserver b).observers = res.observers) := by
  refine ⟨?_, ?_, ?_, rfl, rfl, ?_⟩
  · show b ∉ res.observers.filter (fun p => p ≠ b)
    simp [List.mem_filter]
  · intro p hp
    show (res.observers.filter (fun p => p ≠ b)).count p = _
    rw [List.count_filter]
    simpa using hp
  · exact List.filter_sublist _
  · intro hb
    show res.observers.filter (fun p => p ≠ b) = _
    rw [List.filter_eq_self]
    intro a ha
    have : a ≠ b := fun e => hb (e ▸ ha)
    simpa using this

/-! ## The order of work in `RotateBuffer` -/

/-- The loop over `weak_srvs`, without any assumption on the buffers: when every
pointer visited is live it runs to its end, leaves the resource alone, records
one `RotateView` call per pointer, in order, and every view visited ends up
with the cache entry of the current handle installed. -/
theorem TextureWorld.rotateViewsOf_calls (ps : List Nat) (w : TextureWorld)
    (hlive : ∀ p ∈ ps, (w.srvs p).isSome = true) :
    ∃ w2, w.rotateViewsOf ps = Except.ok w2 ∧ w2.res = w.res ∧
      w2.events = w.events ++ ps.map Event.RotateView ∧
      (∀ p, (p ∈ ps ∨ ∃ s, w.srvs p = some s ∧ ViewInstalled w.res s) →
        (w.srvs p).isSome = true → ∃ s2, w2.srvs p = some s2 ∧ ViewInstalled w.res s2) := by
  induction ps generalizing w with
  | nil =>
    refine ⟨w, rfl, rfl, by simp, ?_⟩
    rintro p (hp | ⟨s, hs, hi⟩) _
    · simp at hp
    · exact ⟨s, hs, hi⟩
  | cons a rest ih =>
    have ha := hlive a (List.mem_cons_self _ _)
    cases hsa : w.srvs a with
    | none => rw [hsa] at ha; simp at ha
    | some sa =>
      have hstep : w.RotateView a = Except.ok
          { w with srvs := fun p => if p = a then some (sa.RotateView w.res w.device).1
                                    else w.srvs p,
                   device := (sa.RotateView w.res w.device).2,
                   events := w.events ++ [Event.RotateView a] } := by
        simp only [TextureWorld.RotateView, hsa]
      obtain ⟨w2, hr, hres, hev, hprop⟩ := ih
        { w with srvs := fun p => if p = a then some (sa.RotateView w.res w.device).1
                                  else w.srvs p,
                 device := (sa.RotateView w.res w.device).2,
                 events := w.events ++ [Event.RotateView a] }
        (by
          intro p hp
          show (if p = a then some _ else w.srvs p).isSome = true
          by_cases hpa : p = a
          · simp [hpa]
          · simp only [if_neg hpa]; exact hlive p (List.mem_cons_of_mem _ hp))
      refine ⟨w2, ?_, hres, ?_, ?_⟩
      · simp only [TextureWorld.rotateViewsOf, hstep]; exact hr
      · rw [hev]
        show w.events ++ [Event.RotateView a] ++ _ = _
        simp
      · intro p hp hlp
        by_cases hpa : p = a
        · subst hpa
          exact hprop p (Or.inr ⟨(sa.RotateView w.res w.device).1,
            by show (if p = p then _ else _) = _; simp,
            TextureSRV.RotateView_installed sa w.res w.device⟩)
            (by show (if p = p then some _ else _).isSome = true; simp)
        · refine hprop p ?_ (by show (if p = a then some _ else _).isSome = true; simp [hpa, hlp])
          rcases hp with hp | ⟨s, hs, hi⟩
          · rcases List.mem_cons.1 hp with hp | hp
            · exact absurd hp hpa
            · exact Or.inl hp
          · exact Or.inr ⟨s, by show (if p = a then _ else _) = _; simp [hpa, hs], hi⟩

/-- Claim C14. `RotateBuffer` exchanges the backing allocation first, then calls
`RotateView` on every registered view, then `NotifyObserver` on every
registered observer, each with the buffer that is current after the exchange.
For a dynamic buffer the calls made are exactly these, in this order. For a
dynamic texture whose registered views are live objects the call runs to its
end, the calls it adds are exactly these, in this order, every registered view
has the view object of the new allocation installed, and no observer is
notified with any other buffer. -/
theorem C14_rotate_exchanges_then_refreshes_then_notifies (res : DynamicBuffer)
    (w : TextureWorld) (exch : IMTLDynamicBufferExchange)
    (hlive : ∀ p ∈ w.res.weak_srvs, (w.srvs p).isSome = true) :
    ((res.RotateBuffer exch).1.buffer_dynamic = exch.incoming ∧
      (res.RotateBuffer exch).1.observers = res.observers ∧
      (res.RotateBuffer exch).2 =
        res.weak_srvs.map Event.RotateView ++
          res.observers.map (fun o => Event.NotifyObserver o exch.incoming.ptr)) ∧
    (∃ w2, w.RotateBuffer exch = Except.ok w2 ∧
      w2.res.buffer = exch.incoming ∧
      w2.res.observers = w.res.observers ∧ w2.res.weak_srvs = w.res.weak_srvs ∧
      w2.events = w.events ++ (w.res.weak_srvs.map Event.RotateView ++
        w.res.observers.map (fun o => Event.NotifyObserver o exch.incoming.ptr)) ∧
      (∀ p ∈ w.res.weak_srvs, ∃ s, w2.srvs p = some s ∧ ViewInstalled w2.res s) ∧
      (∀ o b, Event.NotifyObserver o b ∈ w2.events → Event.NotifyObserver o b ∉ w.events →
        b = w2.res.buffer.ptr)) := by
  refine ⟨⟨rfl, rfl, rfl⟩, ?_⟩
  obtain ⟨w2, hr, hres, hev, hprop⟩ := TextureWorld.rotateViewsOf_calls w.res.weak_srvs
    { w with res := { w.res with buffer := exch.incoming,
                                 buffer_handle := exch.incoming.gpuAddress,
                                 buffer_mapped := exch.incoming.contents,
                                 pool_ := { free := w.res.pool_.free.erase exch.incoming } } }
    hlive
  have hrot : w.RotateBuffer exch = Except.ok
      { w2 with events := w2.events ++
          (w2.res.observers.map (fun observer => Event.NotifyObserver observer w2.res.buffer.ptr)) } := by
    simp only [TextureWorld.RotateBuffer, IMTLDynamicBufferExchange.ExchangeFromPool]
    rw [hr]
  have hevents : w2.events ++
      (w2.res.observers.map (fun observer => Event.NotifyObserver observer w2.res.buffer.ptr)) =
      w.events ++ (w.res.weak_srvs.map Event.RotateView ++
        w.res.observers.map (fun o => Event.NotifyObserver o exch.incoming.ptr)) := by
    rw [hev, hres]
    simp
  refine ⟨_, hrot, ?_, ?_, ?_, hevents, ?_, ?_⟩
  · show w2.res.buffer = _
    rw [hres]
  · show w2.res.observers = _
    rw [hres]
  · show w2.res.weak_srvs = _
    rw [hres]
  · intro p hp
    obtain ⟨s2, h1, h2⟩ := hprop p (Or.inl hp) (hlive p hp)
    refine ⟨s2, h1, ?_⟩
    show ViewInstalled w2.res s2
    rw [hres]
    exact h2
  · intro o b hin hnot
    have hin2 : Event.NotifyObserver o b ∈ w.events ++ (w.res.weak_srvs.map Event.RotateView ++
        w.res.observers.map (fun o => Event.NotifyObserver o exch.incoming.ptr)) := by
      rw [← hevents]; exact hin
    rcases List.mem_append.1 hin2 with h | h
    · exact absurd h hnot
    · rcases List.mem_append.1 h with h | h
      · simp at h
      · obtain ⟨o2, -, ho2⟩ := List.mem_map.1 h
        cases ho2
        show exch.incoming.ptr = w2.res.buffer.ptr
        rw [hres]

/-- Witness for C14: one rotation of the sample texture with its view and its
Bindable. -/
theorem C14_rotate_exchanges_then_refreshes_then_notifies_witness :
    ∃ w2, sampleViewWorld.RotateBuffer ⟨sampleBufferB⟩ = Except.ok w2 ∧
      w2.res.buffer = sampleBufferB ∧
      w2.events = sampleViewWorld.events ++ (sampleViewWorld.res.weak_srvs.map Event.RotateView ++
        sampleViewWorld.res.observers.map (fun o => Event.NotifyObserver o sampleBufferB.ptr)) := by
  obtain ⟨-, w2, h1, h2, -, -, h3, -⟩ := C14_rotate_exchanges_then_refreshes_then_notifies
    (DynamicBuffer.construct 0x100 sampleBufferA) sampleViewWorld ⟨sampleBufferB⟩ (by decide)
  exact ⟨w2, h1, h2, h3⟩

/-! ## Growth of the view cache -/

theorem TextureSRV.RotateView_miss_length (srv : TextureSRV) (res : DynamicTexture2D)
    (dev : MTLDevice) (h : ViewCacheMap.find srv.cache res.buffer_handle = none) :
    (srv.RotateView res dev).1.cache.length = srv.cache.length + 1 := by
  rw [TextureSRV.RotateView_miss srv res dev h]
  simp [ViewCacheMap.assign]

/-- Rotating a texture with one registered view through buffers whose GPU
addresses `start, start + 1, ..` are not keys of the cache adds one entry to
the cache per rotation. -/
theorem TextureWorld.rotateAll_cache_grows (srv : Nat) (count : Nat) (start : Nat)
    (w : TextureWorld) (s : TextureSRV) (hw : w.res.weak_srvs = [srv])
    (hs : w.srvs srv = some s)
    (hkeys : ∀ k, start ≤ k → ViewCacheMap.find s.cache k = none) :
    ∃ w2 s2, w.rotateAll (distinctExchangers start count) = Except.ok w2 ∧
      w2.srvs srv = some s2 ∧ s2.cache.length = s.cache.length + count := by
  induction count generalizing start w s with
  | zero => exact ⟨w, s, rfl, hs, rfl⟩
  | succ n ih =>
    have hmiss : ViewCacheMap.find s.cache
        ({ w.res with buffer := bufferAt start, buffer_handle := (bufferAt start).gpuAddress,
                      buffer_mapped := (bufferAt start).contents,
                      pool_ := { free := w.res.pool_.free.erase (bufferAt start) } } :
          DynamicTexture2D).buffer_handle = none := hkeys start (Nat.le_refl _)
    have hrot : ∃ w1, w.RotateBuffer ⟨bufferAt start⟩ = Except.ok w1 ∧
        w1.res.weak_srvs = [srv] ∧
        w1.srvs srv = some (s.RotateView
          { w.res with buffer := bufferAt start, buffer_handle := (bufferAt start).gpuAddress,
                       buffer_mapped := (bufferAt start).contents,
                       pool_ := { free := w.res.pool_.free.erase (bufferAt start) } }
          w.device).1 := by
      simp only [TextureWorld.RotateBuffer, IMTLDynamicBufferExchange.ExchangeFromPool, hw,
        TextureWorld.rotateViewsOf, TextureWorld.RotateView, hs]
      exact ⟨_, rfl, rfl, by simp [hw]⟩
    obtain ⟨w1, h1, hw1, hs1⟩ := hrot
    obtain ⟨w2, s2, h2, hs2, hlen⟩ := ih (start + 1) w1 _ hw1 hs1 (by
      intro k hk
      exact TextureSRV.RotateView_absent s _ w.device k (hkeys k (by omega))
        (by show k ≠ start; omega))
    refine ⟨w2, s2, ?_, hs2, ?_⟩
    · simp only [distinctExchangers, TextureWorld.rotateAll, h1]; exact h2
    · rw [hlen, TextureSRV.RotateView_miss_length s _ w.device hmiss]
      omega

/-- Claim C16 (the code departs from it). No bound holds: whatever `B` is,
rotating the sample texture, which has one view, to `B` backing allocations
with pairwise distinct GPU addresses runs to its end and leaves `B + 1`
entries in the cache of that view, one per allocation ever current. Nothing in
`RotateView` removes an entry. -/
theorem C16_view_cache_grows_without_bound (B : Nat) :
    ∃ w2 s2, sampleCreatedWorld.rotateAll (distinctExchangers 0x10001 B) = Except.ok w2 ∧
      w2.srvs 0x400 = some s2 ∧ s2.cache.length = B + 1 ∧ ¬ (s2.cache.length ≤ B) := by
  have hs : sampleCreatedWorld.srvs 0x400 =
      some ((sampleSRV.RotateView (sampleTextureOver sampleBufferA) ⟨0⟩).1) := by
    decide
  obtain ⟨w2, s2, h1, h2, h3⟩ := TextureWorld.rotateAll_cache_grows 0x400 B 0x10001
    sampleCreatedWorld _ (by decide) hs (by
      intro k hk
      have hne : (0x10000 : Nat) ≠ k := by omega
      simp [TextureSRV.RotateView, sampleSRV, TextureSRV.construct, ViewCacheMap.insert,
        ViewCacheMap.find, ViewCacheMap.assign, sampleTextureOver, DynamicTexture2D.construct,
        sampleBufferA, hne])
  refine ⟨w2, s2, h1, h2, ?_, ?_⟩
  · rw [h3]
    have : ((sampleSRV.RotateView (sampleTextureOver sampleBufferA) ⟨0⟩).1).cache.length = 1 := by
      decide
    omega
  · rw [h3]
    have : ((sampleSRV.RotateView (sampleTextureOver sampleBufferA) ⟨0⟩).1).cache.length = 1 := by
      decide
    omega

/-! ## The alignment adjustment -/

/-- Masking with `2 ^ n - 2 ^ k`, the two's complement of `2 ^ k` in `n` bits,
clears the low `k` bits. -/
theorem land_high_mask (x n k : Nat) (hx : x < 2 ^ n) (hk : k ≤ n) :
    x &&& (2 ^ n - 2 ^ k) = 2 ^ k * (x / 2 ^ k) := by
  have hm : 2 ^ n - 2 ^ k = 2 ^ k * (2 ^ (n - k) - 1) := by
    rw [Nat.mul_sub, Nat.mul_one, ← Nat.pow_add, Nat.add_sub_cancel' hk]
  apply Nat.eq_of_testBit_eq
  intro j
  rw [Nat.testBit_and, hm, Nat.testBit_mul_pow_two, Nat.testBit_mul_pow_two,
    Nat.testBit_two_pow_sub_one, ← Nat.shiftRight_eq_div_pow, Nat.testBit_shiftRight]
  by_cases hj : j ≥ k
  · have e : k + (j - k) = j := by omega
    rw [e]
    by_cases hjn : j < n
    · have : j - k < n - k := by omega
      simp [hj, this]
    · have hx2 : x < 2 ^ j := Nat.lt_of_lt_of_le hx (Nat.pow_le_pow_right (by decide) (by omega))
      simp [Nat.testBit_lt_two_pow hx2]
  · simp [hj]

/-- The remainder of `r + (a - 1)` for a remainder `r` of `a`. -/
theorem pred_mod (r a : Nat) (hr : r < a) :
    (r + (a - 1)) % a = if r = 0 then a - 1 else r - 1 := by
  by_cases h0 : r = 0
  · subst h0
    simp only [if_true, Nat.zero_add]
    exact Nat.mod_eq_of_lt (by omega)
  · simp only [if_neg h0]
    have e : r + (a - 1) = (r - 1) + a := by omega
    rw [e, Nat.add_mod_right]
    exact Nat.mod_eq_of_lt (by omega)

theorem align_forward_adjustment_eq (p k : Nat) (hp : p < WORD) (hk : k < 64) :
    align_forward_adjustment p (2 ^ k) = (2 ^ k - p % 2 ^ k) % 2 ^ k := by
  have hapos : 0 < 2 ^ k := Nat.two_pow_pos k
  have haW : 2 ^ k * 2 ^ (64 - k) = WORD := by
    rw [← Nat.pow_add]
    show 2 ^ (k + (64 - k)) = 2 ^ 64
    congr 1
    omega
  have halt : 2 ^ k < WORD := Nat.pow_lt_pow_right (by decide) hk
  have hdvd : 2 ^ k ∣ WORD := ⟨2 ^ (64 - k), haW.symm⟩
  generalize ha : 2 ^ k = a at *
  -- the value before masking
  have hq : ((p + (WORD - 1) + a) % WORD) % a = (p % a + (a - 1)) % a := by
    rw [Nat.mod_mod_of_dvd _ hdvd]
    have e : p + (WORD - 1) + a = (p + (a - 1)) + WORD := by omega
    rw [e, ← haW, Nat.add_mul_mod_self_left, Nat.add_mod, Nat.mod_eq_of_lt (by omega : a - 1 < a)]
  have hr : p % a < a := Nat.mod_lt _ hapos
  rw [pred_mod _ _ hr] at hq
  have hmask : ((p + (WORD - 1) + a) % WORD) &&& ((WORD - a % WORD) % WORD) =
      a * (((p + (WORD - 1) + a) % WORD) / a) := by
    rw [Nat.mod_eq_of_lt halt, Nat.mod_eq_of_lt (by omega : WORD - a < WORD), ← ha]
    exact land_high_mask _ 64 k (Nat.mod_lt _ (by decide)) (by omega)
  have hdm := Nat.div_add_mod ((p + (WORD - 1) + a) % WORD) a
  have hqv : (p + (WORD - 1) + a) % WORD = p + a - 1 ∨
      ((p + (WORD - 1) + a) % WORD + WORD = p + a - 1 ∧ WORD ≤ p + a - 1) := by
    by_cases hlt : p + a - 1 < WORD
    · left
      have e : p + (WORD - 1) + a = (p + a - 1) + WORD := by omega
      rw [e, Nat.add_mod_right, Nat.mod_eq_of_lt hlt]
    · right
      have e : p + (WORD - 1) + a = (p + a - 1 - WORD) + WORD + WORD := by omega
      rw [e, Nat.add_mod_right, Nat.add_mod_right, Nat.mod_eq_of_lt (by omega)]
      omega
  unfold align_forward_adjustment
  simp only
  rw [Nat.mod_eq_of_lt hp, hmask]
  generalize hQ : (p + (WORD - 1) + a) % WORD = Q at *
  generalize hA : a * (Q / a) = A at *
  generalize hR : p % a = r at *
  have hmle : Q % a ≤ Q := Nat.mod_le _ _
  by_cases h0 : r = 0
  · simp only [h0, if_true] at hq
    rw [h0, Nat.sub_zero, Nat.mod_self]
    rcases hqv with h | ⟨h, hge⟩
    · have : A + (WORD - p) = WORD := by omega
      rw [this, Nat.mod_self]
    · have : A + (WORD - p) = WORD := by omega
      rw [this, Nat.mod_self]
  · simp only [if_neg h0] at hq
    rw [Nat.mod_eq_of_lt (by omega : a - r < a)]
    rcases hqv with h | ⟨h, hge⟩
    · have : A + (WORD - p) = (a - r) + WORD := by omega
      rw [this, Nat.add_mod_right, Nat.mod_eq_of_lt (by omega)]
    · have : A + (WORD - p) = (a - r) := by omega
      rw [this, Nat.mod_eq_of_lt (by omega)]

theorem alignUp_spec (off a : Nat) (ha : 0 < a) :
    alignUp off a % a = 0 ∧ off ≤ alignUp off a ∧
      ∀ m, m % a = 0 → off ≤ m → alignUp off a ≤ m := by
  have hr : off % a < a := Nat.mod_lt _ ha
  have hdm := Nat.div_add_mod off a
  unfold alignUp
  by_cases h0 : off % a = 0
  · rw [h0, Nat.sub_zero, Nat.mod_self, Nat.add_zero]
    exact ⟨h0, Nat.le_refl _, fun m _ hm => hm⟩
  · have e1 : (a - off % a) % a = a - off % a := Nat.mod_eq_of_lt (by omega)
    rw [e1]
    have e2 : off + (a - off % a) = a * (off / a + 1) := by
      rw [Nat.mul_add, Nat.mul_one]; omega
    rw [e2]
    refine ⟨Nat.mul_mod_right _ _, by rw [← e2]; omega, ?_⟩
    intro m hm hle
    have hmd := Nat.div_add_mod m a
    rw [hm, Nat.add_zero] at hmd
    have hdiv : off / a ≤ m / a := Nat.div_le_div_right hle
    have hlt : off / a < m / a := by
      rcases Nat.lt_or_eq_of_le hdiv with h | h
      · exact h
      · exfalso
        rw [← h] at hmd
        omega
    calc a * (off / a + 1) ≤ a * (m / a) := Nat.mul_le_mul_left _ hlt
      _ = m := hmd

theorem align_forward_adjustment_alignUp (p k : Nat) (hp : p < WORD) (hk : k < 64) :
    p + align_forward_adjustment p (2 ^ k) = alignUp p (2 ^ k) := by
  rw [align_forward_adjustment_eq p k hp hk]
  rfl

/-- Claim C20 as stated fails in its second part. With the GPU heap offset at
`2 ^ 64 - 1` and alignment 2 the adjustment is 1, as it should be, but the sum
wraps around and the allocation is placed at offset 0, which is not at or above
the previous offset; the CPU heap behaves the same and returns the base of the
heap. -/
theorem C20_placement_wraps_below_previous_offset :
    (sampleChunk.allocate_gpu_heap (2 ^ 64 - 1) 1).1.gpu_arugment_heap_offset = 2 ^ 64 - 1 ∧
    align_forward_adjustment (2 ^ 64 - 1) 2 = 1 ∧
    ((sampleChunk.allocate_gpu_heap (2 ^ 64 - 1) 1).1.allocate_gpu_heap 8 2).2.2 = 0 ∧
    ¬ ((sampleChunk.allocate_gpu_heap (2 ^ 64 - 1) 1).1.gpu_arugment_heap_offset ≤
      ((sampleChunk.allocate_gpu_heap (2 ^ 64 - 1) 1).1.allocate_gpu_heap 8 2).2.2) ∧
    (sampleChunk.allocate_cpu_heap (2 ^ 64 - 1) 1).1.cpu_arugment_heap_offset = 2 ^ 64 - 1 ∧
    ((sampleChunk.allocate_cpu_heap (2 ^ 64 - 1) 1).1.allocate_cpu_heap 8 2).2 =
      sampleChunk.cpu_argument_heap := by
  decide

/-- Claim C20, amended. For every 64-bit value `p` and every power of two
`a = 2 ^ k` with `k < 64`, `d = align_forward_adjustment(p, a)` is the least
`d >= 0` such that `p + d`, taken modulo `2 ^ 64`, is a multiple of `a`; so
`d < a`, and `d = 0` when `p` is a multiple of `a`, in particular for `p = 0`.
Consequently `p + d` is the least multiple of `a` at or above `p`, and whenever
that multiple is below `2 ^ 64` it is the offset at which `allocate_cpu_heap`
and `allocate_gpu_heap` place an allocation made at offset `p`. -/
theorem C20_adjustment_is_least_and_placement_is_aligned (chk : CommandChunk)
    (p k size : Nat) (hp : p < WORD) (hk : k < 64) :
    (((p + align_forward_adjustment p (2 ^ k)) % WORD) % 2 ^ k = 0 ∧
      align_forward_adjustment p (2 ^ k) < 2 ^ k ∧
      (∀ d, ((p + d) % WORD) % 2 ^ k = 0 → align_forward_adjustment p (2 ^ k) ≤ d) ∧
      (p % 2 ^ k = 0 → align_forward_adjustment p (2 ^ k) = 0) ∧
      align_forward_adjustment 0 (2 ^ k) = 0) ∧
    ((p + align_forward_adjustment p (2 ^ k)) % 2 ^ k = 0 ∧
      (∀ m, m % 2 ^ k = 0 → p ≤ m → p + align_forward_adjustment p (2 ^ k) ≤ m)) ∧
    (chk.cpu_arugment_heap_offset = p → p + align_forward_adjustment p (2 ^ k) < WORD →
      (chk.allocate_cpu_heap size (2 ^ k)).2 =
        ptr_add chk.cpu_argument_heap (p + align_forward_adjustment p (2 ^ k)) ∧
      (chk.allocate_cpu_heap size (2 ^ k)).1.cpu_arugment_heap_offset =
        (p + align_forward_adjustment p (2 ^ k) + size) % WORD) ∧
    (chk.gpu_arugment_heap_offset = p → p + align_forward_adjustment p (2 ^ k) < WORD →
      (chk.allocate_gpu_heap size (2 ^ k)).2 =
        (chk.gpu_argument_heap, p + align_forward_adjustment p (2 ^ k)) ∧
      (chk.allocate_gpu_heap size (2 ^ k)).1.gpu_arugment_heap_offset =
        (p + align_forward_adjustment p (2 ^ k) + size) % WORD) := by
  have hapos : 0 < 2 ^ k := Nat.two_pow_pos k
  have hdvd : 2 ^ k ∣ WORD := ⟨2 ^ (64 - k), by
    rw [← Nat.pow_add]
    show 2 ^ 64 = 2 ^ (k + (64 - k))
    congr 1
    omega⟩
  have hup := align_forward_adjustment_alignUp p k hp hk
  obtain ⟨u1, u2, u3⟩ := alignUp_spec p (2 ^ k) hapos
  have hd := align_forward_adjustment_eq p k hp hk
  have hlt : align_forward_adjustment p (2 ^ k) < 2 ^ k := by
    rw [hd]; exact Nat.mod_lt _ hapos
  refine ⟨⟨?_, hlt, ?_, ?_, ?_⟩, ⟨?_, ?_⟩, ?_, ?_⟩
  · rw [Nat.mod_mod_of_dvd _ hdvd, hup]; exact u1
  · intro d hdm
    rw [Nat.mod_mod_of_dvd _ hdvd] at hdm
    have := u3 (p + d) hdm (Nat.le_add_right _ _)
    rw [← hup] at this
    omega
  · intro hz
    rw [hd, hz, Nat.sub_zero, Nat.mod_self]
  · have h0 := align_forward_adjustment_eq 0 k (by decide) hk
    rw [h0, Nat.zero_mod, Nat.sub_zero, Nat.mod_self]
  · rw [hup]; exact u1
  · intro m hm hle
    rw [hup]; exact u3 m hm hle
  · intro hoff hfit
    subst hoff
    refine ⟨?_, ?_⟩
    · show ptr_add chk.cpu_argument_heap ((chk.cpu_arugment_heap_offset + _) % WORD) = _
      rw [Nat.mod_eq_of_lt hfit]
    · show ((chk.cpu_arugment_heap_offset + _) % WORD + size) % WORD = _
      rw [Nat.mod_eq_of_lt hfit]
  · intro hoff hfit
    subst hoff
    refine ⟨?_, ?_⟩
    · show (chk.gpu_argument_heap, (chk.gpu_arugment_heap_offset + _) % WORD) = _
      rw [Nat.mod_eq_of_lt hfit]
    · show ((chk.gpu_arugment_heap_offset + _) % WORD + size) % WORD = _
      rw [Nat.mod_eq_of_lt hfit]

/-- Witness for C20: offset 13 aligned to 8 on the sample chunk after a 13-byte
allocation on each heap. -/
theorem C20_adjustment_is_least_and_placement_is_aligned_witness :
    align_forward_adjustment 13 (2 ^ 3) < 2 ^ 3 ∧
      ((sampleChunk.allocate_gpu_heap 13 1).1.gpu_arugment_heap_offset = 13 →
        13 + align_forward_adjustment 13 (2 ^ 3) < WORD →
        ((sampleChunk.allocate_gpu_heap 13 1).1.allocate_gpu_heap 24 (2 ^ 3)).2 =
          ((sampleChunk.allocate_gpu_heap 13 1).1.gpu_argument_heap,
            13 + align_forward_adjustment 13 (2 ^ 3)) ∧
        ((sampleChunk.allocate_gpu_heap 13 1).1.allocate_gpu_heap 24
            (2 ^ 3)).1.gpu_arugment_heap_offset =
          (13 + align_forward_adjustment 13 (2 ^ 3) + 24) % WORD) :=
  ⟨(C20_adjustment_is_least_and_placement_is_aligned (sampleChunk.allocate_gpu_heap 13 1).1
      13 3 24 (by decide) (by decide)).1.2.1,
    (C20_adjustment_is_least_and_placement_is_aligned (sampleChunk.allocate_gpu_heap 13 1).1
      13 3 24 (by decide) (by decide)).2.2.2⟩

/-! ## The range assertions of `encode` and `reset` -/

theorem Layout.value_range {lo hi : Nat} {l : List Entry} (h : Layout lo l hi) :
    ∀ e ∈ l, lo ≤ e.value ∧ e.value < hi := by
  induction l generalizing lo with
  | nil => intro e he; simp at he
  | cons d rest ih =>
    obtain ⟨h1, h2, h3, h4⟩ := h
    have hle := h4.le
    simp only [sizeof_Node] at hle
    intro e he
    rcases List.mem_cons.1 he with rfl | he
    · exact ⟨h1, by omega⟩
    · have := ih h4 e he
      simp only [sizeof_Node] at this
      exact ⟨by omega, this.2⟩

/-- With any fuel the replay loop on a linked chain ends normally or runs out
of fuel; no assertion fails and no access is invalid. -/
theorem encodeLoop_chain_any_fuel (chk : CommandChunk) (l : List Entry) (lo : Nat)
    (hlay : Layout lo l (chk.cpu_argument_heap + chk.cpu_arugment_heap_offset))
    (hb : chk.cpu_argument_heap + chk.cpu_arugment_heap_offset < WORD)
    (hlo : chk.cpu_argument_heap ≤ lo) (hlink : Linked chk.memory l)
    (fuel : Nat) (context : context_t) (invoked : List Closure) :
    (∃ r, chk.encodeLoop fuel (headPtr l) context invoked = Except.ok r) ∨
      chk.encodeLoop fuel (headPtr l) context invoked = Except.error Fault.outOfFuel := by
  induction l generalizing lo fuel context invoked with
  | nil => left; cases fuel <;> exact ⟨_, rfl⟩
  | cons e rest ih =>
    obtain ⟨h1, h2, h3, h4⟩ := hlay
    obtain ⟨m1, m2, m3⟩ := hlink
    have hle := h4.le
    simp only [sizeof_Node] at hle
    cases fuel with
    | zero => right; rfl
    | succ fuel =>
      have hc : e.value % WORD ≥ chk.cpu_argument_heap % WORD ∧
          e.value % WORD < (chk.cpu_argument_heap + chk.cpu_arugment_heap_offset) % WORD := by
        rw [Nat.mod_eq_of_lt (by omega : e.value < WORD),
          Nat.mod_eq_of_lt (by omega : chk.cpu_argument_heap < WORD), Nat.mod_eq_of_lt hb]
        omega
      rw [show headPtr (e :: rest) = some e.node from rfl]
      simp only [CommandChunk.encodeLoop, m1, m2, hc, and_self, if_true]
      exact ih (e.node + sizeof_Node) h4 (by simp only [sizeof_Node]; omega) m3 fuel _ _

/-- With any fuel the destruction loop on a linked chain ends normally or runs
out of fuel. -/
theorem resetLoop_chain_any_fuel (base offset : Nat) (l : List Entry) (lo : Nat) (mem : Memory)
    (hlay : Layout lo l (base + offset)) (hb : base + offset < WORD)
    (hlo : base ≤ lo) (hlink : Linked mem l) (fuel : Nat) (destroyed : List Closure) :
    (∃ r, CommandChunk.resetLoop base offset fuel (headPtr l) mem destroyed = Except.ok r) ∨
      CommandChunk.resetLoop base offset fuel (headPtr l) mem destroyed =
        Except.error Fault.outOfFuel := by
  induction l generalizing lo fuel mem destroyed with
  | nil => left; cases fuel <;> exact ⟨_, rfl⟩
  | cons e rest ih =>
    obtain ⟨h1, h2, h3, h4⟩ := hlay
    obtain ⟨m1, m2, m3⟩ := hlink
    have hle := h4.le
    simp only [sizeof_Node] at hle
    cases fuel with
    | zero => right; rfl
    | succ fuel =>
      have hc : e.value % WORD ≥ base % WORD ∧ e.value % WORD < (base + offset) % WORD := by
        rw [Nat.mod_eq_of_lt (by omega : e.value < WORD),
          Nat.mod_eq_of_lt (by omega : base < WORD), Nat.mod_eq_of_lt hb]
        omega
      rw [show headPtr (e :: rest) = some e.node from rfl]
      simp only [CommandChunk.resetLoop, m1, m2, hc, and_self, if_true]
      exact ih (e.node + sizeof_Node) (mem.destroy e.value) h4
        (by simp only [sizeof_Node]; omega)
        (m3.destroy_below h4 e.value (by simp only [sizeof_Node]; omega)) fuel _

/-- Encoding a chunk that holds the chain `l` never ends in a failed assertion. -/
theorem encode_no_failed_assertion (chk : CommandChunk) (l : List Entry) (hinv : ChainInv chk l)
    (fuel cmdbuf : Nat) : chk.encode fuel cmdbuf ≠ Except.error Fault.assertFailed := by
  have h := encodeLoop_chain_any_fuel { chk with attached_cmdbuf := cmdbuf } l
    chk.cpu_argument_heap hinv.layout hinv.bound (Nat.le_refl _) hinv.linked fuel
    (context_t.init chk.this_ptr cmdbuf) []
  have hfirst := hinv.first
  cases chk
  simp only at hfirst h
  subst hfirst
  unfold CommandChunk.encode
  simp only
  rcases h with ⟨r, h⟩ | h
  · rw [h]; simp
  · rw [h]; simp

/-- Claim C19 as stated fails. On the sample chunk (heap base `0x10000`, chain
empty) record `emit sampleOpA` and then `allocate_cpu_heap (2 ^ 64 - 32) 1`. The
chain built by the emit has one node, at `0x10010`, whose closure object lies
at `0x10000`. The allocation takes the 64-bit offset from 32 to
`(32 + 2 ^ 64 - 32) % 2 ^ 64 = 0`, so heap base plus current offset is
`0x10000` and the closure object is not below it: the second half of the range
assertion is false, and both `encode` and `reset` end in the failed assertion
as soon as they look at the node. -/
theorem C19_range_assertion_fails_after_offset_wraparound :
    ∃ chk1 : CommandChunk,
      sampleChunk.run [Call.emit sampleOpA, Call.allocate_cpu_heap (2 ^ 64 - 32) 1] =
        Except.ok chk1 ∧
      chk1.monoid_list_next = some 0x10010 ∧
      (match chk1.memory 0x10010 with
        | some ⟨_, HeapObject.node value next⟩ =>
          value = 0x10000 ∧ next = none ∧ value ≥ chk1.cpu_argument_heap ∧
            ¬ (value < chk1.cpu_argument_heap + chk1.cpu_arugment_heap_offset) ∧
            ¬ (value % WORD <
              (chk1.cpu_argument_heap + chk1.cpu_arugment_heap_offset) % WORD)
        | _ => False) ∧
      (∀ fuel cmdbuf, chk1.encode (fuel + 1) cmdbuf = Except.error Fault.assertFailed) ∧
      (∀ fuel, chk1.reset (fuel + 1) = Except.error Fault.assertFailed) := by
  refine ⟨_, rfl, rfl, ⟨rfl, rfl, by decide, by decide, by decide⟩, fun fuel cmdbuf => rfl,
    fun fuel => rfl⟩

/-- Claim C19, amended. Take a chunk with an empty chain (as the constructor and
`reset()` leave it) and any sequence of `emit` and heap allocation calls,
within the capacity of the heap or beyond it, as long as the heap addresses
reached stay below `2 ^ 64`. The calls succeed and link one node per emitted
closure; the closure object of every node lies at an address at or above the
heap base and below heap base plus the current CPU heap offset, which is what
the two assertions compare; and for every fuel neither `encode` nor `reset`
ends in a failed assertion. -/
theorem C19_range_assertions_never_fail (chk : CommandChunk) (calls : List Call)
    (hfresh : chk.chainEmpty)
    (hsize : ∀ f ∈ emitted calls, 0 < f.sizeof_EFunc)
    (hfit : chk.cpu_argument_heap + cpu_extent chk.cpu_arugment_heap_offset calls < WORD) :
    ∃ chk1 l, chk.run calls = Except.ok chk1 ∧ l.map Entry.func = emitted calls ∧
      chk1.monoid_list_next = headPtr l ∧ Linked chk1.memory l ∧
      (∀ e ∈ l, chk1.cpu_argument_heap ≤ e.value ∧
        e.value < chk1.cpu_argument_heap + chk1.cpu_arugment_heap_offset ∧
        e.value % WORD ≥ chk1.cpu_argument_heap % WORD ∧
        e.value % WORD < (chk1.cpu_argument_heap + chk1.cpu_arugment_heap_offset) % WORD) ∧
      (∀ fuel cmdbuf, chk1.encode fuel cmdbuf ≠ Except.error Fault.assertFailed) ∧
      (∀ fuel, chk1.reset fuel ≠ Except.error Fault.assertFailed) := by
  have hoff := le_cpu_extent chk.cpu_arugment_heap_offset calls
  obtain ⟨chk1, l, hr, hm, hinv, -, -, -⟩ :=
    run_chain calls chk [] (ChainInv.of_chainEmpty chk hfresh (by omega)) hsize hfit
  have hinv1 : ChainInv chk1 l := by simpa using hinv
  refine ⟨chk1, l, hr, hm, hinv1.first, hinv1.linked, ?_, ?_, ?_⟩
  · intro e he
    obtain ⟨g1, g2⟩ := hinv1.layout.value_range e he
    have hb := hinv1.bound
    refine ⟨g1, g2, ?_, ?_⟩
    · rw [Nat.mod_eq_of_lt (by omega : e.value < WORD),
        Nat.mod_eq_of_lt (by omega : chk1.cpu_argument_heap < WORD)]
      exact g1
    · rw [Nat.mod_eq_of_lt (by omega : e.value < WORD), Nat.mod_eq_of_lt hb]
      exact g2
  · intro fuel cmdbuf
    exact encode_no_failed_assertion chk1 l hinv1 fuel cmdbuf
  · intro fuel
    have h := resetLoop_chain_any_fuel chk1.cpu_argument_heap chk1.cpu_arugment_heap_offset l
      chk1.cpu_argument_heap chk1.memory hinv1.layout hinv1.bound (Nat.le_refl _)
      hinv1.linked fuel []
    unfold CommandChunk.reset
    rw [hinv1.first]
    rcases h with ⟨r, h⟩ | h
    · rw [h]; simp
    · rw [h]; simp

/-- Witness for C19: two closures recorded around an allocation that overflows
the CPU heap. -/
theorem C19_range_assertions_never_fail_witness :
    ∃ (chk1 : CommandChunk) (l : List Entry),
      sampleChunk.run [Call.emit sampleOpA, Call.allocate_cpu_heap 0x900000 4,
        Call.emit sampleOpB] = Except.ok chk1 ∧
      l.map Entry.func = [sampleOpA, sampleOpB] ∧
      (∀ e ∈ l, chk1.cpu_argument_heap ≤ e.value ∧
        e.value < chk1.cpu_argument_heap + chk1.cpu_arugment_heap_offset) ∧
      (∀ fuel cmdbuf, chk1.encode fuel cmdbuf ≠ Except.error Fault.assertFailed) := by
  obtain ⟨chk1, l, h1, h2, -, -, h3, h4, -⟩ := C19_range_assertions_never_fail sampleChunk
    [Call.emit sampleOpA, Call.allocate_cpu_heap 0x900000 4, Call.emit sampleOpB]
    ⟨rfl, rfl⟩ (by decide) (by decide)
  exact ⟨chk1, l, h1, h2, fun e he => ⟨(h3 e he).1, (h3 e he).2.1⟩, h4⟩

end dxmt
